import Mathlib

/-!
# Distributed key generation (package dkg): shallow embedding

The embedding follows `precompiles/frost/bytemare-stable/dkg` (dkg.go, frost.go,
messages.go, encoding.go, errors.go). The scalars of
`precompiles/frost/bytemare-stable/secp256k1` (scalar.go, curve.go) and the
reserved precompiles (`precompiles/reserved`, `x/vm/types/precompiles.go`) follow
in the namespaces `secp256k1`, `evmtypes` and `reserved`.

Conventions used throughout:

* `F` is the scalar field and `G` the element group of the ecc group in use; the
  scalar arithmetic is the field arithmetic of `F`, the element arithmetic is the
  additive group of `G`, and `Element.Multiply` is the scalar action of `F` on `G`.
  What the ecc package supplies beyond arithmetic (base point, lengths, encoders,
  hash functions) is the parameter `E : EccGroup F G`; the theorems hold for every
  choice of `F`, `G` and `E`, hence for the group of every ciphersuite.
* The functions of the secret-sharing package are modelled from section 4.2 of the
  specification; each such definition says so.
* `uint16` values are natural numbers; the one place where the source relies on
  wrap-around (`maxSigners-1`) is written with an explicit `% 65536`.
* A Go pointer that the source tests against `nil` is an `Option`; a pointer that
  the source dereferences without a test is a plain value.
* Methods that mutate their receiver return the receiver's new value next to the
  result.
* A run-time panic (index out of range, nil dereference) is the outcome
  `Result.panic`.
-/

namespace DKG

/-! ## Errors and results -/

/-- Errors of the secret-sharing polynomial check (`Polynomial.Verify`). -/
inductive PolyError where
  | polyHasNilCoeff
  | polyHasZeroCoeff
  | polyHasDuplicates
  deriving DecidableEq, Repr

/-- The error values of errors.go, with the identifiers that the wrapping
`fmt.Errorf` calls attach to them; `verificationShareFailed` carries the encodings
of the two elements whose hexadecimal form the message prints. -/
inductive Error where
  | abortInvalidSignature (peer : Nat)
  | abortInvalidSecretShare (id : Nat)
  | invalidCiphersuite
  | participantIDZero
  | idOutOfRange (maxSigners id : Nat)
  | round1DataElements
  | round2DataElements
  | round2InvalidReceiver
  | round2OwnPackage
  | round2FaultyPackage
  | commitmentNotFound (id : Nat)
  | commitmentEmpty (id : Nat)
  | verificationShareFailed (want got : List Nat)
  | nilPubKey
  | missingCommitment
  | commitmentNilElement
  | polynomialLength
  | invalidPolynomial (e : PolyError)
  deriving DecidableEq, Repr

/-- The text of `PolyError` values, as the tests of the package spell them. -/
def PolyError.text : PolyError → String
  | .polyHasNilCoeff => "the polynomial has a nil coefficient"
  | .polyHasZeroCoeff => "one of the polynomial's coefficients is zero"
  | .polyHasDuplicates => "the polynomial has duplicate coefficients"

/-- One hexadecimal digit. -/
def hexDigit (d : Nat) : Char :=
  "0123456789abcdef".toList.getD d '0'

/-- The hexadecimal string of a byte string: `hex.EncodeToString`. -/
def hexString (b : List Nat) : String :=
  String.mk (b.flatMap (fun x => [hexDigit (x / 16 % 16), hexDigit (x % 16)]))

/-- The message of an error: `err.Error()`. -/
def Error.text : Error → String
  | .abortInvalidSignature peer => "ABORT - invalid signature: participant " ++ toString peer
  | .abortInvalidSecretShare id =>
      "ABORT - invalid secret share received from peer: " ++ toString id
  | .invalidCiphersuite => "invalid ciphersuite"
  | .participantIDZero => "identifier is 0"
  | .idOutOfRange maxSigners id =>
      "identifier is above authorized range [1:" ++ toString maxSigners ++ "]: " ++ toString id
  | .round1DataElements => "invalid number of expected round 1 data packets"
  | .round2DataElements => "invalid number of expected round 2 data packets"
  | .round2InvalidReceiver => "invalid receiver in round 2 package"
  | .round2OwnPackage => "mixed packages: received a round 2 package from itself"
  | .round2FaultyPackage => "malformed Round2Data package: sender and recipient are the same"
  | .commitmentNotFound id =>
      "commitment not found in Round 1 data for participant: " ++ toString id
  | .commitmentEmpty id => "commitment is empty: " ++ toString id
  | .verificationShareFailed want got =>
      "failed to compute correct verification share: want \"" ++ hexString want ++ "\" got \""
        ++ hexString got ++ "\""
  | .nilPubKey => "the provided public key is nil"
  | .missingCommitment => "missing commitment"
  | .commitmentNilElement => "commitment has nil element"
  | .polynomialLength => "invalid polynomial length"
  | .invalidPolynomial e => "invalid polynomial: " ++ e.text

/-- Outcome of a call: a value, a returned error, or a run-time panic. -/
inductive Result (α : Type) where
  | ok (v : α)
  | err (e : Error)
  | panic
  deriving DecidableEq, Repr

/-! ## The ecc group (parameter) and its nil conventions -/

/-- What the ecc package supplies for one group besides arithmetic. `h2` is the
wide hash-and-reduce used by `h2ristretto255` and `h2ed25519`. -/
structure EccGroup (F G : Type) where
  base : G
  scalarLength : Nat
  elementLength : Nat
  encodeScalar : F → List Nat
  encodeElement : G → List Nat
  hashToScalar : List Nat → List Nat → F
  h2 : List Nat → F

/-- Modelled from the spec: the group identifiers of the ecc package (its constant
block is not among the sources); the values are those the tests rely on
(0, 2 and 8 are not available, 2 being the unsupported decaf448). -/
def Ristretto255Sha512 : Nat := 1

/-- Modelled from the spec: ecc group identifier of P-256. -/
def P256Sha256 : Nat := 3

/-- Modelled from the spec: ecc group identifier of P-384. -/
def P384Sha384 : Nat := 4

/-- Modelled from the spec: ecc group identifier of P-521. -/
def P521Sha512 : Nat := 5

/-- Modelled from the spec: ecc group identifier of Edwards25519. -/
def Edwards25519Sha512 : Nat := 6

/-- Modelled from the spec: ecc group identifier of secp256k1. -/
def Secp256k1 : Nat := 7

/-- The bytes of an ASCII string constant. -/
def bytes (s : String) : List Nat := s.toList.map Char.toNat

variable {F G : Type}

/-- Modelled from the spec: `Scalar.Multiply` of the ecc package (section 4.1,
multiply-with-nil yields the identity of the operation, here zero, as the
secp256k1 scalar of the sources does). -/
def Scalar.Multiply [Mul F] [Zero F] (s : F) (x : Option F) : F :=
  match x with
  | none => 0
  | some y => s * y

/-- Modelled from the spec: `Element.Multiply` of the ecc package (section 4.1,
multiply-with-nil yields the identity element). -/
def Element.Multiply [Zero G] [SMul F G] (e : G) (x : Option F) : G :=
  match x with
  | none => 0
  | some y => y • e

/-- Modelled from the spec: `Element.Add` of the ecc package (section 4.1,
add-with-nil is a no-op). -/
def Element.Add [Add G] (e : G) (x : Option G) : G :=
  match x with
  | none => e
  | some y => e + y

/-! ## Secret sharing (package secret-sharing, modelled from the spec) -/

/-- Modelled from the spec: `Polynomial.Evaluate` of the secret-sharing package:
section 4.2, the value of the polynomial at `x` by Horner's method. -/
def Evaluate [Add F] [Mul F] [Zero F] (poly : List F) (x : F) : F :=
  poly.foldr (fun a acc => a + x * acc) 0

/-- Modelled from the spec: `Commit` of the secret-sharing package: section 4.2,
one element `Base^poly[k]` per coefficient. -/
def Commit [SMul F G] (E : EccGroup F G) (poly : List F) : List (Option G) :=
  poly.map (fun a => some (a • E.base))

/-- The sum of `x^k * C_k` over a commitment, `k` counted from `k0`. -/
def pubKeySum [Monoid F] [AddZeroClass G] [SMul F G] (x : F) : Nat → List G → G
  | _, [] => 0
  | k, c :: cs => (x ^ k) • c + pubKeySum x (k + 1) cs

/-- All elements of a commitment, or `none` if one of them is nil. -/
def allElements : List (Option G) → Option (List G)
  | [] => some []
  | none :: _ => none
  | some c :: cs =>
    match allElements cs with
    | none => none
    | some l => some (c :: l)

/-- Modelled from the spec: `PubKeyForCommitment` of the secret-sharing package:
section 4.2, the product of `commitment[k]^(id^k)`; a nil element is the error
"commitment has nil element", as the tests of the package dkg expect. -/
def PubKeyForCommitment [Field F] [AddCommGroup G] [Module F G]
    (id : Nat) (commitment : List (Option G)) : Result G :=
  match allElements commitment with
  | none => .err .commitmentNilElement
  | some cs => .ok (pubKeySum (id : F) 0 cs)

/-- Modelled from the spec: `Verify` of the secret-sharing package: section 4.2,
true iff the candidate equals `PubKeyForCommitment`. -/
def Verify [Field F] [AddCommGroup G] [Module F G] [DecidableEq G]
    (id : Nat) (pk : G) (commitment : List (Option G)) : Bool :=
  match PubKeyForCommitment (F := F) id commitment with
  | .ok v => decide (pk = v)
  | _ => false

/-- Modelled from the spec: `Polynomial.Verify` of the secret-sharing package:
section 3, no coefficient is nil, none is zero and no two are equal. -/
def polynomialVerify [Zero F] [DecidableEq F] (p : List (Option F)) : Option PolyError :=
  if p.any Option.isNone then some .polyHasNilCoeff
  else if p.any (fun a => decide (a = some 0)) then some .polyHasZeroCoeff
  else if ¬ p.Nodup then some .polyHasDuplicates
  else none

/-- The Lagrange coefficient at 0 of the node `xi` among the nodes `xs`. -/
def lagrangeAtZero [Field F] [DecidableEq F] (xs : List F) (xi : F) : F :=
  ((xs.filter (fun xj => decide (xj ≠ xi))).map (fun xj => xj / (xj - xi))).prod

/-- The pairs of a share list whose identifier did not occur earlier. -/
def distinctByID : List (Nat × F) → List (Nat × F)
  | [] => []
  | s :: rest => s :: (distinctByID rest).filter (fun r => decide (r.1 ≠ s.1))

/-- Modelled from the spec: `CombineShares` of the secret-sharing package:
section 4.2, Lagrange interpolation at `x = 0` of the pairs (ID, Secret); it
fails if fewer than threshold shares are distinct by ID. The result is `none` on
failure. -/
def CombineShares [Field F] [DecidableEq F] (threshold : Nat) (shares : List (Nat × F)) :
    Option F :=
  let ds := distinctByID shares
  if ds.length < threshold then none
  else
    let xs : List F := ds.map (fun s => (s.1 : F))
    some ((ds.map (fun s => lagrangeAtZero xs (s.1 : F) * s.2)).sum)

/-! ## Schnorr proof of knowledge (frost.go) -/

/-- A Schnorr signature: the proof container of frost.go. -/
structure Signature (F G : Type) where
  R : G
  Z : F
  Group : Nat
  deriving DecidableEq, Repr

/-- Whether the ciphersuite is supported: `Ciphersuite.Available`. -/
def Ciphersuite.Available (c : Nat) : Bool :=
  c = Ristretto255Sha512 || c = P256Sha256 || c = P384Sha384 || c = P521Sha512
    || c = Edwards25519Sha512 || c = Secp256k1

/-- The group of a ciphersuite: `Ciphersuite.Group`. -/
def Ciphersuite.Group (c : Nat) : Nat :=
  if !Ciphersuite.Available c then 0 else c

/-- The Fiat-Shamir challenge: `challenge`. The result is nil when the group is
none of the six of the switch. -/
def challenge [NatCast F] (E : EccGroup F G) (g : Nat) (id : Nat) (pubkey r : G) : Option F :=
  let dst := bytes "dkg"
  let dstLen := [3]
  let sLen := [E.scalarLength % 256]
  let eLen := [E.elementLength % 256]
  let input := sLen ++ E.encodeScalar (id : F) ++ dstLen ++ dst ++ eLen ++ E.encodeElement pubkey
    ++ eLen ++ E.encodeElement r
  if g = Ristretto255Sha512 then
    some (E.h2 (bytes "FROST-RISTRETTO255-SHA512-v1" ++ dst ++ input))
  else if g = P256Sha256 then
    some (E.hashToScalar input (bytes "FROST-P256-SHA256-v1" ++ dst))
  else if g = P384Sha384 then
    some (E.hashToScalar input (bytes "FROST-P384-SHA384-v1" ++ dst))
  else if g = P521Sha512 then
    some (E.hashToScalar input (bytes "FROST-P521-SHA512-v1" ++ dst))
  else if g = Edwards25519Sha512 then
    some (E.h2 (bytes "FROST-ED25519-SHA512-v1" ++ dst ++ input))
  else if g = Secp256k1 then
    some (E.hashToScalar input (bytes "FROST-secp256k1-SHA256-v1" ++ dst))
  else none

/-- The randomness of a proof: `rand[0]` when supplied and not nil, else the
scalar `draw` that `Random()` returns. -/
def proofRandomness (rand : List (Option F)) (draw : F) : F :=
  match rand with
  | some k :: _ => k
  | _ => draw

/-- Proof generation: `generateZKProof`. `draw` is the outcome of `Random()`,
used when no randomness is supplied. -/
def generateZKProof [Field F] [AddCommGroup G] [Module F G] (E : EccGroup F G) (g : Nat)
    (id : Nat) (secret : F) (pubkey : G) (rand : List (Option F)) (draw : F) : Signature F G :=
  let k := proofRandomness rand draw
  let r := k • E.base
  let ch := challenge E g id pubkey r
  let mu := k + Scalar.Multiply secret ch
  { Group := g, R := r, Z := mu }

/-- The exported proof generation: `FrostGenerateZeroKnowledgeProof`. -/
def FrostGenerateZeroKnowledgeProof [Field F] [AddCommGroup G] [Module F G] (E : EccGroup F G)
    (c : Nat) (id : Nat) (secret : F) (pubkey : G) (rand : List (Option F)) (draw : F) :
    Result (Signature F G) :=
  if !Ciphersuite.Available c then .err .invalidCiphersuite
  else .ok (generateZKProof E c id secret pubkey rand draw)

/-- Proof verification: `verifyZKProof`. -/
def verifyZKProof [Field F] [AddCommGroup G] [Module F G] [DecidableEq G] (E : EccGroup F G)
    (g : Nat) (id : Nat) (pubkey : G) (proof : Signature F G) : Bool :=
  let ch := challenge E g id pubkey proof.R
  let rc := proof.Z • E.base - Element.Multiply pubkey ch
  decide (proof.R = rc)

/-- The exported proof verification: `FrostVerifyZeroKnowledgeProof`. -/
def FrostVerifyZeroKnowledgeProof [Field F] [AddCommGroup G] [Module F G] [DecidableEq G]
    (E : EccGroup F G) (c : Nat) (id : Nat) (pubkey : G) (proof : Signature F G) : Result Bool :=
  if !Ciphersuite.Available c then .err .invalidCiphersuite
  else .ok (verifyZKProof E c id pubkey proof)

/-! ## Messages (messages.go) and key shares -/

/-- Output of `Start`, broadcast to all participants. -/
structure Round1Data (F G : Type) where
  ProofOfKnowledge : Signature F G
  Commitment : List (Option G)
  SenderIdentifier : Nat
  Group : Nat
  deriving DecidableEq, Repr

/-- Output of `Continue`, sent to the recipient. -/
structure Round2Data (F : Type) where
  SecretShare : F
  SenderIdentifier : Nat
  RecipientIdentifier : Nat
  Group : Nat
  deriving DecidableEq, Repr

/-- The public part of a key share: `keys.PublicKeyShare`. -/
structure PublicKeyShare (G : Type) where
  PublicKey : G
  VssCommitment : List (Option G)
  ID : Nat
  Group : Nat
  deriving DecidableEq, Repr

/-- The result of `Finalize`: `keys.KeyShare`. -/
structure KeyShare (F G : Type) where
  Secret : F
  VerificationKey : G
  PublicKeyShare : PublicKeyShare G
  deriving DecidableEq, Repr

/-- A Go map from identifiers to Round-2 messages, as a list of bindings with
pairwise distinct keys. -/
abbrev Round2Map (F : Type) := List (Nat × Round2Data F)

/-- The assignment `m[k] = v` of a Go map. -/
def Round2Map.set (m : Round2Map F) (k : Nat) (v : Round2Data F) : Round2Map F :=
  (k, v) :: m.filter (fun e => decide (e.1 ≠ k))

/-- The lookup `m[k]` of a Go map. -/
def Round2Map.get (m : Round2Map F) (k : Nat) : Option (Round2Data F) :=
  (m.find? (fun e => decide (e.1 = k))).map (fun e => e.2)

/-- The keys of a Go map. -/
def Round2Map.keys (m : Round2Map F) : List Nat := m.map (fun e => e.1)

/-! ## Participants (dkg.go) -/

/-- A party of the key generation: `Participant` with its embedded `secrets` and
`config`. -/
structure Participant (F G : Type) where
  secretShare : F
  polynomial : List F
  maxSigners : Nat
  threshold : Nat
  group : Nat
  commitment : List (Option G)
  Identifier : Nat
  deriving DecidableEq, Repr

/-- The polynomial check of `NewParticipant`: `checkPolynomial`. -/
def checkPolynomial [Zero F] [DecidableEq F] (threshold : Nat) (p : List (Option F)) :
    Option Error :=
  if p.length ≠ threshold then some .polynomialLength
  else
    match polynomialVerify p with
    | some e => some (.invalidPolynomial e)
    | none => none

/-- Setting of the polynomial and of the secret share: `initPoly`. `random i` is
the `i`-th scalar that `Random()` returns. -/
def Participant.initPoly [Field F] [DecidableEq F] (p : Participant F G)
    (polynomial : List (Option F)) (random : Nat → F) : Result (Participant F G) :=
  if polynomial.length ≠ 0 then
    match checkPolynomial p.threshold polynomial with
    | some e => .err e
    | none =>
      -- the copies `poly.Copy()`; a nil coefficient does not pass the check above
      match allElements polynomial with
      | none => .panic
      | some poly =>
        .ok { p with polynomial := poly, secretShare := Evaluate poly (p.Identifier : F) }
  else
    let poly := (List.range p.threshold).map random
    .ok { p with polynomial := poly, secretShare := Evaluate poly (p.Identifier : F) }

/-- Instantiation of a participant: `Ciphersuite.NewParticipant`. The secret
share and the polynomial, nil in the struct literal of the source, are zero and
empty until `initPoly` sets them. -/
def NewParticipant [Field F] [AddCommGroup G] [Module F G] [DecidableEq F] (E : EccGroup F G)
    (c : Nat) (id threshold maxSigners : Nat) (polynomial : List (Option F))
    (random : Nat → F) : Result (Participant F G) :=
  if !Ciphersuite.Available c then .err .invalidCiphersuite
  else if id = 0 then .err .participantIDZero
  else if id > maxSigners then .err (.idOutOfRange maxSigners id)
  else
    let p : Participant F G :=
      { Identifier := id, maxSigners := maxSigners, threshold := threshold, group := c,
        secretShare := 0, polynomial := [], commitment := [] }
    match p.initPoly polynomial random with
    | .err e => .err e
    | .panic => .panic
    | .ok p => .ok { p with commitment := Commit E p.polynomial }

/-- Zeroing of the polynomial: `resetPolynomial`. -/
def Participant.resetPolynomial [Zero F] (p : Participant F G) : Participant F G :=
  { p with polynomial := p.polynomial.map (fun _ => 0) }

/-- First round with chosen proof randomness: `StartWithRandom`. `draw` is the
outcome of `Random()`, used when `random` is nil. -/
def Participant.StartWithRandom [Field F] [AddCommGroup G] [Module F G] (E : EccGroup F G)
    (p : Participant F G) (random : Option F) (draw : F) : Result (Round1Data F G) :=
  match p.polynomial, p.commitment with
  | secret :: _, some c0 :: _ =>
    -- a nil `commitment[0]` cannot be encoded by `challenge`
    .ok { Group := p.group, SenderIdentifier := p.Identifier, Commitment := p.commitment,
          ProofOfKnowledge := generateZKProof E p.group p.Identifier secret c0 [random] draw }
  | _, _ => .panic

/-- First round: `Start`. -/
def Participant.Start [Field F] [AddCommGroup G] [Module F G] (E : EccGroup F G)
    (p : Participant F G) (draw : F) : Result (Round1Data F G) :=
  p.StartWithRandom E none draw

/-- The number `int(p.maxSigners-1)`, computed on `uint16`. -/
def Participant.maxSignersMinusOne (p : Participant F G) : Nat :=
  (p.maxSigners + 65535) % 65536

/-- The loop of `Continue` over the Round-1 set, `r2data` being the map built so
far. -/
def continueLoop [Field F] [AddCommGroup G] [Module F G] [DecidableEq G] (E : EccGroup F G)
    (p : Participant F G) : List (Option (Round1Data F G)) → Round2Map F → Result (Round2Map F)
  | [], r2data => .ok r2data
  | none :: rest, r2data => continueLoop E p rest r2data
  | some data :: rest, r2data =>
    if data.SenderIdentifier = p.Identifier then continueLoop E p rest r2data
    else
      match data.Commitment with
      | [] => .err .commitmentNilElement
      | none :: _ => .err .commitmentNilElement
      | some c0 :: _ =>
        let peer := data.SenderIdentifier
        if !verifyZKProof E p.group peer c0 data.ProofOfKnowledge then
          .err (.abortInvalidSignature peer)
        else
          let peerS : F := (peer : F)
          continueLoop E p rest
            (r2data.set peer
              { Group := p.group, SenderIdentifier := p.Identifier, RecipientIdentifier := peer,
                SecretShare := Evaluate p.polynomial peerS })

/-- Second round: `Continue`. The second component is the participant after the
call. -/
def Participant.Continue [Field F] [AddCommGroup G] [Module F G] [DecidableEq G]
    (E : EccGroup F G) (p : Participant F G) (r1DataSet : List (Option (Round1Data F G))) :
    Result (Round2Map F) × Participant F G :=
  if r1DataSet.length ≠ p.maxSigners ∧ r1DataSet.length ≠ p.maxSignersMinusOne then
    (.err .round1DataElements, p)
  else
    match continueLoop E p r1DataSet [] with
    | .ok r2data => (.ok r2data, p.resetPolynomial)
    | .err e => (.err e, p)
    | .panic => (.panic, p)

/-- Lookup of a sender's commitment in the Round-1 set: `getCommitment`. A nil
entry met before the sender is found is dereferenced. -/
def getCommitment : List (Option (Round1Data F G)) → Nat → Result (List (Option G))
  | [], id => .err (.commitmentNotFound id)
  | none :: _, _ => .panic
  | some r1d :: rest, id =>
    if r1d.SenderIdentifier = id then
      if r1d.Commitment.length = 0 then .err (.commitmentEmpty id)
      else .ok r1d.Commitment
    else getCommitment rest id

/-- Header check of a Round-2 message: `checkRound2DataHeader`. -/
def Participant.checkRound2DataHeader (p : Participant F G) (d : Round2Data F) : Option Error :=
  if d.RecipientIdentifier = d.SenderIdentifier then some .round2FaultyPackage
  else if d.SenderIdentifier = p.Identifier then some .round2OwnPackage
  else if d.RecipientIdentifier ≠ p.Identifier then some .round2InvalidReceiver
  else none

/-- Check of a received share against the sender's commitment:
`verifyCommitmentPublicKey`. -/
def Participant.verifyCommitmentPublicKey [Field F] [AddCommGroup G] [Module F G]
    [DecidableEq G] (E : EccGroup F G) (p : Participant F G) (id : Nat) (share : F)
    (commitment : List (Option G)) : Option Error :=
  let pk := share • E.base
  if !Verify (F := F) p.Identifier pk commitment then some (.abortInvalidSecretShare id)
  else none

/-- Validation of one Round-2 message: `verifyRound2Data`; the value is
`com[0]`. -/
def Participant.verifyRound2Data [Field F] [AddCommGroup G] [Module F G] [DecidableEq G]
    (E : EccGroup F G) (p : Participant F G) (r1 : List (Option (Round1Data F G)))
    (r2 : Round2Data F) : Result (Option G) :=
  match p.checkRound2DataHeader r2 with
  | some e => .err e
  | none =>
    match getCommitment r1 r2.SenderIdentifier with
    | .err e => .err e
    | .panic => .panic
    | .ok com =>
      match p.verifyCommitmentPublicKey E r2.SenderIdentifier r2.SecretShare com with
      | some e => .err e
      | none =>
        match com with
        | [] => .panic
        | c0 :: _ => .ok c0

/-- The loop of `Finalize` over the Round-2 messages, with the accumulators
`secretKey` and `verificationKey`. -/
def finalizeLoop [Field F] [AddCommGroup G] [Module F G] [DecidableEq G] (E : EccGroup F G)
    (p : Participant F G) (r1DataSet : List (Option (Round1Data F G))) :
    List (Round2Data F) → F → G → Result (F × G)
  | [], secretKey, verificationKey => .ok (secretKey, verificationKey)
  | data :: rest, secretKey, verificationKey =>
    match p.verifyRound2Data E r1DataSet data with
    | .err e => .err e
    | .panic => .panic
    | .ok peerCommitment =>
      finalizeLoop E p r1DataSet rest (secretKey + data.SecretShare)
        (Element.Add verificationKey peerCommitment)

/-- Third round: `Finalize`. The second component is the participant after the
call; the secret share is zeroed before `commitment[0]` is read. -/
def Participant.Finalize [Field F] [AddCommGroup G] [Module F G] [DecidableEq G]
    (E : EccGroup F G) (p : Participant F G) (r1DataSet : List (Option (Round1Data F G)))
    (r2DataSet : List (Round2Data F)) : Result (KeyShare F G) × Participant F G :=
  if r1DataSet.length ≠ p.maxSigners ∧ r1DataSet.length ≠ p.maxSignersMinusOne then
    (.err .round1DataElements, p)
  else if r2DataSet.length ≠ p.maxSignersMinusOne then
    (.err .round2DataElements, p)
  else
    match finalizeLoop E p r1DataSet r2DataSet 0 0 with
    | .err e => (.err e, p)
    | .panic => (.panic, p)
    | .ok (sk, verificationKey) =>
      let secretKey := sk + p.secretShare
      let p' := { p with secretShare := 0 }
      match p.commitment with
      | [] => (.panic, p')
      | c0 :: _ =>
        (.ok { Secret := secretKey,
               VerificationKey := Element.Add verificationKey c0,
               PublicKeyShare :=
                 { PublicKey := secretKey • E.base, VssCommitment := p.commitment,
                   ID := p.Identifier, Group := p.group } }, p')

/-- The loop of `VerificationKeyFromRound1`: a nil entry or an empty commitment
is dereferenced. -/
def verificationKeyFromRound1Loop [Add G] : List (Option (Round1Data F G)) → G → Result G
  | [], pubKey => .ok pubKey
  | none :: _, _ => .panic
  | some d :: rest, pubKey =>
    match d.Commitment with
    | [] => .panic
    | c0 :: _ => verificationKeyFromRound1Loop rest (Element.Add pubKey c0)

/-- The group public key from a Round-1 set: `VerificationKeyFromRound1`. -/
def VerificationKeyFromRound1 [AddCommGroup G] (c : Nat)
    (r1DataSet : List (Option (Round1Data F G))) : Result G :=
  if !Ciphersuite.Available c then .err .invalidCiphersuite
  else verificationKeyFromRound1Loop r1DataSet 0

/-- The loop of `VerificationKeyFromCommitments`. -/
def verificationKeyFromCommitmentsLoop [Add G] : List (List (Option G)) → G → Result G
  | [], pubKey => .ok pubKey
  | [] :: _, _ => .panic
  | (c0 :: _) :: rest, pubKey => verificationKeyFromCommitmentsLoop rest (Element.Add pubKey c0)

/-- The group public key from all commitments: `VerificationKeyFromCommitments`. -/
def VerificationKeyFromCommitments [AddCommGroup G] (c : Nat)
    (commitments : List (List (Option G))) : Result G :=
  if !Ciphersuite.Available c then .err .invalidCiphersuite
  else verificationKeyFromCommitmentsLoop commitments 0

/-- The loop of `ComputeParticipantPublicKey`. -/
def computeParticipantPublicKeyLoop [Field F] [AddCommGroup G] [Module F G] (id : Nat) :
    List (List (Option G)) → G → Result G
  | [], pk => .ok pk
  | commitment :: rest, pk =>
    if commitment.length = 0 then .err .missingCommitment
    else
      match PubKeyForCommitment (F := F) id commitment with
      | .err e => .err e
      | .panic => .panic
      | .ok prime => computeParticipantPublicKeyLoop id rest (pk + prime)

/-- The verification share of participant `id` from the commitments of round 1:
`ComputeParticipantPublicKey`. -/
def ComputeParticipantPublicKey [Field F] [AddCommGroup G] [Module F G] (c : Nat) (id : Nat)
    (commitments : List (List (Option G))) : Result G :=
  if !Ciphersuite.Available c then .err .invalidCiphersuite
  else if commitments.length = 0 then .err .missingCommitment
  else computeParticipantPublicKeyLoop (F := F) id commitments 0

/-- Check of a public key against the commitments: `VerifyPublicKey`; `none` is
the nil error. -/
def VerifyPublicKey [Field F] [AddCommGroup G] [Module F G] [DecidableEq G] (E : EccGroup F G)
    (c : Nat) (id : Nat) (pubKey : Option G) (commitments : List (List (Option G))) :
    Result Unit :=
  if !Ciphersuite.Available c then .err .invalidCiphersuite
  else
    match pubKey with
    | none => .err .nilPubKey
    | some pk =>
      match ComputeParticipantPublicKey (F := F) c id commitments with
      | .err e => .err e
      | .panic => .panic
      | .ok yi =>
        if pk ≠ yi then
          .err (.verificationShareFailed (E.encodeElement yi) (E.encodeElement pk))
        else .ok ()

/-- The Round-2 message that participant `p` addresses to `peer`: the struct
literal of the loop of `Continue`. -/
def Participant.round2For [Field F] (p : Participant F G) (peer : Nat) : Round2Data F :=
  { Group := p.group, SenderIdentifier := p.Identifier, RecipientIdentifier := peer,
    SecretShare := Evaluate p.polynomial (peer : F) }

/-- The sender identifiers of the non-nil entries of a Round-1 set. -/
def senders (r1 : List (Option (Round1Data F G))) : List Nat :=
  r1.filterMap (fun o => o.map (fun d => d.SenderIdentifier))

/-- The element `commitment[0]` of sender `id` as `getCommitment` finds it in the
Round-1 set; the identity when there is none. -/
def senderCommitmentZero (r1 : List (Option (Round1Data F G))) [Zero G] (id : Nat) : G :=
  match getCommitment r1 id with
  | .ok (some c :: _) => c
  | _ => 0

/-! ## A complete run (the helpers of dkg_test.go) -/

/-- Sequencing of outcomes. -/
def Result.bind {α β : Type} (r : Result α) (f : α → Result β) : Result β :=
  match r with
  | .ok v => f v
  | .err e => .err e
  | .panic => .panic

/-- A loop that stops at the first outcome that is not a value. -/
def Result.mapM {α β : Type} (f : α → Result β) : List α → Result (List β)
  | [] => .ok []
  | a :: as =>
    match f a with
    | .err e => .err e
    | .panic => .panic
    | .ok b =>
      match Result.mapM f as with
      | .err e => .err e
      | .panic => .panic
      | .ok bs => .ok (b :: bs)

/-- The participants 1..n of a test case: `makeParticipants`. `rnd i` is the
stream of scalars that `Random()` returns to participant `i`. -/
def makeParticipants [Field F] [AddCommGroup G] [Module F G] [DecidableEq F] (E : EccGroup F G)
    (c threshold maxParticipants : Nat) (rnd : Nat → Nat → F) :
    Result (List (Participant F G)) :=
  Result.mapM (fun i => NewParticipant E c (i + 1) threshold maxParticipants [] (rnd (i + 1)))
    (List.range maxParticipants)

/-- The Round-1 messages of all participants: `runRound1`. `nonce i` is the
scalar that `Random()` returns in the `Start` of participant `i`. -/
def runRound1 [Field F] [AddCommGroup G] [Module F G] (E : EccGroup F G)
    (ps : List (Participant F G)) (nonce : Nat → F) :
    Result (List (Option (Round1Data F G))) :=
  Result.mapM (fun p => (p.Start E (nonce p.Identifier)).bind (fun d => .ok (some d))) ps

/-- The outcome and receiver state of a call merged into one outcome. -/
def Result.withState {α σ : Type} (r : Result α × σ) : Result (α × σ) :=
  match r with
  | (.ok v, s) => .ok (v, s)
  | (.err e, _) => .err e
  | (.panic, _) => .panic

/-- The call of `Continue` by every participant: the first half of `runRound2`;
each entry is the returned map and the participant after the call. -/
def runContinue [Field F] [AddCommGroup G] [Module F G] [DecidableEq G] (E : EccGroup F G)
    (ps : List (Participant F G)) (r1 : List (Option (Round1Data F G))) :
    Result (List (Round2Map F × Participant F G)) :=
  Result.mapM (fun p => Result.withState (p.Continue E r1)) ps

/-- The triage of `runRound2`: the messages addressed to `id`, in the order of
their senders. -/
def triage (maps : List (Round2Map F)) (id : Nat) : List (Round2Data F) :=
  maps.filterMap (fun m => Round2Map.get m id)

/-- The call of `Finalize` by every participant on its own messages:
`finalize`. -/
def finalize [Field F] [AddCommGroup G] [Module F G] [DecidableEq G] (E : EccGroup F G)
    (ps : List (Participant F G)) (r1 : List (Option (Round1Data F G)))
    (maps : List (Round2Map F)) : Result (List (KeyShare F G)) :=
  Result.mapM (fun p =>
    (Result.withState (p.Finalize E r1 (triage maps p.Identifier))).bind
      (fun out => .ok out.1)) ps

/-- A complete run: `completeDKG`, returning the Round-1 set and the key
shares. -/
def completeDKG [Field F] [AddCommGroup G] [Module F G] [DecidableEq F] [DecidableEq G]
    (E : EccGroup F G) (c threshold maxParticipants : Nat) (rnd : Nat → Nat → F)
    (nonce : Nat → F) : Result (List (Option (Round1Data F G)) × List (KeyShare F G)) :=
  (makeParticipants E c threshold maxParticipants rnd).bind fun ps =>
  (runRound1 E ps nonce).bind fun r1 =>
  (runContinue E ps r1).bind fun out =>
  (finalize E (out.map (fun o => o.2)) r1 (out.map (fun o => o.1))).bind fun keyShares =>
  .ok (r1, keyShares)

/-- The element `commitment[0]` of an entry of a Round-1 set; the identity when
the entry is nil or has none. -/
def commitmentZero [Zero G] (o : Option (Round1Data F G)) : G :=
  match o with
  | some d =>
    match d.Commitment with
    | some c0 :: _ => c0
    | _ => 0
  | none => 0

/-- The value of `PubKeyForCommitment`; the identity when it fails. -/
def pubKeyValue [Field F] [AddCommGroup G] [Module F G] (id : Nat) (commitment : List (Option G)) :
    G :=
  match PubKeyForCommitment (F := F) id commitment with
  | .ok v => v
  | _ => 0

/-! ## The values of an honest run -/

/-- The polynomial that participant `i` draws: `threshold` scalars of its
stream. -/
def honestPolynomial (threshold : Nat) (rnd : Nat → Nat → F) (i : Nat) : List F :=
  (List.range threshold).map (rnd i)

/-- Participant `i` of an honest run after `NewParticipant`. -/
def honestParticipant [Field F] [AddCommGroup G] [Module F G] (E : EccGroup F G)
    (c threshold maxParticipants : Nat) (rnd : Nat → Nat → F) (i : Nat) : Participant F G :=
  { Identifier := i, maxSigners := maxParticipants, threshold := threshold, group := c,
    polynomial := honestPolynomial threshold rnd i,
    secretShare := Evaluate (honestPolynomial threshold rnd i) (i : F),
    commitment := Commit E (honestPolynomial threshold rnd i) }

/-- The Round-1 message of participant `i` of an honest run. -/
def honestRound1 [Field F] [AddCommGroup G] [Module F G] (E : EccGroup F G)
    (c threshold : Nat) (rnd : Nat → Nat → F) (nonce : Nat → F) (i : Nat) : Round1Data F G :=
  { Group := c, SenderIdentifier := i,
    Commitment := Commit E (honestPolynomial threshold rnd i),
    ProofOfKnowledge :=
      generateZKProof E c i (rnd i 0) (rnd i 0 • E.base) [none] (nonce i) }

/-- The Round-1 set of an honest run, in the order of the identifiers. -/
def honestRound1Set [Field F] [AddCommGroup G] [Module F G] (E : EccGroup F G)
    (c threshold maxParticipants : Nat) (rnd : Nat → Nat → F) (nonce : Nat → F) :
    List (Option (Round1Data F G)) :=
  (List.range maxParticipants).map
    (fun idx => some (honestRound1 E c threshold rnd nonce (idx + 1)))

/-- The map that `Continue` returns to participant `i` of an honest run. -/
def honestMap [Field F] [AddCommGroup G] [Module F G] [DecidableEq G] (E : EccGroup F G)
    (c threshold maxParticipants : Nat) (rnd : Nat → Nat → F) (nonce : Nat → F) (i : Nat) :
    Round2Map F :=
  match continueLoop E (honestParticipant E c threshold maxParticipants rnd i)
      (honestRound1Set E c threshold maxParticipants rnd nonce) [] with
  | .ok m => m
  | _ => []

/-- The sum of the values at identifier `i` of the polynomials of all
participants of an honest run. -/
def honestSecret [Field F] (threshold maxParticipants : Nat) (rnd : Nat → Nat → F) (i : Nat) :
    F :=
  ((List.range maxParticipants).map
    (fun idx => Evaluate (honestPolynomial threshold rnd (idx + 1)) (i : F))).sum

/-- The sum of `commitment[0]` over all participants of an honest run. -/
def honestGroupKey [Field F] [AddCommGroup G] [Module F G] (E : EccGroup F G)
    (maxParticipants : Nat) (rnd : Nat → Nat → F) : G :=
  ((List.range maxParticipants).map (fun idx => rnd (idx + 1) 0 • E.base)).sum

/-- The key share of participant `i` of an honest run. -/
def honestKeyShare [Field F] [AddCommGroup G] [Module F G] (E : EccGroup F G)
    (c threshold maxParticipants : Nat) (rnd : Nat → Nat → F) (i : Nat) : KeyShare F G :=
  { Secret := honestSecret threshold maxParticipants rnd i,
    VerificationKey := honestGroupKey E maxParticipants rnd,
    PublicKeyShare :=
      { PublicKey := honestSecret threshold maxParticipants rnd i • E.base,
        VssCommitment := Commit E (honestPolynomial threshold rnd i),
        ID := i, Group := c } }

/-! ## Encodings (frost.go, messages.go) -/

/-- The errors of `hex.DecodeString`: `InvalidByteError` and `ErrLength`. -/
inductive HexError where
  | invalidByte (b : Nat)
  | length
  deriving DecidableEq, Repr

/-- What a decoder reports after its prefix: the error values of errors.go used
by the decoders, with the sizes that `fmt.Errorf` attaches, the message of the
error of the ecc decoder that they wrap, or the error of the hex decoder. -/
inductive DecodeCause where
  | encodingInvalidLength
  | invalidCiphersuite
  | decodeInvalidLength (expected got : Nat)
  | decodeProofR (inner : String)
  | decodeProofZ (inner : String)
  | decodeCommitment (inner : String)
  | decodeSecretShare (inner : String)
  | hex (e : HexError)
  | json (inner : String)
  | missingCommitment
  deriving DecidableEq, Repr

/-- The prefixes `errRound1DecodePrefix`, `errRound2DecodePrefix` and
`errSignatureDecodePrefix`. -/
inductive DecodeTarget where
  | round1
  | round2
  | signature
  deriving DecidableEq, Repr

/-- An error of a decoder: a prefix wrapping a cause. -/
structure DecodeError where
  target : DecodeTarget
  cause : DecodeCause
  deriving DecidableEq, Repr

/-- The text of a prefix. -/
def DecodeTarget.text : DecodeTarget → String
  | .round1 => "failed to decode Round 1 data"
  | .round2 => "failed to decode Round 2 data"
  | .signature => "failed to decode Signature"

/-- The message of a hex error, for a printable invalid byte below 0x100. -/
def HexError.text : HexError → String
  | .invalidByte b =>
      "encoding/hex: invalid byte: U+00" ++ (hexString [b]).toUpper ++ " '"
        ++ String.mk [Char.ofNat b] ++ "'"
  | .length => "encoding/hex: odd length hex string"

/-- The text of a cause. -/
def DecodeCause.text : DecodeCause → String
  | .encodingInvalidLength => "invalid encoding length"
  | .invalidCiphersuite => "invalid ciphersuite"
  | .decodeInvalidLength expected got =>
      "invalid encoding length: expected " ++ toString expected ++ " got " ++ toString got
  | .decodeProofR inner => "invalid encoding of R proof: " ++ inner
  | .decodeProofZ inner => "invalid encoding of z proof: " ++ inner
  | .decodeCommitment inner => "invalid encoding of commitment: " ++ inner
  | .decodeSecretShare inner => "invalid encoding of secret share: " ++ inner
  | .hex e => e.text
  | .json inner => inner
  | .missingCommitment => "missing commitment"

/-- The message of a decoder error: `err.Error()`. -/
def DecodeError.text (e : DecodeError) : String :=
  e.target.text ++ ": " ++ e.cause.text

/-- The decoders of the ecc package for one group (parameter): `Scalar.Decode`
and `Element.Decode`, an error being the message of the Go error. -/
structure EccDecoder (F G : Type) where
  decodeScalar : List Nat → Except String F
  decodeElement : List Nat → Except String G

/-- An element is validly encodable: its encoding has the length of the group, is
made of bytes, and decodes to the element. -/
def EncodableElement (E : EccGroup F G) (D : EccDecoder F G) (x : G) : Prop :=
  (E.encodeElement x).length = E.elementLength ∧ (∀ b ∈ E.encodeElement x, b < 256) ∧
    D.decodeElement (E.encodeElement x) = .ok x

/-- A scalar is validly encodable: its encoding has the length of the group, is
made of bytes, and decodes to the scalar. -/
def EncodableScalar (E : EccGroup F G) (D : EccDecoder F G) (x : F) : Prop :=
  (E.encodeScalar x).length = E.scalarLength ∧ (∀ b ∈ E.encodeScalar x, b < 256) ∧
    D.decodeScalar (E.encodeScalar x) = .ok x

/-- The two bytes that `binary.LittleEndian.PutUint16` writes. -/
def putUint16 (v : Nat) : List Nat := [v % 256, v / 256 % 256]

/-- The value that `binary.LittleEndian.Uint16` reads from `b[0]` and `b[1]`. -/
def uint16LE (b : List Nat) : Nat := b.getD 0 0 + 256 * b.getD 1 0

/-- The slice `data[lo:hi]`. -/
def slice (data : List Nat) (lo hi : Nat) : List Nat := (data.drop lo).take (hi - lo)

/-- The value of a hexadecimal digit: the table of `encoding/hex`. -/
def fromHexChar (c : Char) : Option Nat :=
  if '0' ≤ c ∧ c ≤ '9' then some (c.toNat - '0'.toNat)
  else if 'a' ≤ c ∧ c ≤ 'f' then some (c.toNat - 'a'.toNat + 10)
  else if 'A' ≤ c ∧ c ≤ 'F' then some (c.toNat - 'A'.toNat + 10)
  else none

/-- The bytes of a Go string written as a text: its UTF-8 encoding. -/
def stringBytes (s : String) : List Nat :=
  s.toList.flatMap (fun c => (String.utf8EncodeChar c).map UInt8.toNat)

/-- The loop of `hex.Decode` over the bytes of the string, two at a time; a last
single byte is checked before the bad length is reported. -/
def hexDecodeLoop : List Nat → Except HexError (List Nat)
  | [] => .ok []
  | [p] =>
    match fromHexChar (Char.ofNat p) with
    | none => .error (.invalidByte p)
    | some _ => .error .length
  | p :: q :: rest =>
    match fromHexChar (Char.ofNat p) with
    | none => .error (.invalidByte p)
    | some a =>
      match fromHexChar (Char.ofNat q) with
      | none => .error (.invalidByte q)
      | some b =>
        match hexDecodeLoop rest with
        | .error e => .error e
        | .ok bs => .ok ((a * 16 + b) :: bs)

/-- Decoding of a hexadecimal string: `hex.DecodeString`. -/
def hexDecodeString (h : String) : Except HexError (List Nat) :=
  hexDecodeLoop (stringBytes h)

/-- The encodings of the elements of a commitment, one after the other: the loop
of `Round1Data.Encode`. A nil element cannot be encoded. -/
def encodeCommitment (E : EccGroup F G) : List (Option G) → Result (List Nat)
  | [] => .ok []
  | none :: _ => .panic
  | some c :: cs =>
    match encodeCommitment E cs with
    | .ok out => .ok (E.encodeElement c ++ out)
    | .err e => .err e
    | .panic => .panic

/-- The compact byte serialization of a Round-1 message: `Round1Data.Encode`. -/
def Round1Data.Encode (E : EccGroup F G) (d : Round1Data F G) : Result (List Nat) :=
  let out := [d.Group % 256] ++ putUint16 d.SenderIdentifier
    ++ putUint16 (d.Commitment.length % 65536)
    ++ E.encodeElement d.ProofOfKnowledge.R ++ E.encodeScalar d.ProofOfKnowledge.Z
  match encodeCommitment E d.Commitment with
  | .ok coms => .ok (out ++ coms)
  | .err e => .err e
  | .panic => .panic

/-- The hexadecimal form of the encoding: `Round1Data.Hex`. -/
def Round1Data.Hex (E : EccGroup F G) (d : Round1Data F G) : Result String :=
  match d.Encode E with
  | .ok out => .ok (hexString out)
  | .err e => .err e
  | .panic => .panic

/-- Reading of a scalar at an offset: `readScalarFromBytes`. -/
def readScalarFromBytes (E : EccGroup F G) (D : EccDecoder F G) (data : List Nat)
    (offset : Nat) : Except String (F × Nat) :=
  match D.decodeScalar (slice data offset (offset + E.scalarLength)) with
  | .error err => .error err
  | .ok s => .ok (s, offset + E.scalarLength)

/-- Reading of an element at an offset: `readElementFromBytes`. -/
def readElementFromBytes (E : EccGroup F G) (D : EccDecoder F G) (data : List Nat)
    (offset : Nat) : Except String (G × Nat) :=
  match D.decodeElement (slice data offset (offset + E.elementLength)) with
  | .error err => .error err
  | .ok e => .ok (e, offset + E.elementLength)

/-- The loop of `Round1Data.Decode` that reads `comLen` elements from an
offset. -/
def readCommitment (E : EccGroup F G) (D : EccDecoder F G) (data : List Nat) :
    Nat → Nat → Except String (List G)
  | 0, _ => .ok []
  | comLen + 1, offset =>
    match readElementFromBytes E D data offset with
    | .error err => .error err
    | .ok (e, next) =>
      match readCommitment E D data comLen next with
      | .error err => .error err
      | .ok com => .ok (e :: com)

/-- Deserialization of a Round-1 message: `Round1Data.Decode`, `E` and `D` being
the operations of the group `ecc.Group(data[0])`. The result is the error, if
any, and the receiver after the call. -/
def Round1Data.Decode (E : EccGroup F G) (D : EccDecoder F G) (d : Round1Data F G)
    (data : List Nat) : Option DecodeError × Round1Data F G :=
  if data.length ≤ 5 then (some ⟨.round1, .encodingInvalidLength⟩, d)
  else
    let c := data.getD 0 0
    if !Ciphersuite.Available c then (some ⟨.round1, .invalidCiphersuite⟩, d)
    else
      let id := uint16LE (slice data 1 3)
      let comLen := uint16LE (slice data 3 5)
      let expectedSize :=
        1 + 2 + 2 + E.elementLength + E.scalarLength + comLen * E.elementLength
      if data.length ≠ expectedSize then
        (some ⟨.round1, .decodeInvalidLength expectedSize data.length⟩, d)
      else
        match readElementFromBytes E D data 5 with
        | .error err => (some ⟨.round1, .decodeProofR err⟩, d)
        | .ok (r, offset) =>
          match readScalarFromBytes E D data offset with
          | .error err => (some ⟨.round1, .decodeProofZ err⟩, d)
          | .ok (z, offset) =>
            match readCommitment E D data comLen offset with
            | .error err => (some ⟨.round1, .decodeCommitment err⟩, d)
            | .ok com =>
              (none, { Group := c, SenderIdentifier := id,
                       ProofOfKnowledge := { Group := c, R := r, Z := z },
                       Commitment := com.map some })

/-- Deserialization of the hexadecimal form: `Round1Data.DecodeHex`. -/
def Round1Data.DecodeHex (E : EccGroup F G) (D : EccDecoder F G) (d : Round1Data F G)
    (h : String) : Option DecodeError × Round1Data F G :=
  match hexDecodeString h with
  | .error err => (some ⟨.round1, .hex err⟩, d)
  | .ok b => d.Decode E D b

/-- The compact byte serialization of a Round-2 message: `Round2Data.Encode`. -/
def Round2Data.Encode (E : EccGroup F G) (d : Round2Data F) : List Nat :=
  [d.Group % 256] ++ putUint16 d.SenderIdentifier ++ putUint16 d.RecipientIdentifier
    ++ E.encodeScalar d.SecretShare

/-- Deserialization of a Round-2 message: `Round2Data.Decode`, `E` and `D` being
the operations of the group `ecc.Group(data[0])`. -/
def Round2Data.Decode (E : EccGroup F G) (D : EccDecoder F G) (d : Round2Data F)
    (data : List Nat) : Option DecodeError × Round2Data F :=
  if data.length ≤ 5 then (some ⟨.round2, .encodingInvalidLength⟩, d)
  else
    let c := data.getD 0 0
    if !Ciphersuite.Available c then (some ⟨.round2, .invalidCiphersuite⟩, d)
    else
      let expectedSize := 1 + 2 + 2 + E.scalarLength
      if data.length ≠ expectedSize then
        (some ⟨.round2, .decodeInvalidLength expectedSize data.length⟩, d)
      else
        let s := uint16LE (slice data 1 3)
        let r := uint16LE (slice data 3 5)
        match readScalarFromBytes E D data 5 with
        | .error err => (some ⟨.round2, .decodeSecretShare err⟩, d)
        | .ok (share, _) =>
          (none, { Group := c, SecretShare := share, SenderIdentifier := s,
                   RecipientIdentifier := r })

/-- The byte serialization of a signature: `Signature.Encode`. -/
def Signature.Encode (E : EccGroup F G) (s : Signature F G) : List Nat :=
  [s.Group % 256] ++ E.encodeElement s.R ++ E.encodeScalar s.Z

/-- Deserialization of a signature: `Signature.Decode`, `E` and `D` being the
operations of the group `ecc.Group(data[0])`. -/
def Signature.Decode (E : EccGroup F G) (D : EccDecoder F G) (s : Signature F G)
    (data : List Nat) : Option DecodeError × Signature F G :=
  if data.length ≤ 1 then (some ⟨.signature, .encodingInvalidLength⟩, s)
  else if !Ciphersuite.Available (data.getD 0 0) then
    (some ⟨.signature, .invalidCiphersuite⟩, s)
  else
    let g := data.getD 0 0
    let expectedLength := 1 + E.elementLength + E.scalarLength
    if data.length ≠ expectedLength then (some ⟨.signature, .encodingInvalidLength⟩, s)
    else
      match D.decodeElement (slice data 1 (1 + E.elementLength)) with
      | .error err => (some ⟨.signature, .decodeProofR err⟩, s)
      | .ok r =>
        match D.decodeScalar (data.drop (1 + E.elementLength)) with
        | .error err => (some ⟨.signature, .decodeProofZ err⟩, s)
        | .ok z => (none, { Group := g, R := r, Z := z })

/-- Deserialization of the hexadecimal form: `Round2Data.DecodeHex`. -/
def Round2Data.DecodeHex (E : EccGroup F G) (D : EccDecoder F G) (d : Round2Data F)
    (h : String) : Option DecodeError × Round2Data F :=
  match hexDecodeString h with
  | .error err => (some ⟨.round2, .hex err⟩, d)
  | .ok b => d.Decode E D b

/-- Deserialization of the hexadecimal form: `Signature.DecodeHex`. -/
def Signature.DecodeHex (E : EccGroup F G) (D : EccDecoder F G) (s : Signature F G)
    (h : String) : Option DecodeError × Signature F G :=
  match hexDecodeString h with
  | .error err => (some ⟨.signature, .hex err⟩, s)
  | .ok b => s.Decode E D b

/-! ## JSON decoding (encoding.go, messages.go, frost.go) -/

/-- The library functions below the JSON decoders (parameter):
`regexp.FindStringSubmatch` of a pattern in a text, and `strconv.Atoi`, an
error being the message of the Go error. -/
structure JsonLibrary where
  findStringSubmatch : String → String → List String
  atoi : String → Except String Int

/-- Search of a field in the JSON text: `jsonReGetField`. -/
def jsonReGetField (J : JsonLibrary) (key s capture : String) : Except String String :=
  let r := "\"" ++ key ++ "\":" ++ capture
  let found := J.findStringSubmatch r s
  if found.length ≠ 2 then .error "invalid JSON encoding"
  else .ok (found.getD 1 "")

/-- Search of the ciphersuite in the JSON text: `jsonReGetGroup`. -/
def jsonReGetGroup (J : JsonLibrary) (s : String) : Except String Nat :=
  match jsonReGetField J "group" s "(\\w+)" with
  | .error err => .error err
  | .ok f =>
    match J.atoi f with
    | .error err => .error ("failed to read Group: " ++ err)
    | .ok i =>
      if i < 0 ∨ i > 63 then .error "invalid ciphersuite"
      else if !Ciphersuite.Available i.toNat then .error "invalid ciphersuite"
      else .ok i.toNat

/-- The number of elements encoded in the commitment of the JSON text:
`jsonReCommitmentLen`. -/
def jsonReCommitmentLen (J : JsonLibrary) (s : String) : Nat :=
  let found := J.findStringSubmatch "commitment\":\\[\\s*(.*?)\\s*]" s
  if found.length = 0 then 0
  else if found.getD 1 "" = "" then 0
  else (found.getD 1 "").toList.count ',' + 1

/-- The group and the polynomial length of the JSON text: `unmarshalJSONHeader`. -/
def unmarshalJSONHeader (J : JsonLibrary) (data : String) : Except String (Nat × Nat) :=
  match jsonReGetGroup J data with
  | .error err => .error err
  | .ok g =>
    let nPoly := jsonReCommitmentLen J data
    if nPoly > 65535 then .error "invalid polynomial length (exceeds uint16 limit 65535)"
    else .ok (g, nPoly)

/-- Decoding of a JSON text into a new shadow value: `unmarshalJSON`. `init` is
the method of the shadow type applied to its zero value, and `unmarshal` stands
for `json.Unmarshal` on the shadow (parameter); the result is the shadow when no
error occurs. -/
def unmarshalJSON {α : Type} (J : JsonLibrary) (init : Nat → Nat → α)
    (unmarshal : String → α → Except String α) (data : String) : Except String α :=
  match unmarshalJSONHeader J data with
  | .error err => .error err
  | .ok (c, nPoly) =>
    match unmarshal data (init c nPoly) with
    | .error err => .error err
    | .ok target => .ok target

/-- Setting of a new Round-1 shadow: `r1DataShadow.init`; `NewElement` and
`NewScalar` give the identity and zero. -/
def r1DataShadow.init [Zero F] [Zero G] (g threshold : Nat) : Round1Data F G :=
  { Group := g, ProofOfKnowledge := { Group := g, R := 0, Z := 0 },
    Commitment := List.replicate threshold (some 0), SenderIdentifier := 0 }

/-- Setting of a new Round-2 shadow: `r2DataShadow.init`. -/
def r2DataShadow.init [Zero F] (g : Nat) (_ : Nat) : Round2Data F :=
  { Group := g, SecretShare := 0, SenderIdentifier := 0, RecipientIdentifier := 0 }

/-- Setting of a new signature shadow: `signatureShadow.init`. -/
def signatureShadow.init [Zero F] [Zero G] (g : Nat) (_ : Nat) : Signature F G :=
  { Group := g, R := 0, Z := 0 }

/-- Deserialization of the JSON form into the receiver: `Round1Data.UnmarshalJSON`. -/
def Round1Data.UnmarshalJSON [Zero F] [Zero G] (J : JsonLibrary)
    (unmarshal : String → Round1Data F G → Except String (Round1Data F G))
    (d : Round1Data F G) (data : String) : Option DecodeError × Round1Data F G :=
  match unmarshalJSON J r1DataShadow.init unmarshal data with
  | .error err => (some ⟨.round1, .json err⟩, d)
  | .ok r =>
    if r.Commitment.length = 0 then (some ⟨.round1, .missingCommitment⟩, d)
    else (none, r)

/-- Deserialization of the JSON form into the receiver: `Round2Data.UnmarshalJSON`. -/
def Round2Data.UnmarshalJSON [Zero F] (J : JsonLibrary)
    (unmarshal : String → Round2Data F → Except String (Round2Data F))
    (d : Round2Data F) (data : String) : Option DecodeError × Round2Data F :=
  match unmarshalJSON J r2DataShadow.init unmarshal data with
  | .error err => (some ⟨.round2, .json err⟩, d)
  | .ok r => (none, r)

/-- Deserialization of the JSON form into the receiver: `Signature.UnmarshalJSON`. -/
def Signature.UnmarshalJSON [Zero F] [Zero G] (J : JsonLibrary)
    (unmarshal : String → Signature F G → Except String (Signature F G))
    (s : Signature F G) (data : String) : Option DecodeError × Signature F G :=
  match unmarshalJSON J signatureShadow.init unmarshal data with
  | .error err => (some ⟨.signature, .json err⟩, s)
  | .ok shadow => (none, shadow)

/-! ## Proof generation and the objects of the caller (frost.go) -/

/-- The objects that `generateZKProof` receives by pointer. -/
structure ProofArguments (F G : Type) where
  secret : F
  pubkey : G
  rand : List (Option F)
  deriving DecidableEq, Repr

/-- Proof generation together with the objects of the caller after the call:
`generateZKProof`. The methods of scalars and elements write their result into
the receiver and return it, as `Add` and `Multiply` of secp256k1/scalar.go do.
`g.Base()` is a new element, `challenge` only encodes `pubkey` and `r`, and
`secret` is copied before `Multiply`; `k.Add` writes the response into `k`, which
is the scalar `rand[0]` of the caller when that is supplied and not nil. -/
def generateZKProofInPlace [Field F] [AddCommGroup G] [Module F G] (E : EccGroup F G) (g : Nat)
    (id : Nat) (a : ProofArguments F G) (draw : F) : Signature F G × ProofArguments F G :=
  match a.rand with
  | some k :: rest =>
    let r := k • E.base
    let ch := challenge E g id a.pubkey r
    let mu := k + Scalar.Multiply a.secret ch
    ({ Group := g, R := r, Z := mu }, { a with rand := some mu :: rest })
  | _ =>
    let k := draw
    let r := k • E.base
    let ch := challenge E g id a.pubkey r
    let mu := k + Scalar.Multiply a.secret ch
    ({ Group := g, R := r, Z := mu }, a)

/-- The exported proof generation together with the objects of the caller after
the call: `FrostGenerateZeroKnowledgeProof`. -/
def FrostGenerateZeroKnowledgeProofInPlace [Field F] [AddCommGroup G] [Module F G]
    (E : EccGroup F G) (c : Nat) (id : Nat) (a : ProofArguments F G) (draw : F) :
    Result (Signature F G) × ProofArguments F G :=
  if !Ciphersuite.Available c then (.err .invalidCiphersuite, a)
  else
    let out := generateZKProofInPlace E c id a draw
    (.ok out.1, out.2)

/-! ## A small concrete group for closed instances -/

/-- Eleven is prime. -/
instance prime_eleven : Fact (Nat.Prime 11) := ⟨by norm_num⟩

/-- A group of order 11: scalars and elements are the integers modulo 11, the
base is 1, and the hash functions add up the bytes of their inputs. -/
def toyGroup : EccGroup (ZMod 11) (ZMod 11) :=
  { base := 1, scalarLength := 1, elementLength := 1,
    encodeScalar := fun s => [s.val], encodeElement := fun e => [e.val],
    hashToScalar := fun input dst => ((input.sum + dst.sum : Nat) : ZMod 11),
    h2 := fun input => ((input.sum : Nat) : ZMod 11) }

/-- The decoders of the group of order 11: one byte below 11. -/
def toyDecoder : EccDecoder (ZMod 11) (ZMod 11) :=
  { decodeScalar := fun b =>
      match b with
      | [x] => if x < 11 then .ok (x : ZMod 11) else .error "scalar too big"
      | _ => .error "invalid scalar length"
    decodeElement := fun b =>
      match b with
      | [x] => if x < 11 then .ok (x : ZMod 11) else .error "invalid element"
      | _ => .error "invalid element length" }

/-- The polynomial coefficients drawn by participant `i` in the instances. -/
def toyRandom (i : Nat) : Nat → ZMod 11 := fun k => ((2 * i + 3 * k + 1 : Nat) : ZMod 11)

/-- The proof randomness drawn by participant `i` in the instances. -/
def toyNonce (i : Nat) : ZMod 11 := ((i + 4 : Nat) : ZMod 11)

/-- Participant `i` of a 2-of-3 setup in the instances, as `NewParticipant`
returns it. -/
def toyParticipant (i : Nat) : Participant (ZMod 11) (ZMod 11) :=
  { Identifier := i, maxSigners := 3, threshold := 2, group := Secp256k1,
    polynomial := [toyRandom i 0, toyRandom i 1],
    secretShare := toyRandom i 0 + (i : ZMod 11) * toyRandom i 1,
    commitment := [some (toyRandom i 0), some (toyRandom i 1)] }

/-- The Round-1 message of participant `i` in the instances, as `Start` returns
it. -/
def toyRound1 (i : Nat) : Round1Data (ZMod 11) (ZMod 11) :=
  { Group := Secp256k1, SenderIdentifier := i,
    Commitment := [some (toyRandom i 0), some (toyRandom i 1)],
    ProofOfKnowledge :=
      generateZKProof toyGroup Secp256k1 i (toyRandom i 0) (toyRandom i 0) [none] (toyNonce i) }

/-- The Round-1 message of participant 3 with the response `Z` of its proof
altered. -/
def toyBadRound1 : Round1Data (ZMod 11) (ZMod 11) :=
  { toyRound1 3 with
    ProofOfKnowledge := { (toyRound1 3).ProofOfKnowledge with
                          Z := (toyRound1 3).ProofOfKnowledge.Z + 1 } }

/-- The Round-1 message of participant 2 with the first element of its commitment
replaced by the identity element, the proof being kept. -/
def toyIdentityRound1 : Round1Data (ZMod 11) (ZMod 11) :=
  { Group := Secp256k1, SenderIdentifier := 2,
    Commitment := [some 0, some (toyRandom 2 1)],
    ProofOfKnowledge := (toyRound1 2).ProofOfKnowledge }

/-- A Round-1 message of sender 2 whose first commitment element is the identity
element, with a proof of knowledge of the scalar zero. -/
def toyZeroRound1 : Round1Data (ZMod 11) (ZMod 11) :=
  { Group := Secp256k1, SenderIdentifier := 2,
    Commitment := [some 0, some (toyRandom 2 1)],
    ProofOfKnowledge := generateZKProof toyGroup Secp256k1 2 0 0 [none] (toyNonce 2) }

/-- The Round-1 message of participant 3 with the first element of its commitment
set to nil. -/
def toyNilRound1 : Round1Data (ZMod 11) (ZMod 11) :=
  { Group := Secp256k1, SenderIdentifier := 3,
    Commitment := [none, some (toyRandom 3 1)],
    ProofOfKnowledge := (toyRound1 3).ProofOfKnowledge }

/-- The Round-1 set of the 2-of-3 setup of the instances. -/
def toyRound1Set : List (Option (Round1Data (ZMod 11) (ZMod 11))) :=
  [some (toyRound1 1), some (toyRound1 2), some (toyRound1 3)]

/-- A Round-1 message with a commitment of 65536 elements, one more than two
bytes can count. -/
def toyWideRound1 : Round1Data (ZMod 11) (ZMod 11) :=
  { Group := Secp256k1, SenderIdentifier := 2, Commitment := List.replicate 65536 (some 1),
    ProofOfKnowledge := { R := 1, Z := 1, Group := Secp256k1 } }

/-- A JSON library that finds no field. -/
def toyJson : JsonLibrary :=
  { findStringSubmatch := fun _ _ => [], atoi := fun _ => .error "invalid syntax" }

/-- A Round-2 message of the 2-of-3 setup of the instances. -/
def toyRound2 (sender recipient : Nat) (share : ZMod 11) : Round2Data (ZMod 11) :=
  { SecretShare := share, SenderIdentifier := sender, RecipientIdentifier := recipient,
    Group := Secp256k1 }

/-- A key share of the 2-of-3 setup of the instances; the group key is 4. -/
def toyKeyShare (i : Nat) (secret : ZMod 11) : KeyShare (ZMod 11) (ZMod 11) :=
  { Secret := secret, VerificationKey := 4,
    PublicKeyShare := { PublicKey := secret, ID := i, Group := Secp256k1,
                        VssCommitment := [some (toyRandom i 0), some (toyRandom i 1)] } }

end DKG

/-! # Scalars of secp256k1 (package secp256k1, scalar.go and curve.go) -/

namespace secp256k1

/-- The length of an encoded scalar: `scalarLength`. -/
def scalarLength : Nat := 32

/-- The group order in bytes: `groupOrderBytes`. -/
def groupOrderBytes : List Nat :=
  [255, 255, 255, 255, 255, 255, 255, 255, 255, 255, 255, 255, 255, 255, 255, 254,
   186, 174, 220, 230, 175, 72, 160, 59, 191, 210, 94, 140, 208, 54, 65, 65]

/-- The value of a big-endian byte string: `big.Int.SetBytes`. -/
def setBytes (b : List Nat) : Nat := b.foldl (fun acc x => acc * 256 + x) 0

/-- The `n` low bytes of `v`, most significant first. -/
def bigEndian : Nat → Nat → List Nat
  | 0, _ => []
  | n + 1, v => bigEndian n (v / 256) ++ [v % 256]

/-- The value written on `n` bytes: `big.Int.FillBytes`, which panics when the
value does not fit. -/
def fillBytes (v n : Nat) : Option (List Nat) :=
  if v < 256 ^ n then some (bigEndian n v) else none

/-- The bytes of a value without leading zeros: `big.Int.Bytes`. -/
def bigBytes (v : Nat) : List Nat := (Nat.digits 256 v).reverse

/-- Comparison of byte strings: `subtle.ConstantTimeCompare`. -/
def constantTimeCompare (x y : List Nat) : Nat := if x = y then 1 else 0

/-- Modelled from the spec: the order of the field `fn` of curve.go, made by
`field.NewField` from `groupOrderBytes` (package internal/field is not among the
sources): `fn.Order()`. -/
def order : Nat := setBytes groupOrderBytes

/-- Modelled from the spec: addition in the scalar field, `fn.Add` of the package
internal/field. -/
def fnAdd (x y : Nat) : Nat := (x + y) % order

/-- Modelled from the spec: subtraction in the scalar field, `fn.Sub` of the
package internal/field. -/
def fnSub (x y : Nat) : Nat := (x + (order - y % order)) % order

/-- Modelled from the spec: multiplication in the scalar field, `fn.Mul` of the
package internal/field. -/
def fnMul (x y : Nat) : Nat := x * y % order

/-- Modelled from the spec: exponentiation in the scalar field, `fn.Exponent` of
the package internal/field. -/
def fnExponent (x y : Nat) : Nat := x ^ y % order

/-- Modelled from the spec: equality of two values, `fn.AreEqual` of the package
internal/field. -/
def fnAreEqual (x y : Nat) : Bool := decide (x = y)

/-- The errors of scalar.go. -/
inductive ScalarError where
  | paramScalarLength
  | paramNilScalar
  | paramScalarTooBig
  deriving DecidableEq, Repr

/-- The message of an error of scalar.go. -/
def ScalarError.text : ScalarError → String
  | .paramScalarLength => "invalid scalar length"
  | .paramNilScalar => "nil or empty scalar"
  | .paramScalarTooBig => "scalar too big"

/-- A scalar: `Scalar`, holding a `big.Int`. -/
structure Scalar where
  scalar : Nat
  deriving DecidableEq, Repr

/-- Setting to 0: `Scalar.Zero`. -/
def Scalar.Zero (_ : Scalar) : Scalar := { scalar := 0 }

/-- Setting to 1: `Scalar.One`. -/
def Scalar.One (_ : Scalar) : Scalar := { scalar := 1 }

/-- A copy of the receiver: `Scalar.Copy`. -/
def Scalar.Copy (s : Scalar) : Scalar := { scalar := s.scalar }

/-- Whether the scalar is 0: `Scalar.IsZero`. -/
def Scalar.IsZero (s : Scalar) : Bool := fnAreEqual s.scalar 0

/-- The receiver after `Scalar.Add`. -/
def Scalar.Add (s : Scalar) (scalar : Option Scalar) : Scalar :=
  match scalar with
  | none => s
  | some t => { scalar := fnAdd s.scalar t.scalar }

/-- The receiver after `Scalar.Subtract`. -/
def Scalar.Subtract (s : Scalar) (scalar : Option Scalar) : Scalar :=
  match scalar with
  | none => s
  | some t => { scalar := fnSub s.scalar t.scalar }

/-- The receiver after `Scalar.Multiply`. -/
def Scalar.Multiply (s : Scalar) (scalar : Option Scalar) : Scalar :=
  match scalar with
  | none => s.Zero
  | some t => { scalar := fnMul s.scalar t.scalar }

/-- The result of `Scalar.Equal`. -/
def Scalar.Equal (s : Scalar) (scalar : Option Scalar) : Nat :=
  match scalar with
  | none => 0
  | some t => constantTimeCompare (bigBytes s.scalar) (bigBytes t.scalar)

/-- The receiver after `Scalar.Pow`. -/
def Scalar.Pow (s : Scalar) (scalar : Option Scalar) : Scalar :=
  match scalar with
  | none => s.One
  | some t =>
    if t.IsZero then s.One
    else if t.Equal (some t.Copy.One) = 1 then s
    else { scalar := fnExponent s.scalar t.scalar }

/-- The receiver after `Scalar.Set`. -/
def Scalar.Set (s : Scalar) (scalar : Option Scalar) : Scalar :=
  match scalar with
  | none => s.Zero
  | some t => { scalar := t.scalar }

/-- The encoding of a scalar: `Scalar.Encode`; `none` is the panic of
`FillBytes`. -/
def Scalar.Encode (s : Scalar) : Option (List Nat) := fillBytes s.scalar scalarLength

/-- The loop of `Scalar.LessOrEqual` over the bytes of the two encodings, `res`
being the flag so far; `none` is an index out of range. -/
def lessOrEqualLoop : List Nat → List Nat → Bool → Option Bool
  | [], _, res => some res
  | _ :: _, [], _ => none
  | i :: ienc, j :: jenc, res => lessOrEqualLoop ienc jenc (res || decide (i > j))

/-- The result of `Scalar.LessOrEqual`; `none` is a panic. -/
def Scalar.LessOrEqual (s scalar : Scalar) : Option Nat :=
  match s.Encode, scalar.Encode with
  | some ienc, some jenc =>
    match lessOrEqualLoop ienc jenc false with
    | some res => some (if res then 0 else 1)
    | none => none
  | _, _ => none

/-- Decoding into the receiver: `Scalar.Decode`. The result is the error, if any,
and the receiver after the call. -/
def Scalar.Decode (s : Scalar) (input : List Nat) : Option ScalarError × Scalar :=
  if input.length = 0 then (some .paramNilScalar, s)
  else if input.length ≠ scalarLength then (some .paramScalarLength, s)
  else
    let tmp := setBytes input
    if order ≤ tmp then (some .paramScalarTooBig, s)
    else (none, { scalar := tmp })

end secp256k1

/-! # Reserved precompiles (x/vm/types/precompiles.go, precompiles/reserved) -/

namespace evmtypes

/-- The address of reserved slot 15. -/
def ReservedSlot15PrecompileAddress : String :=
  "0x0000000000000000000000000000000000000715"

/-- The address of reserved slot 16. -/
def ReservedSlot16PrecompileAddress : String :=
  "0x0000000000000000000000000000000000000716"

/-- The address of reserved slot 17. -/
def ReservedSlot17PrecompileAddress : String :=
  "0x0000000000000000000000000000000000000717"

/-- The address of reserved slot 18. -/
def ReservedSlot18PrecompileAddress : String :=
  "0x0000000000000000000000000000000000000718"

/-- The address of reserved slot 19. -/
def ReservedSlot19PrecompileAddress : String :=
  "0x0000000000000000000000000000000000000719"

/-- The address of reserved slot 20. -/
def ReservedSlot20PrecompileAddress : String :=
  "0x0000000000000000000000000000000000000720"

/-- The address of reserved slot 21. -/
def ReservedSlot21PrecompileAddress : String :=
  "0x0000000000000000000000000000000000000721"

/-- The address of reserved slot 22. -/
def ReservedSlot22PrecompileAddress : String :=
  "0x0000000000000000000000000000000000000722"

/-- The address of reserved slot 23. -/
def ReservedSlot23PrecompileAddress : String :=
  "0x0000000000000000000000000000000000000723"

/-- The address of reserved slot 24. -/
def ReservedSlot24PrecompileAddress : String :=
  "0x0000000000000000000000000000000000000724"

/-- The address of reserved slot 25. -/
def ReservedSlot25PrecompileAddress : String :=
  "0x0000000000000000000000000000000000000725"

/-- The address of reserved slot 26. -/
def ReservedSlot26PrecompileAddress : String :=
  "0x0000000000000000000000000000000000000726"

/-- The address of reserved slot 27. -/
def ReservedSlot27PrecompileAddress : String :=
  "0x0000000000000000000000000000000000000727"

/-- The address of reserved slot 28. -/
def ReservedSlot28PrecompileAddress : String :=
  "0x0000000000000000000000000000000000000728"

/-- The address of reserved slot 29. -/
def ReservedSlot29PrecompileAddress : String :=
  "0x0000000000000000000000000000000000000729"

/-- The address of reserved slot 30. -/
def ReservedSlot30PrecompileAddress : String :=
  "0x0000000000000000000000000000000000000730"

/-- The address of reserved slot 31. -/
def ReservedSlot31PrecompileAddress : String :=
  "0x0000000000000000000000000000000000000731"

/-- The address of reserved slot 32. -/
def ReservedSlot32PrecompileAddress : String :=
  "0x0000000000000000000000000000000000000732"

/-- The address of reserved slot 33. -/
def ReservedSlot33PrecompileAddress : String :=
  "0x0000000000000000000000000000000000000733"

/-- The address of reserved slot 34. -/
def ReservedSlot34PrecompileAddress : String :=
  "0x0000000000000000000000000000000000000734"

/-- The address of reserved slot 35. -/
def ReservedSlot35PrecompileAddress : String :=
  "0x0000000000000000000000000000000000000735"

/-- The address of reserved slot 36. -/
def ReservedSlot36PrecompileAddress : String :=
  "0x0000000000000000000000000000000000000736"

/-- The address of reserved slot 37. -/
def ReservedSlot37PrecompileAddress : String :=
  "0x0000000000000000000000000000000000000737"

/-- The address of reserved slot 38. -/
def ReservedSlot38PrecompileAddress : String :=
  "0x0000000000000000000000000000000000000738"

/-- The address of reserved slot 39. -/
def ReservedSlot39PrecompileAddress : String :=
  "0x0000000000000000000000000000000000000739"

/-- The address of reserved slot 40. -/
def ReservedSlot40PrecompileAddress : String :=
  "0x0000000000000000000000000000000000000740"

/-- The address of reserved slot 41. -/
def ReservedSlot41PrecompileAddress : String :=
  "0x0000000000000000000000000000000000000741"

/-- The address of reserved slot 42. -/
def ReservedSlot42PrecompileAddress : String :=
  "0x0000000000000000000000000000000000000742"

/-- The address of reserved slot 43. -/
def ReservedSlot43PrecompileAddress : String :=
  "0x0000000000000000000000000000000000000743"

/-- The address of reserved slot 44. -/
def ReservedSlot44PrecompileAddress : String :=
  "0x0000000000000000000000000000000000000744"

/-- The address of reserved slot 45. -/
def ReservedSlot45PrecompileAddress : String :=
  "0x0000000000000000000000000000000000000745"

/-- The address of reserved slot 46. -/
def ReservedSlot46PrecompileAddress : String :=
  "0x0000000000000000000000000000000000000746"

/-- The address of reserved slot 47. -/
def ReservedSlot47PrecompileAddress : String :=
  "0x0000000000000000000000000000000000000747"

/-- The address of reserved slot 48. -/
def ReservedSlot48PrecompileAddress : String :=
  "0x0000000000000000000000000000000000000748"

/-- The address of reserved slot 49. -/
def ReservedSlot49PrecompileAddress : String :=
  "0x0000000000000000000000000000000000000749"

/-- The address of reserved slot 50. -/
def ReservedSlot50PrecompileAddress : String :=
  "0x0000000000000000000000000000000000000750"

/-- The reserved entries of `AvailableStaticPrecompiles`, in the order of the
list. -/
def AvailableReservedPrecompiles : List String :=
  [ReservedSlot15PrecompileAddress, ReservedSlot16PrecompileAddress, ReservedSlot17PrecompileAddress,
   ReservedSlot18PrecompileAddress, ReservedSlot19PrecompileAddress, ReservedSlot20PrecompileAddress,
   ReservedSlot21PrecompileAddress, ReservedSlot22PrecompileAddress, ReservedSlot23PrecompileAddress,
   ReservedSlot24PrecompileAddress, ReservedSlot25PrecompileAddress, ReservedSlot26PrecompileAddress,
   ReservedSlot27PrecompileAddress, ReservedSlot28PrecompileAddress, ReservedSlot29PrecompileAddress,
   ReservedSlot30PrecompileAddress, ReservedSlot31PrecompileAddress, ReservedSlot32PrecompileAddress,
   ReservedSlot33PrecompileAddress, ReservedSlot34PrecompileAddress, ReservedSlot35PrecompileAddress,
   ReservedSlot36PrecompileAddress, ReservedSlot37PrecompileAddress, ReservedSlot38PrecompileAddress,
   ReservedSlot39PrecompileAddress, ReservedSlot40PrecompileAddress, ReservedSlot41PrecompileAddress,
   ReservedSlot42PrecompileAddress, ReservedSlot43PrecompileAddress, ReservedSlot44PrecompileAddress,
   ReservedSlot45PrecompileAddress, ReservedSlot46PrecompileAddress, ReservedSlot47PrecompileAddress,
   ReservedSlot48PrecompileAddress, ReservedSlot49PrecompileAddress, ReservedSlot50PrecompileAddress]

end evmtypes

namespace reserved

/-- The bytes of a hexadecimal text with an even number of digits, up to the
first character that is no digit: `hex.Decode` as `common.Hex2Bytes` uses it,
the error being dropped. -/
def hex2Bytes : List Char → List Nat
  | p :: q :: rest =>
    match DKG.fromHexChar p, DKG.fromHexChar q with
    | some a, some b => (a * 16 + b) :: hex2Bytes rest
    | _, _ => []
  | _ => []

/-- The address of a hexadecimal text: `common.HexToAddress` of go-ethereum, the
20 bytes of an address being the last 20 bytes of the text, padded with zeros on
the left. -/
def HexToAddress (s : String) : List Nat :=
  let digits :=
    match s.toList with
    | '0' :: 'x' :: rest => rest
    | '0' :: 'X' :: rest => rest
    | l => l
  let digits := if digits.length % 2 = 1 then '0' :: digits else digits
  let b := hex2Bytes digits
  let b := b.drop (b.length - 20)
  List.replicate (20 - b.length) 0 ++ b

/-- The empty precompiled contract of a slot: `Precompile`. -/
structure Precompile where
  no : Int
  deriving DecidableEq, Repr

/-- A new precompile of a slot: `NewPrecompile`; its error is always nil. -/
def NewPrecompile (no : Int) : Precompile := { no := no }

/-- The address of the precompile: `Precompile.Address`. -/
def Precompile.Address (p : Precompile) : List Nat :=
  if p.no = 15 then HexToAddress evmtypes.ReservedSlot15PrecompileAddress
  else if p.no = 16 then HexToAddress evmtypes.ReservedSlot16PrecompileAddress
  else if p.no = 17 then HexToAddress evmtypes.ReservedSlot17PrecompileAddress
  else if p.no = 18 then HexToAddress evmtypes.ReservedSlot18PrecompileAddress
  else if p.no = 19 then HexToAddress evmtypes.ReservedSlot19PrecompileAddress
  else if p.no = 20 then HexToAddress evmtypes.ReservedSlot20PrecompileAddress
  else if p.no = 21 then HexToAddress evmtypes.ReservedSlot21PrecompileAddress
  else if p.no = 22 then HexToAddress evmtypes.ReservedSlot22PrecompileAddress
  else if p.no = 23 then HexToAddress evmtypes.ReservedSlot23PrecompileAddress
  else if p.no = 24 then HexToAddress evmtypes.ReservedSlot24PrecompileAddress
  else if p.no = 25 then HexToAddress evmtypes.ReservedSlot25PrecompileAddress
  else if p.no = 26 then HexToAddress evmtypes.ReservedSlot26PrecompileAddress
  else if p.no = 27 then HexToAddress evmtypes.ReservedSlot27PrecompileAddress
  else if p.no = 28 then HexToAddress evmtypes.ReservedSlot28PrecompileAddress
  else if p.no = 29 then HexToAddress evmtypes.ReservedSlot29PrecompileAddress
  else if p.no = 30 then HexToAddress evmtypes.ReservedSlot30PrecompileAddress
  else if p.no = 31 then HexToAddress evmtypes.ReservedSlot31PrecompileAddress
  else if p.no = 32 then HexToAddress evmtypes.ReservedSlot32PrecompileAddress
  else if p.no = 33 then HexToAddress evmtypes.ReservedSlot33PrecompileAddress
  else if p.no = 34 then HexToAddress evmtypes.ReservedSlot34PrecompileAddress
  else if p.no = 35 then HexToAddress evmtypes.ReservedSlot35PrecompileAddress
  else if p.no = 36 then HexToAddress evmtypes.ReservedSlot36PrecompileAddress
  else if p.no = 37 then HexToAddress evmtypes.ReservedSlot37PrecompileAddress
  else if p.no = 38 then HexToAddress evmtypes.ReservedSlot38PrecompileAddress
  else if p.no = 39 then HexToAddress evmtypes.ReservedSlot39PrecompileAddress
  else if p.no = 40 then HexToAddress evmtypes.ReservedSlot40PrecompileAddress
  else if p.no = 41 then HexToAddress evmtypes.ReservedSlot41PrecompileAddress
  else if p.no = 42 then HexToAddress evmtypes.ReservedSlot42PrecompileAddress
  else if p.no = 43 then HexToAddress evmtypes.ReservedSlot43PrecompileAddress
  else if p.no = 44 then HexToAddress evmtypes.ReservedSlot44PrecompileAddress
  else if p.no = 45 then HexToAddress evmtypes.ReservedSlot45PrecompileAddress
  else if p.no = 46 then HexToAddress evmtypes.ReservedSlot46PrecompileAddress
  else if p.no = 48 then HexToAddress evmtypes.ReservedSlot47PrecompileAddress
  else if p.no = 48 then HexToAddress evmtypes.ReservedSlot48PrecompileAddress
  else if p.no = 49 then HexToAddress evmtypes.ReservedSlot49PrecompileAddress
  else if p.no = 50 then HexToAddress evmtypes.ReservedSlot50PrecompileAddress
  else List.replicate 20 0

/-- The slots that `WithReservedPrecompiles` instantiates, in order. -/
def reservedSlots : List Int := (List.range 36).map (fun k => ((k + 15 : Nat) : Int))

/-- The keys under which `WithReservedPrecompiles` stores its 36 precompiles, in
the order of the assignments. -/
def WithReservedPrecompilesKeys : List (List Nat) :=
  reservedSlots.map (fun n => (NewPrecompile n).Address)

end reserved

namespace DKG

variable {F G : Type}

/-! ## Theorems -/

section Proofs

set_option linter.unusedSectionVars false

variable [Field F] [AddCommGroup G] [Module F G] [DecidableEq F] [DecidableEq G]

theorem challenge_isSome (E : EccGroup F G) (c id : Nat) (pubkey r : G)
    (hc : Ciphersuite.Available c = true) : ∃ ch, challenge E c id pubkey r = some ch := by
  simp only [Ciphersuite.Available, Bool.or_eq_true, decide_eq_true_eq] at hc
  unfold challenge
  rcases hc with ((((h | h) | h) | h) | h) | h <;> subst h <;>
    simp [Ristretto255Sha512, P256Sha256, P384Sha384, P521Sha512, Edwards25519Sha512, Secp256k1]

theorem verify_generate (E : EccGroup F G) (g id : Nat) (sk : F) (rand : List (Option F))
    (draw : F) :
    verifyZKProof E g id (sk • E.base) (generateZKProof E g id sk (sk • E.base) rand draw)
      = true := by
  simp only [verifyZKProof, generateZKProof, decide_eq_true_eq]
  cases challenge E g id (sk • E.base) (proofRandomness rand draw • E.base) with
  | none => simp [Scalar.Multiply, Element.Multiply]
  | some ch =>
    simp only [Scalar.Multiply, Element.Multiply]
    rw [add_smul, mul_smul, smul_comm sk ch]
    abel

theorem allElements_length (l : List (Option F)) (poly : List F)
    (h : allElements l = some poly) : poly.length = l.length := by
  induction l generalizing poly with
  | nil =>
    simp only [allElements, Option.some.injEq] at h
    simp [← h]
  | cons a as ih =>
    cases a with
    | none => simp [allElements] at h
    | some a =>
      simp only [allElements] at h
      split at h
      · cases h
      · rename_i l hl
        cases h
        simp [ih l hl]

theorem initPoly_ok (p p' : Participant F G) (polynomial : List (Option F)) (random : Nat → F)
    (h : p.initPoly polynomial random = .ok p') :
    p'.polynomial.length = p.threshold ∧
      p' = { p with polynomial := p'.polynomial,
                    secretShare := Evaluate p'.polynomial (p.Identifier : F) } := by
  unfold Participant.initPoly at h
  split at h
  · split at h
    · cases h
    · rename_i hchk
      split at h
      · cases h
      · rename_i poly hpoly
        cases h
        refine ⟨?_, rfl⟩
        unfold checkPolynomial at hchk
        split at hchk
        · cases hchk
        · rename_i hl
          have hl2 : polynomial.length = p.threshold := by simpa using hl
          simp only
          rw [allElements_length polynomial poly hpoly, hl2]
  · cases h
    exact ⟨by simp, rfl⟩

theorem NewParticipant_ok (E : EccGroup F G) (c id threshold maxSigners : Nat)
    (polynomial : List (Option F)) (random : Nat → F) (p : Participant F G)
    (h : NewParticipant E c id threshold maxSigners polynomial random = .ok p) :
    Ciphersuite.Available c = true ∧ id ≠ 0 ∧ id ≤ maxSigners ∧ p.Identifier = id
      ∧ p.maxSigners = maxSigners ∧ p.threshold = threshold ∧ p.group = c
      ∧ p.polynomial.length = threshold ∧ p.commitment = Commit E p.polynomial
      ∧ p.secretShare = Evaluate p.polynomial (id : F) := by
  unfold NewParticipant at h
  split at h
  · cases h
  · rename_i hav
    split at h
    · cases h
    · rename_i hid
      split at h
      · cases h
      · rename_i hmax
        simp only at h
        split at h
        · cases h
        · cases h
        · rename_i p0 hp0
          cases h
          obtain ⟨hlen, hp0eq⟩ := initPoly_ok _ p0 polynomial random hp0
          rw [hp0eq]
          exact ⟨by simpa using hav, hid, by omega, rfl, rfl, rfl, rfl, hlen, rfl, rfl⟩

/-- C5: for an available ciphersuite and supplied randomness `k`,
`FrostGenerateZeroKnowledgeProof` returns the proof with `R = Base^k` and
`Z = k + secret*c`, `c` being the challenge computed from (id, publicValue, R);
the right-hand side depends on nothing but (ciphersuite, id, secret,
publicValue, k), so the output is a deterministic function of these. -/
theorem frostGenerate_supplied_randomness (E : EccGroup F G) (c id : Nat) (secret : F)
    (publicValue : G) (k : F) (more : List (Option F)) (draw : F)
    (hc : Ciphersuite.Available c = true) :
    ∃ ch, challenge E c id publicValue (k • E.base) = some ch ∧
      FrostGenerateZeroKnowledgeProof E c id secret publicValue (some k :: more) draw
        = .ok { R := k • E.base, Z := k + secret * ch, Group := c } := by
  obtain ⟨ch, hch⟩ := challenge_isSome E c id publicValue (k • E.base) hc
  refine ⟨ch, hch, ?_⟩
  simp [FrostGenerateZeroKnowledgeProof, hc, generateZKProof, proofRandomness, hch,
    Scalar.Multiply]

theorem frostGenerate_supplied_randomness_witness :
    Ciphersuite.Available Ristretto255Sha512 = true ∧
    ∃ ch, challenge toyGroup Ristretto255Sha512 1 (3 : ZMod 11) ((5 : ZMod 11) • toyGroup.base)
        = some ch ∧
      FrostGenerateZeroKnowledgeProof toyGroup Ristretto255Sha512 1 (3 : ZMod 11) (3 : ZMod 11)
          [some 5] 9
        = .ok { R := (5 : ZMod 11) • toyGroup.base, Z := 5 + 3 * ch,
                Group := Ristretto255Sha512 } :=
  ⟨by decide, frostGenerate_supplied_randomness toyGroup Ristretto255Sha512 1 3 3 5 [] 9
    (by decide)⟩

/-- C4: completeness of the proof of knowledge. For an available ciphersuite, any
identifier, secret `sk` and randomness (supplied or drawn), the proof generated
for `pk = Base^sk` is accepted by `FrostVerifyZeroKnowledgeProof`; and for a
participant made by `NewParticipant` with threshold at least 1, `Start` returns a
Round-1 message whose proof verifies against its `commitment[0]` and
`SenderIdentifier`. -/
theorem nizk_completeness (E : EccGroup F G) (c : Nat) (hc : Ciphersuite.Available c = true) :
    (∀ (id : Nat) (sk : F) (rand : List (Option F)) (draw : F),
      ∃ proof, FrostGenerateZeroKnowledgeProof E c id sk (sk • E.base) rand draw = .ok proof ∧
        FrostVerifyZeroKnowledgeProof E c id (sk • E.base) proof = .ok true) ∧
    (∀ (id threshold maxSigners : Nat) (polynomial : List (Option F)) (random : Nat → F)
        (p : Participant F G) (draw : F),
      NewParticipant E c id threshold maxSigners polynomial random = .ok p → 1 ≤ threshold →
      ∃ r1 c0 rest, p.Start E draw = .ok r1 ∧ r1.Commitment = some c0 :: rest ∧
        FrostVerifyZeroKnowledgeProof E c r1.SenderIdentifier c0 r1.ProofOfKnowledge
          = .ok true) := by
  constructor
  · intro id sk rand draw
    refine ⟨generateZKProof E c id sk (sk • E.base) rand draw, ?_, ?_⟩
    · simp [FrostGenerateZeroKnowledgeProof, hc]
    · simp [FrostVerifyZeroKnowledgeProof, hc, verify_generate]
  · intro id threshold maxSigners polynomial random p draw hp ht
    obtain ⟨-, -, -, hid, -, -, hg, hlen, hcom, -⟩ :=
      NewParticipant_ok E c id threshold maxSigners polynomial random p hp
    cases hpoly : p.polynomial with
    | nil => rw [hpoly] at hlen; simp at hlen; omega
    | cons a as =>
      rw [hpoly] at hcom
      simp only [Commit, List.map_cons] at hcom
      refine ⟨{ Group := p.group, SenderIdentifier := p.Identifier, Commitment := p.commitment,
                ProofOfKnowledge :=
                  generateZKProof E p.group p.Identifier a (a • E.base) [none] draw },
        a • E.base, as.map (fun a => some (a • E.base)), ?_, ?_, ?_⟩
      · simp only [Participant.Start, Participant.StartWithRandom, hpoly, hcom]
      · simp only [hcom]
      · simp [FrostVerifyZeroKnowledgeProof, hc, hg, verify_generate]

theorem nizk_completeness_witness :
    Ciphersuite.Available Secp256k1 = true ∧
    (∃ proof, FrostGenerateZeroKnowledgeProof toyGroup Secp256k1 2 (4 : ZMod 11)
        ((4 : ZMod 11) • toyGroup.base) [] 6 = .ok proof ∧
      FrostVerifyZeroKnowledgeProof toyGroup Secp256k1 2 ((4 : ZMod 11) • toyGroup.base) proof
        = .ok true) ∧
    (∃ r1 c0 rest, (toyParticipant 1).Start toyGroup (toyNonce 1) = .ok r1 ∧
      r1.Commitment = some c0 :: rest ∧
      FrostVerifyZeroKnowledgeProof toyGroup Secp256k1 r1.SenderIdentifier c0
        r1.ProofOfKnowledge = .ok true) :=
  ⟨by decide, (nizk_completeness toyGroup Secp256k1 (by decide)).1 2 4 [] 6,
    (nizk_completeness toyGroup Secp256k1 (by decide)).2 1 2 3 [] (toyRandom 1)
      (toyParticipant 1) (toyNonce 1) (by decide) (by decide)⟩

/-! ### The map of Round-2 messages -/

theorem Round2Map.get_filter_ne (m : Round2Map F) (k j : Nat) (h : j ≠ k) :
    Round2Map.get (m.filter (fun e => decide (e.1 ≠ k))) j = Round2Map.get m j := by
  induction m with
  | nil => rfl
  | cons e es ih =>
    unfold Round2Map.get at ih ⊢
    by_cases hek : e.1 = k
    · have hej : ¬ e.1 = j := fun hh => h (hh ▸ hek)
      rw [List.filter_cons_of_neg (by simpa using hek),
        List.find?_cons_of_neg _ (by simpa using hej)]
      exact ih
    · rw [List.filter_cons_of_pos (by simpa using hek)]
      by_cases hej : e.1 = j
      · rw [List.find?_cons_of_pos _ (by simpa using hej),
          List.find?_cons_of_pos _ (by simpa using hej)]
      · rw [List.find?_cons_of_neg _ (by simpa using hej),
          List.find?_cons_of_neg _ (by simpa using hej)]
        exact ih

theorem Round2Map.get_set (m : Round2Map F) (k j : Nat) (v : Round2Data F) :
    Round2Map.get (m.set k v) j = if j = k then some v else Round2Map.get m j := by
  by_cases h : j = k
  · subst h
    simp [Round2Map.get, Round2Map.set]
  · have h' : ¬ k = j := fun hh => h hh.symm
    rw [if_neg h, ← Round2Map.get_filter_ne m k j h]
    unfold Round2Map.get Round2Map.set
    rw [List.find?_cons_of_neg _ (by simpa using h')]

theorem Round2Map.mem_keys_iff (m : Round2Map F) (j : Nat) :
    j ∈ Round2Map.keys m ↔ ∃ v, Round2Map.get m j = some v := by
  induction m with
  | nil => simp [Round2Map.keys, Round2Map.get]
  | cons e es ih =>
    unfold Round2Map.keys Round2Map.get at ih ⊢
    by_cases hej : e.1 = j
    · simp [List.find?_cons, hej]
    · have hje : ¬ j = e.1 := fun hh => hej hh.symm
      simp only [List.map_cons, List.mem_cons, hje, false_or, List.find?_cons, hej,
        decide_False]
      exact ih

theorem Round2Map.keys_set_nodup (m : Round2Map F) (k : Nat) (v : Round2Data F)
    (h : (Round2Map.keys m).Nodup) : (Round2Map.keys (m.set k v)).Nodup := by
  unfold Round2Map.keys Round2Map.set at *
  rw [List.map_cons, List.nodup_cons]
  constructor
  · simp
  · exact (List.Nodup.sublist (List.Sublist.map _ (List.filter_sublist _)) h)

/-! ### The loop of `Continue` -/

theorem senders_cons_none (l : List (Option (Round1Data F G))) :
    senders (none :: l) = senders l := by
  simp [senders]

theorem senders_cons_some (d : Round1Data F G) (l : List (Option (Round1Data F G))) :
    senders (some d :: l) = d.SenderIdentifier :: senders l := by
  simp [senders]

theorem continueLoop_get (E : EccGroup F G) (p : Participant F G)
    (l : List (Option (Round1Data F G))) (m m' : Round2Map F)
    (h : continueLoop E p l m = .ok m') (j : Nat) :
    Round2Map.get m' j =
      if j ∈ senders l ∧ j ≠ p.Identifier then some (p.round2For j) else Round2Map.get m j := by
  induction l generalizing m with
  | nil =>
    simp only [continueLoop, Result.ok.injEq] at h
    simp [senders, h]
  | cons o rest ih =>
    cases o with
    | none =>
      simp only [continueLoop] at h
      rw [senders_cons_none]
      exact ih m h
    | some d =>
      rw [senders_cons_some]
      simp only [continueLoop] at h
      split at h
      · rename_i hself
        rw [ih m h]
        by_cases hj : j = p.Identifier
        · simp [hj]
        · have : ¬ j = d.SenderIdentifier := fun hh => hj (hh.trans hself)
          simp [hj, this]
      · rename_i hself
        split at h
        · cases h
        · cases h
        · rename_i c0 cs hcom
          split at h
          · cases h
          · rw [ih _ h, Round2Map.get_set]
            by_cases hj : j = d.SenderIdentifier
            · subst hj
              simp [hself, Participant.round2For]
            · simp [hj]

theorem continueLoop_nodup (E : EccGroup F G) (p : Participant F G)
    (l : List (Option (Round1Data F G))) (m m' : Round2Map F)
    (h : continueLoop E p l m = .ok m') (hm : (Round2Map.keys m).Nodup) :
    (Round2Map.keys m').Nodup := by
  induction l generalizing m with
  | nil =>
    simp only [continueLoop, Result.ok.injEq] at h
    exact h ▸ hm
  | cons o rest ih =>
    cases o with
    | none =>
      simp only [continueLoop] at h
      exact ih m h hm
    | some d =>
      simp only [continueLoop] at h
      split at h
      · exact ih m h hm
      · split at h
        · cases h
        · cases h
        · split at h
          · cases h
          · exact ih _ h (Round2Map.keys_set_nodup m _ _ hm)

theorem Continue_ok (E : EccGroup F G) (p p' : Participant F G)
    (r1 : List (Option (Round1Data F G))) (m : Round2Map F)
    (h : p.Continue E r1 = (.ok m, p')) :
    (r1.length = p.maxSigners ∨ r1.length = p.maxSignersMinusOne)
      ∧ continueLoop E p r1 [] = .ok m ∧ p' = p.resetPolynomial := by
  unfold Participant.Continue at h
  split at h
  · cases h
  · rename_i hlen
    split at h
    · rename_i r2 hloop
      simp only [Prod.mk.injEq, Result.ok.injEq] at h
      refine ⟨by omega, ?_, h.2.symm⟩
      rw [hloop, h.1]
    · cases h
    · cases h

theorem Round2Map.get_of_mem (m : Round2Map F) (j : Nat) (d : Round2Data F)
    (hm : (Round2Map.keys m).Nodup) (h : (j, d) ∈ m) : Round2Map.get m j = some d := by
  induction m with
  | nil => cases h
  | cons e es ih =>
    unfold Round2Map.keys at hm ih
    rw [List.map_cons, List.nodup_cons] at hm
    rcases List.mem_cons.mp h with h1 | h1
    · subst h1
      simp [Round2Map.get]
    · have hne : ¬ e.1 = j := by
        intro hh
        apply hm.1
        rw [hh]
        exact List.mem_map.mpr ⟨(j, d), h1, rfl⟩
      have := ih hm.2 h1
      unfold Round2Map.get at this ⊢
      rw [List.find?_cons_of_neg _ (by simpa using hne)]
      exact this

theorem Evaluate_cons (a : F) (l : List F) (x : F) :
    Evaluate (a :: l) x = a + x * Evaluate l x := rfl

theorem Evaluate_eq_sum (l : List F) (x : F) :
    Evaluate l x = ∑ k in Finset.range l.length, l.getD k 0 * x ^ k := by
  induction l with
  | nil => simp [Evaluate]
  | cons a l ih =>
    rw [Evaluate_cons, ih, List.length_cons, Finset.sum_range_succ', Finset.mul_sum]
    simp only [List.getD_cons_succ, List.getD_cons_zero, pow_zero, mul_one]
    rw [add_comm]
    congr 1
    apply Finset.sum_congr rfl
    intro k _
    ring

/-- C10: every entry, under key `j`, of the map returned by a successful
`Continue` on participant `p` is a Round-2 message with sender `p`, recipient
`j`, the group of `p`, and as secret share the value at the scalar `j` of the
polynomial that `p` held before the call (Horner evaluation, equal to the sum of
`coefficient_k * j^k` in the scalar field). -/
theorem continue_entries (E : EccGroup F G) (p p' : Participant F G)
    (r1 : List (Option (Round1Data F G))) (m : Round2Map F)
    (h : p.Continue E r1 = (.ok m, p')) (j : Nat) (d : Round2Data F) (hd : (j, d) ∈ m) :
    d.SenderIdentifier = p.Identifier ∧ d.RecipientIdentifier = j ∧ d.Group = p.group ∧
      d.SecretShare = Evaluate p.polynomial (j : F) ∧
      d.SecretShare
        = ∑ k in Finset.range p.polynomial.length, p.polynomial.getD k 0 * (j : F) ^ k := by
  obtain ⟨-, hloop, -⟩ := Continue_ok E p p' r1 m h
  have hnd := continueLoop_nodup E p r1 [] m hloop (by simp [Round2Map.keys])
  have hget := Round2Map.get_of_mem m j d hnd hd
  rw [continueLoop_get E p r1 [] m hloop j] at hget
  split at hget
  · simp only [Option.some.injEq] at hget
    subst hget
    refine ⟨rfl, rfl, rfl, rfl, ?_⟩
    exact Evaluate_eq_sum _ _
  · simp [Round2Map.get] at hget

theorem continue_entries_witness :
    (toyParticipant 1).Continue toyGroup
        [some (toyRound1 1), some (toyRound1 2), some (toyRound1 3)]
      = (.ok [(3, toyRound2 1 3 10),
              (2, toyRound2 1 2 4)],
         (toyParticipant 1).resetPolynomial) ∧
    (10 : ZMod 11) = Evaluate (toyParticipant 1).polynomial ((3 : Nat) : ZMod 11) :=
  have h : (toyParticipant 1).Continue toyGroup
        [some (toyRound1 1), some (toyRound1 2), some (toyRound1 3)]
      = (.ok [(3, toyRound2 1 3 10),
              (2, toyRound2 1 2 4)],
         (toyParticipant 1).resetPolynomial) := by decide
  ⟨h, (continue_entries toyGroup _ _ _ _ h 3 (toyRound2 1 3 10)
    (List.mem_cons_self _ _)).2.2.2.1⟩

/-- C9 (counterexample): given three copies of the Round-1 message of
participant 2, a set of the accepted size 3, `Continue` of participant 1 of a
2-of-3 setup succeeds with a map of one entry instead of two. -/
theorem continue_one_message_per_peer_counterexample :
    NewParticipant toyGroup Secp256k1 1 2 3 [] (toyRandom 1) = .ok (toyParticipant 1) ∧
    NewParticipant toyGroup Secp256k1 2 2 3 [] (toyRandom 2) = .ok (toyParticipant 2) ∧
    (toyParticipant 2).Start toyGroup (toyNonce 2) = .ok (toyRound1 2) ∧
    (toyParticipant 1).Continue toyGroup
        [some (toyRound1 2), some (toyRound1 2), some (toyRound1 2)]
      = (.ok [(2, toyRound2 1 2 4)],
         (toyParticipant 1).resetPolynomial) ∧
    ¬ (List.length [(2, toyRound2 1 2 4)] = (toyParticipant 1).maxSigners - 1) := by
  refine ⟨by decide, by decide, by decide, by decide, by decide⟩

/-- C9 (amended): whenever `Continue` succeeds on a participant with identifier
`i`, the returned map holds exactly one Round-2 message for each identifier other
than `i` that is the sender of a non-nil entry of the Round-1 set (its keys are
pairwise distinct and are exactly these identifiers); hence, when the senders
other than `i` occurring in the set are exactly the identifiers of 1..n other
than `i`, the map has exactly n-1 entries, keyed by these identifiers. -/
theorem continue_keys (E : EccGroup F G) (p p' : Participant F G)
    (r1 : List (Option (Round1Data F G))) (m : Round2Map F)
    (h : p.Continue E r1 = (.ok m, p')) :
    (Round2Map.keys m).Nodup ∧
    (∀ j, j ∈ Round2Map.keys m ↔ j ∈ senders r1 ∧ j ≠ p.Identifier) ∧
    ((∀ j, (j ∈ senders r1 ∧ j ≠ p.Identifier) ↔
          (1 ≤ j ∧ j ≤ p.maxSigners ∧ j ≠ p.Identifier)) →
      1 ≤ p.Identifier → p.Identifier ≤ p.maxSigners →
      m.length = p.maxSigners - 1 ∧
        ∀ j, j ∈ Round2Map.keys m ↔ (1 ≤ j ∧ j ≤ p.maxSigners ∧ j ≠ p.Identifier)) := by
  obtain ⟨-, hloop, -⟩ := Continue_ok E p p' r1 m h
  have hnd := continueLoop_nodup E p r1 [] m hloop (by simp [Round2Map.keys])
  have hkeys : ∀ j, j ∈ Round2Map.keys m ↔ j ∈ senders r1 ∧ j ≠ p.Identifier := by
    intro j
    rw [Round2Map.mem_keys_iff, continueLoop_get E p r1 [] m hloop j]
    split
    · rename_i hc
      simp [hc]
    · rename_i hc
      constructor
      · rintro ⟨v, hv⟩
        simp [Round2Map.get] at hv
      · intro hh
        exact absurd hh hc
  refine ⟨hnd, hkeys, ?_⟩
  intro hall h1 hn
  have hmem : ∀ j, j ∈ Round2Map.keys m ↔ (1 ≤ j ∧ j ≤ p.maxSigners ∧ j ≠ p.Identifier) :=
    fun j => (hkeys j).trans (hall j)
  refine ⟨?_, hmem⟩
  have hfs : (Round2Map.keys m).toFinset = (Finset.Icc 1 p.maxSigners).erase p.Identifier := by
    ext j
    simp only [List.mem_toFinset, hmem j, Finset.mem_erase, Finset.mem_Icc]
    tauto
  have hcard := List.toFinset_card_of_nodup hnd
  rw [hfs, Finset.card_erase_of_mem (Finset.mem_Icc.mpr ⟨h1, hn⟩), Nat.card_Icc] at hcard
  have hlen : (Round2Map.keys m).length = m.length := by simp [Round2Map.keys]
  omega

theorem continue_keys_witness :
    (toyParticipant 1).Continue toyGroup toyRound1Set
      = (.ok [(3, toyRound2 1 3 10), (2, toyRound2 1 2 4)],
         (toyParticipant 1).resetPolynomial) ∧
    List.length [(3, toyRound2 1 3 10), (2, toyRound2 1 2 4)]
      = (toyParticipant 1).maxSigners - 1 :=
  have h : (toyParticipant 1).Continue toyGroup toyRound1Set
      = (.ok [(3, toyRound2 1 3 10), (2, toyRound2 1 2 4)],
         (toyParticipant 1).resetPolynomial) := by decide
  ⟨h, ((continue_keys toyGroup _ _ _ _ h).2.2
    (by
      intro j
      have hs : senders toyRound1Set = [1, 2, 3] := by decide
      have hid : (toyParticipant 1).Identifier = 1 := rfl
      have hm : (toyParticipant 1).maxSigners = 3 := rfl
      rw [hs, hid, hm]
      simp only [List.mem_cons, List.mem_singleton, List.not_mem_nil, or_false]
      omega)
    (by decide) (by decide)).1⟩

theorem continueLoop_passing (E : EccGroup F G) (p : Participant F G)
    (pre rest : List (Option (Round1Data F G))) (m : Round2Map F)
    (hpre : ∀ d, some d ∈ pre → d.SenderIdentifier ≠ p.Identifier →
      ∃ c0 cs, d.Commitment = some c0 :: cs ∧
        verifyZKProof E p.group d.SenderIdentifier c0 d.ProofOfKnowledge = true) :
    ∃ m1, continueLoop E p (pre ++ rest) m = continueLoop E p rest m1 := by
  induction pre generalizing m with
  | nil => exact ⟨m, rfl⟩
  | cons o os ih =>
    have hos : ∀ d, some d ∈ os → d.SenderIdentifier ≠ p.Identifier →
        ∃ c0 cs, d.Commitment = some c0 :: cs ∧
          verifyZKProof E p.group d.SenderIdentifier c0 d.ProofOfKnowledge = true :=
      fun d hd => hpre d (List.mem_cons_of_mem _ hd)
    cases o with
    | none =>
      simp only [List.cons_append, continueLoop]
      exact ih m hos
    | some d =>
      simp only [List.cons_append, continueLoop]
      by_cases hself : d.SenderIdentifier = p.Identifier
      · rw [if_pos hself]
        exact ih m hos
      · rw [if_neg hself]
        obtain ⟨c0, cs, hcom, hv⟩ := hpre d (List.mem_cons_self _ _) hself
        rw [hcom]
        simp only [hv, Bool.not_true, Bool.false_eq_true, if_false]
        exact ih _ hos

/-- C6: for a Round-1 set of accepted size, if the entry `d` of sender `j` is the
first peer entry (nil entries and the entry of `p` itself being skipped) whose
proof is not accepted by `verifyZKProof` against its `commitment[0]`, every
earlier peer entry having a non-nil `commitment[0]` and an accepted proof, then
`Continue` returns no Round-2 data but the error wrapping the invalid-signature
abort with identifier `j` ("ABORT - invalid signature: participant j"), and leaves
the participant as it was. -/
theorem continue_bad_proof (E : EccGroup F G) (p : Participant F G)
    (pre post : List (Option (Round1Data F G))) (d : Round1Data F G) (c0 : G)
    (cs : List (Option G))
    (hsize : (pre ++ some d :: post).length = p.maxSigners ∨
      (pre ++ some d :: post).length = p.maxSignersMinusOne)
    (hpre : ∀ d', some d' ∈ pre → d'.SenderIdentifier ≠ p.Identifier →
      ∃ c0' cs', d'.Commitment = some c0' :: cs' ∧
        verifyZKProof E p.group d'.SenderIdentifier c0' d'.ProofOfKnowledge = true)
    (hpeer : d.SenderIdentifier ≠ p.Identifier)
    (hcom : d.Commitment = some c0 :: cs)
    (hbad : verifyZKProof E p.group d.SenderIdentifier c0 d.ProofOfKnowledge = false) :
    p.Continue E (pre ++ some d :: post)
        = (.err (.abortInvalidSignature d.SenderIdentifier), p) ∧
      (Error.abortInvalidSignature d.SenderIdentifier).text
        = "ABORT - invalid signature: participant " ++ toString d.SenderIdentifier := by
  refine ⟨?_, rfl⟩
  obtain ⟨m1, hm1⟩ := continueLoop_passing E p pre (some d :: post) [] hpre
  have hloop : continueLoop E p (pre ++ some d :: post) []
      = .err (.abortInvalidSignature d.SenderIdentifier) := by
    rw [hm1]
    simp only [continueLoop, if_neg hpeer, hcom, hbad, Bool.not_false, if_true]
  unfold Participant.Continue
  rw [if_neg (by omega), hloop]

theorem continue_bad_proof_witness :
    (toyParticipant 2).Continue toyGroup
        ([some (toyRound1 1), some (toyRound1 2)] ++ some toyBadRound1 :: [])
        = (.err (.abortInvalidSignature toyBadRound1.SenderIdentifier), toyParticipant 2) ∧
      (Error.abortInvalidSignature toyBadRound1.SenderIdentifier).text
        = "ABORT - invalid signature: participant " ++ toString toyBadRound1.SenderIdentifier :=
  continue_bad_proof toyGroup (toyParticipant 2) [some (toyRound1 1), some (toyRound1 2)] []
    toyBadRound1 (toyRandom 3 0) [some (toyRandom 3 1)] (by decide)
    (by
      intro d hd hne
      simp only [List.mem_cons, Option.some.injEq, List.mem_singleton, List.not_mem_nil,
        or_false] at hd
      rcases hd with rfl | rfl
      · exact ⟨toyRandom 1 0, [some (toyRandom 1 1)], rfl, by decide⟩
      · exact absurd rfl hne)
    (by decide) rfl (by decide)

/-! ### `Finalize` -/

theorem getCommitment_ne_nil (r1 : List (Option (Round1Data F G))) (id : Nat)
    (com : List (Option G)) (h : getCommitment r1 id = .ok com) : com ≠ [] := by
  induction r1 with
  | nil => simp [getCommitment] at h
  | cons o rest ih =>
    cases o with
    | none => simp [getCommitment] at h
    | some d =>
      simp only [getCommitment] at h
      split at h
      · split at h
        · cases h
        · rename_i hlen
          simp only [Result.ok.injEq] at h
          subst h
          intro hnil
          exact hlen (by simp [hnil])
      · exact ih h

theorem verifyRound2Data_of_header (E : EccGroup F G) (p : Participant F G)
    (r1 : List (Option (Round1Data F G))) (msg : Round2Data F) (com : List (Option G))
    (hh : p.checkRound2DataHeader msg = none)
    (hc : getCommitment r1 msg.SenderIdentifier = .ok com) :
    (PubKeyForCommitment (F := F) p.Identifier com = .ok (msg.SecretShare • E.base) →
        ∃ c cs, com = some c :: cs ∧ p.verifyRound2Data E r1 msg = .ok (some c)) ∧
    (PubKeyForCommitment (F := F) p.Identifier com ≠ .ok (msg.SecretShare • E.base) →
        p.verifyRound2Data E r1 msg = .err (.abortInvalidSecretShare msg.SenderIdentifier)) := by
  have hne := getCommitment_ne_nil r1 _ com hc
  constructor
  · intro hpk
    have hv : Verify (F := F) p.Identifier (msg.SecretShare • E.base) com = true := by
      simp [Verify, hpk]
    cases com with
    | nil => exact absurd rfl hne
    | cons o cs =>
      cases o with
      | none => simp [PubKeyForCommitment, allElements] at hpk
      | some c =>
        refine ⟨c, cs, rfl, ?_⟩
        simp [Participant.verifyRound2Data, hh, hc, Participant.verifyCommitmentPublicKey, hv]
  · intro hpk
    have hv : Verify (F := F) p.Identifier (msg.SecretShare • E.base) com = false := by
      unfold Verify
      split
      · rename_i v hv
        rw [hv] at hpk
        simp only [ne_eq, Result.ok.injEq] at hpk
        simpa using fun hh => hpk hh.symm
      · rfl
    simp [Participant.verifyRound2Data, hh, hc, Participant.verifyCommitmentPublicKey, hv]

theorem verifyRound2Data_ok (E : EccGroup F G) (p : Participant F G)
    (r1 : List (Option (Round1Data F G))) (msg : Round2Data F) (o : Option G)
    (h : p.verifyRound2Data E r1 msg = .ok o) :
    p.checkRound2DataHeader msg = none ∧
      ∃ c cs, o = some c ∧ getCommitment r1 msg.SenderIdentifier = .ok (some c :: cs) ∧
        PubKeyForCommitment (F := F) p.Identifier (some c :: cs)
          = .ok (msg.SecretShare • E.base) := by
  unfold Participant.verifyRound2Data at h
  split at h
  · cases h
  · rename_i hh
    refine ⟨hh, ?_⟩
    split at h
    · cases h
    · cases h
    · rename_i com hc
      by_cases hpk : PubKeyForCommitment (F := F) p.Identifier com
          = .ok (msg.SecretShare • E.base)
      · obtain ⟨c, cs, hcom, hv⟩ := (verifyRound2Data_of_header E p r1 msg com hh hc).1 hpk
        subst hcom
        have h2 : p.verifyRound2Data E r1 msg = .ok o := by
          simp only [Participant.verifyRound2Data, hh, hc]
          exact h
        rw [hv] at h2
        simp only [Result.ok.injEq] at h2
        exact ⟨c, cs, h2.symm, hc, hpk⟩
      · have hv := (verifyRound2Data_of_header E p r1 msg com hh hc).2 hpk
        have h2 : p.verifyRound2Data E r1 msg = .ok o := by
          simp only [Participant.verifyRound2Data, hh, hc]
          exact h
        rw [hv] at h2
        cases h2

theorem finalizeLoop_ok (E : EccGroup F G) (p : Participant F G)
    (r1 : List (Option (Round1Data F G))) (l : List (Round2Data F)) (sk sk' : F) (vk vk' : G)
    (h : finalizeLoop E p r1 l sk vk = .ok (sk', vk')) :
    (∀ msg ∈ l, ∃ c, p.verifyRound2Data E r1 msg = .ok (some c)) ∧
      sk' = sk + (l.map (fun msg => msg.SecretShare)).sum ∧
      vk' = vk + (l.map (fun msg => senderCommitmentZero r1 msg.SenderIdentifier)).sum := by
  induction l generalizing sk vk with
  | nil =>
    simp only [finalizeLoop, Result.ok.injEq, Prod.mk.injEq] at h
    simp [h.1, h.2]
  | cons msg rest ih =>
    simp only [finalizeLoop] at h
    split at h
    · cases h
    · cases h
    · rename_i o ho
      obtain ⟨-, c, cs, hoc, hgc, -⟩ := verifyRound2Data_ok E p r1 msg o ho
      subst hoc
      obtain ⟨h1, h2, h3⟩ := ih _ _ h
      refine ⟨?_, ?_, ?_⟩
      · intro m hm
        rcases List.mem_cons.mp hm with rfl | hm
        · exact ⟨c, ho⟩
        · exact h1 m hm
      · rw [h2, List.map_cons, List.sum_cons, add_assoc]
      · rw [h3, List.map_cons, List.sum_cons]
        simp [Element.Add, senderCommitmentZero, hgc, add_assoc]

theorem finalizeLoop_passing (E : EccGroup F G) (p : Participant F G)
    (r1 : List (Option (Round1Data F G))) (pre rest : List (Round2Data F)) (sk : F) (vk : G)
    (hpre : ∀ msg ∈ pre, ∃ o, p.verifyRound2Data E r1 msg = .ok o) :
    ∃ sk1 vk1, finalizeLoop E p r1 (pre ++ rest) sk vk = finalizeLoop E p r1 rest sk1 vk1 := by
  induction pre generalizing sk vk with
  | nil => exact ⟨sk, vk, rfl⟩
  | cons msg ms ih =>
    obtain ⟨o, ho⟩ := hpre msg (List.mem_cons_self _ _)
    simp only [List.cons_append, finalizeLoop, ho]
    exact ih _ _ (fun m hm => hpre m (List.mem_cons_of_mem _ hm))

/-- C7: for a participant with identifier `i` and a Round-2 message of sender `j`
that passes the header checks and whose sender has the (non-empty) commitment
`C_j` in the Round-1 set, the message is accepted iff
`Base^SecretShare = PubKeyForCommitment(g, i, C_j)`, the evaluation point being
the identifier of the recipient, and is otherwise rejected with the
invalid-secret-share abort naming `j`; and if, in a Finalize input of accepted
sizes, the first message failing this test comes from `j` (the earlier ones being
accepted), `Finalize` returns no key share but that error, leaving the
participant as it was. -/
theorem finalize_share_check (E : EccGroup F G) (p : Participant F G)
    (r1 : List (Option (Round1Data F G))) :
    (∀ (msg : Round2Data F) (com : List (Option G)),
      p.checkRound2DataHeader msg = none →
      getCommitment r1 msg.SenderIdentifier = .ok com →
      ((∃ o, p.verifyRound2Data E r1 msg = .ok o) ↔
        PubKeyForCommitment (F := F) p.Identifier com = .ok (msg.SecretShare • E.base)) ∧
      ((¬ ∃ o, p.verifyRound2Data E r1 msg = .ok o) →
        p.verifyRound2Data E r1 msg
          = .err (.abortInvalidSecretShare msg.SenderIdentifier))) ∧
    (∀ (pre post : List (Round2Data F)) (msg : Round2Data F) (com : List (Option G)),
      (r1.length = p.maxSigners ∨ r1.length = p.maxSignersMinusOne) →
      (pre ++ msg :: post).length = p.maxSignersMinusOne →
      (∀ m ∈ pre, ∃ o, p.verifyRound2Data E r1 m = .ok o) →
      p.checkRound2DataHeader msg = none →
      getCommitment r1 msg.SenderIdentifier = .ok com →
      PubKeyForCommitment (F := F) p.Identifier com ≠ .ok (msg.SecretShare • E.base) →
      p.Finalize E r1 (pre ++ msg :: post)
          = (.err (.abortInvalidSecretShare msg.SenderIdentifier), p) ∧
        (Error.abortInvalidSecretShare msg.SenderIdentifier).text
          = "ABORT - invalid secret share received from peer: "
              ++ toString msg.SenderIdentifier) := by
  constructor
  · intro msg com hh hc
    have hboth := verifyRound2Data_of_header E p r1 msg com hh hc
    constructor
    · constructor
      · rintro ⟨o, ho⟩
        by_contra hpk
        rw [hboth.2 hpk] at ho
        cases ho
      · intro hpk
        obtain ⟨c, cs, -, hv⟩ := hboth.1 hpk
        exact ⟨some c, hv⟩
    · intro hno
      apply hboth.2
      intro hpk
      obtain ⟨c, cs, -, hv⟩ := hboth.1 hpk
      exact hno ⟨some c, hv⟩
  · intro pre post msg com hr1 hr2 hpre hh hc hpk
    refine ⟨?_, rfl⟩
    have hv := (verifyRound2Data_of_header E p r1 msg com hh hc).2 hpk
    obtain ⟨sk1, vk1, hloop⟩ := finalizeLoop_passing E p r1 pre (msg :: post) 0 0 hpre
    have hl : finalizeLoop E p r1 (pre ++ msg :: post) 0 0
        = .err (.abortInvalidSecretShare msg.SenderIdentifier) := by
      rw [hloop]
      simp only [finalizeLoop, hv]
    unfold Participant.Finalize
    rw [if_neg (by omega), if_neg (by omega), hl]

theorem finalize_share_check_witness :
    (toyParticipant 1).resetPolynomial.Finalize toyGroup toyRound1Set
        ([toyRound2 2 1 2] ++ toyRound2 3 1 7 :: [])
      = (.err (.abortInvalidSecretShare 3), (toyParticipant 1).resetPolynomial) ∧
    (Error.abortInvalidSecretShare 3).text
      = "ABORT - invalid secret share received from peer: " ++ toString 3 :=
  (finalize_share_check toyGroup (toyParticipant 1).resetPolynomial toyRound1Set).2
    [toyRound2 2 1 2] [] (toyRound2 3 1 7) [some (toyRandom 3 0), some (toyRandom 3 1)]
    (by decide) (by decide)
    (by
      intro m hm
      simp only [List.mem_singleton] at hm
      subst hm
      exact ⟨some (toyRandom 2 0), by decide⟩)
    (by decide) (by decide) (by decide)

/-- C8: for every successful `Finalize(r1, r2)` on participant `p`, the returned
Secret is the secret share of `p` before the call plus the sum of the SecretShare
of every message of `r2`; the VerificationKey is the own `commitment[0]` of `p`
plus the sum, over the messages of `r2`, of `commitment[0]` of the sender as found
in `r1` (which exists and is not nil for each of them); the PublicKey is
`Base^Secret`; and the PublicKeyShare carries the identifier, group and
commitment of `p`. -/
theorem finalize_key_share (E : EccGroup F G) (p p' : Participant F G)
    (r1 : List (Option (Round1Data F G))) (r2 : List (Round2Data F)) (ks : KeyShare F G)
    (h : p.Finalize E r1 r2 = (.ok ks, p')) :
    ks.Secret = p.secretShare + (r2.map (fun msg => msg.SecretShare)).sum ∧
    (∀ msg ∈ r2, ∃ c cs, getCommitment r1 msg.SenderIdentifier = .ok (some c :: cs) ∧
      senderCommitmentZero r1 msg.SenderIdentifier = c) ∧
    (∃ c0 rest, p.commitment = c0 :: rest ∧
      ks.VerificationKey
        = c0.getD 0 + (r2.map (fun msg => senderCommitmentZero r1 msg.SenderIdentifier)).sum) ∧
    ks.PublicKeyShare.PublicKey = ks.Secret • E.base ∧
    ks.PublicKeyShare.ID = p.Identifier ∧ ks.PublicKeyShare.Group = p.group ∧
    ks.PublicKeyShare.VssCommitment = p.commitment := by
  unfold Participant.Finalize at h
  split at h
  · cases h
  · split at h
    · cases h
    · split at h
      · cases h
      · cases h
      · rename_i sk vk hloop
        obtain ⟨hall, hsk, hvk⟩ := finalizeLoop_ok E p r1 r2 0 sk 0 vk hloop
        have hcoms : ∀ msg ∈ r2, ∃ c cs,
            getCommitment r1 msg.SenderIdentifier = .ok (some c :: cs) ∧
              senderCommitmentZero r1 msg.SenderIdentifier = c := by
          intro msg hmsg
          obtain ⟨c, hc⟩ := hall msg hmsg
          obtain ⟨-, c', cs, hcc, hgc, -⟩ := verifyRound2Data_ok E p r1 msg _ hc
          exact ⟨c', cs, hgc, by simp [senderCommitmentZero, hgc]⟩
        split at h
        · cases h
        · rename_i c0 rest hcom
          simp only [Prod.mk.injEq, Result.ok.injEq] at h
          obtain ⟨hks, -⟩ := h
          subst hks
          refine ⟨?_, hcoms, ⟨c0, rest, hcom, ?_⟩, rfl, rfl, rfl, rfl⟩
          · simp only [hsk, zero_add]
            exact add_comm _ _
          · simp only [hvk, zero_add]
            cases c0 with
            | none => simp [Element.Add]
            | some c => simp [Element.Add, add_comm]

theorem finalize_key_share_witness :
    (toyParticipant 1).resetPolynomial.Finalize toyGroup toyRound1Set
        [toyRound2 2 1 2, toyRound2 3 1 6]
      = (.ok { Secret := 6, VerificationKey := 4,
               PublicKeyShare := { PublicKey := 6, VssCommitment := [some 3, some 6],
                                   ID := 1, Group := Secp256k1 } },
         { (toyParticipant 1).resetPolynomial with secretShare := 0 }) ∧
    (6 : ZMod 11) = (toyParticipant 1).resetPolynomial.secretShare
      + ([toyRound2 2 1 2, toyRound2 3 1 6].map (fun msg => msg.SecretShare)).sum :=
  have h : (toyParticipant 1).resetPolynomial.Finalize toyGroup toyRound1Set
        [toyRound2 2 1 2, toyRound2 3 1 6]
      = (.ok { Secret := 6, VerificationKey := 4,
               PublicKeyShare := { PublicKey := 6, VssCommitment := [some 3, some 6],
                                   ID := 1, Group := Secp256k1 } },
         { (toyParticipant 1).resetPolynomial with secretShare := 0 }) := by decide
  ⟨h, (finalize_key_share toyGroup _ _ _ _ _ h).1⟩

/-! ### An honest run -/

theorem Result.mapM_ok {α β : Type} (f : α → Result β) (g : α → β) (l : List α)
    (h : ∀ a ∈ l, f a = .ok (g a)) : Result.mapM f l = .ok (l.map g) := by
  induction l with
  | nil => rfl
  | cons a as ih =>
    simp only [Result.mapM, h a (List.mem_cons_self _ _),
      ih (fun b hb => h b (List.mem_cons_of_mem _ hb)), List.map_cons]

theorem honestPolynomial_cons (t : Nat) (rnd : Nat → Nat → F) (i : Nat) (ht : 1 ≤ t) :
    honestPolynomial t rnd i
      = rnd i 0 :: (List.range (t - 1)).map (fun k => rnd i (k + 1)) := by
  obtain ⟨t', rfl⟩ : ∃ t', t = t' + 1 := ⟨t - 1, by omega⟩
  simp [honestPolynomial, List.range_succ_eq_map, Function.comp_def]

theorem NewParticipant_honest (E : EccGroup F G) (c t n : Nat) (rnd : Nat → Nat → F) (i : Nat)
    (hc : Ciphersuite.Available c = true) (h1 : 1 ≤ i) (hn : i ≤ n) :
    NewParticipant E c i t n [] (rnd i) = .ok (honestParticipant E c t n rnd i) := by
  have h0 : i ≠ 0 := by omega
  have hgt : ¬ i > n := by omega
  simp [NewParticipant, hc, h0, hgt, Participant.initPoly, honestParticipant, honestPolynomial]

theorem makeParticipants_honest (E : EccGroup F G) (c t n : Nat) (rnd : Nat → Nat → F)
    (hc : Ciphersuite.Available c = true) :
    makeParticipants E c t n rnd
      = .ok ((List.range n).map (fun idx => honestParticipant E c t n rnd (idx + 1))) := by
  unfold makeParticipants
  apply Result.mapM_ok
  intro idx hidx
  have := List.mem_range.mp hidx
  exact NewParticipant_honest E c t n rnd (idx + 1) hc (by omega) (by omega)

theorem Start_honest (E : EccGroup F G) (c t n : Nat) (rnd : Nat → Nat → F) (nonce : Nat → F)
    (i : Nat) (ht : 1 ≤ t) :
    (honestParticipant E c t n rnd i).Start E (nonce i)
      = .ok (honestRound1 E c t rnd nonce i) := by
  simp only [Participant.Start, Participant.StartWithRandom, honestParticipant, honestRound1,
    honestPolynomial_cons t rnd i ht, Commit, List.map_cons]

theorem runRound1_honest (E : EccGroup F G) (c t n : Nat) (rnd : Nat → Nat → F)
    (nonce : Nat → F) (ht : 1 ≤ t) :
    runRound1 E ((List.range n).map (fun idx => honestParticipant E c t n rnd (idx + 1))) nonce
      = .ok (honestRound1Set E c t n rnd nonce) := by
  unfold runRound1 honestRound1Set
  rw [Result.mapM_ok _ (fun p => some (honestRound1 E c t rnd nonce p.Identifier))]
  · simp [List.map_map, Function.comp_def, honestParticipant]
  · intro p hp
    obtain ⟨idx, -, rfl⟩ := List.mem_map.mp hp
    have : (honestParticipant E c t n rnd (idx + 1)).Identifier = idx + 1 := rfl
    rw [this, Start_honest E c t n rnd nonce (idx + 1) ht]
    rfl

theorem honestCommitment_cons (E : EccGroup F G) (t : Nat) (rnd : Nat → Nat → F) (i : Nat)
    (ht : 1 ≤ t) :
    Commit E (honestPolynomial t rnd i)
      = some (rnd i 0 • E.base)
          :: ((List.range (t - 1)).map (fun k => rnd i (k + 1))).map
              (fun a => some (a • E.base)) := by
  rw [honestPolynomial_cons t rnd i ht]
  rfl

theorem honestRound1Set_mem (E : EccGroup F G) (c t n : Nat) (rnd : Nat → Nat → F)
    (nonce : Nat → F) (d : Round1Data F G)
    (h : some d ∈ honestRound1Set E c t n rnd nonce) :
    ∃ i, 1 ≤ i ∧ i ≤ n ∧ d = honestRound1 E c t rnd nonce i := by
  unfold honestRound1Set at h
  obtain ⟨idx, hidx, hd⟩ := List.mem_map.mp h
  have := List.mem_range.mp hidx
  simp only [Option.some.injEq] at hd
  exact ⟨idx + 1, by omega, by omega, hd.symm⟩

theorem honestRound1Set_length (E : EccGroup F G) (c t n : Nat) (rnd : Nat → Nat → F)
    (nonce : Nat → F) : (honestRound1Set E c t n rnd nonce).length = n := by
  simp [honestRound1Set]

theorem honestRound1Set_senders (E : EccGroup F G) (c t n : Nat) (rnd : Nat → Nat → F)
    (nonce : Nat → F) (j : Nat) :
    j ∈ senders (honestRound1Set E c t n rnd nonce) ↔ 1 ≤ j ∧ j ≤ n := by
  simp only [senders, honestRound1Set, List.filterMap_map, Function.comp_def, Option.map_some',
    List.mem_filterMap, List.mem_range, Option.some.injEq, honestRound1]
  constructor
  · rintro ⟨idx, hidx, rfl⟩
    omega
  · rintro ⟨h1, hn⟩
    exact ⟨j - 1, by omega, by omega⟩

theorem honest_proofs_verify (E : EccGroup F G) (c t n : Nat) (rnd : Nat → Nat → F)
    (nonce : Nat → F) (ht : 1 ≤ t) (d : Round1Data F G)
    (h : some d ∈ honestRound1Set E c t n rnd nonce) :
    ∃ c0 cs, d.Commitment = some c0 :: cs ∧
      verifyZKProof E c d.SenderIdentifier c0 d.ProofOfKnowledge = true := by
  obtain ⟨i, -, -, rfl⟩ := honestRound1Set_mem E c t n rnd nonce d h
  refine ⟨rnd i 0 • E.base, _, honestCommitment_cons E t rnd i ht, ?_⟩
  exact verify_generate E c i (rnd i 0) [none] (nonce i)

theorem continueLoop_honest (E : EccGroup F G) (c t n : Nat) (rnd : Nat → Nat → F)
    (nonce : Nat → F) (ht : 1 ≤ t) (i : Nat) :
    continueLoop E (honestParticipant E c t n rnd i) (honestRound1Set E c t n rnd nonce) []
      = .ok (honestMap E c t n rnd nonce i) := by
  obtain ⟨m1, hm1⟩ := continueLoop_passing E (honestParticipant E c t n rnd i)
    (honestRound1Set E c t n rnd nonce) [] []
    (fun d hd _ => honest_proofs_verify E c t n rnd nonce ht d hd)
  rw [List.append_nil] at hm1
  simp only [continueLoop] at hm1
  unfold honestMap
  rw [hm1]

theorem Continue_honest (E : EccGroup F G) (c t n : Nat) (rnd : Nat → Nat → F)
    (nonce : Nat → F) (ht : 1 ≤ t) (i : Nat) :
    (honestParticipant E c t n rnd i).Continue E (honestRound1Set E c t n rnd nonce)
      = (.ok (honestMap E c t n rnd nonce i),
         (honestParticipant E c t n rnd i).resetPolynomial) := by
  unfold Participant.Continue
  have hlen : (honestRound1Set E c t n rnd nonce).length
      = (honestParticipant E c t n rnd i).maxSigners := honestRound1Set_length E c t n rnd nonce
  rw [if_neg (by omega), continueLoop_honest E c t n rnd nonce ht i]

theorem honestMap_get (E : EccGroup F G) (c t n : Nat) (rnd : Nat → Nat → F)
    (nonce : Nat → F) (ht : 1 ≤ t) (i j : Nat) (h1 : 1 ≤ j) (hn : j ≤ n) :
    Round2Map.get (honestMap E c t n rnd nonce i) j
      = if j ≠ i then some ((honestParticipant E c t n rnd i).round2For j) else none := by
  rw [continueLoop_get E _ _ [] _ (continueLoop_honest E c t n rnd nonce ht i) j]
  have hs := (honestRound1Set_senders E c t n rnd nonce j).mpr ⟨h1, hn⟩
  have hid : (honestParticipant E c t n rnd i).Identifier = i := rfl
  by_cases hji : j = i
  · simp [hji, hid, Round2Map.get]
  · simp [hji, hid, hs]

theorem runContinue_honest (E : EccGroup F G) (c t n : Nat) (rnd : Nat → Nat → F)
    (nonce : Nat → F) (ht : 1 ≤ t) :
    runContinue E ((List.range n).map (fun idx => honestParticipant E c t n rnd (idx + 1)))
        (honestRound1Set E c t n rnd nonce)
      = .ok ((List.range n).map (fun idx =>
          (honestMap E c t n rnd nonce (idx + 1),
            (honestParticipant E c t n rnd (idx + 1)).resetPolynomial))) := by
  unfold runContinue
  rw [Result.mapM_ok _ (fun p => (honestMap E c t n rnd nonce p.Identifier, p.resetPolynomial))]
  · simp [List.map_map, Function.comp_def, honestParticipant]
  · intro p hp
    obtain ⟨idx, -, rfl⟩ := List.mem_map.mp hp
    rw [Continue_honest E c t n rnd nonce ht (idx + 1)]
    rfl

theorem filterMap_ite {α β : Type} (q : α → Prop) [DecidablePred q] (g : α → β)
    (l : List α) :
    l.filterMap (fun a => if q a then some (g a) else none)
      = (l.filter (fun a => decide (q a))).map g := by
  induction l with
  | nil => rfl
  | cons a as ih =>
    by_cases hq : q a
    · simp [List.filterMap_cons, hq, ih]
    · simp [List.filterMap_cons, hq, ih]

theorem triage_honest (E : EccGroup F G) (c t n : Nat) (rnd : Nat → Nat → F)
    (nonce : Nat → F) (ht : 1 ≤ t) (i : Nat) (h1 : 1 ≤ i) (hn : i ≤ n) :
    triage ((List.range n).map (fun idx => honestMap E c t n rnd nonce (idx + 1))) i
      = ((List.range n).filter (fun idx => decide (idx ≠ i - 1))).map
          (fun idx => (honestParticipant E c t n rnd (idx + 1)).round2For i) := by
  unfold triage
  rw [List.filterMap_map, ← filterMap_ite]
  apply List.filterMap_congr
  intro idx _
  simp only [Function.comp_def]
  rw [honestMap_get E c t n rnd nonce ht (idx + 1) i h1 hn]
  by_cases h : idx = i - 1
  · have h' : i = idx + 1 := by omega
    rw [if_neg (by simpa using h'), if_neg (by simpa using h)]
  · have h' : ¬ i = idx + 1 := by omega
    rw [if_pos h', if_pos h]

/-! ### Feldman commitments -/

theorem pubKeySum_commit (E : EccGroup F G) (x : F) (k : Nat) (l : List F) :
    pubKeySum x k (l.map (fun a => a • E.base)) = (x ^ k * Evaluate l x) • E.base := by
  induction l generalizing k with
  | nil => simp [pubKeySum, Evaluate]
  | cons a l ih =>
    simp only [List.map_cons, pubKeySum, ih, Evaluate_cons]
    rw [smul_smul, ← add_smul]
    congr 1
    ring

theorem allElements_commit (E : EccGroup F G) (l : List F) :
    allElements (Commit E l) = some (l.map (fun a => a • E.base)) := by
  induction l with
  | nil => rfl
  | cons a l ih =>
    unfold Commit at ih
    simp [Commit, allElements, ih]

theorem PubKeyForCommitment_commit (E : EccGroup F G) (id : Nat) (l : List F) :
    PubKeyForCommitment (F := F) id (Commit E l) = .ok (Evaluate l (id : F) • E.base) := by
  simp [PubKeyForCommitment, allElements_commit, pubKeySum_commit]

theorem getCommitment_honest_aux (E : EccGroup F G) (c t : Nat) (rnd : Nat → Nat → F)
    (nonce : Nat → F) (ht : 1 ≤ t) (l : List Nat) (j : Nat) (h1 : 1 ≤ j) (hj : j - 1 ∈ l) :
    getCommitment (l.map (fun idx => some (honestRound1 E c t rnd nonce (idx + 1)))) j
      = .ok (Commit E (honestPolynomial t rnd j)) := by
  induction l with
  | nil => cases hj
  | cons a l ih =>
    simp only [List.map_cons, getCommitment]
    have hs : (honestRound1 E c t rnd nonce (a + 1)).SenderIdentifier = a + 1 := rfl
    by_cases ha : a + 1 = j
    · rw [hs, if_pos ha]
      subst ha
      have hcom : (honestRound1 E c t rnd nonce (a + 1)).Commitment
          = Commit E (honestPolynomial t rnd (a + 1)) := rfl
      rw [hcom, honestCommitment_cons E t rnd (a + 1) ht]
      simp
    · rw [hs, if_neg ha]
      apply ih
      rcases List.mem_cons.mp hj with h | h
      · omega
      · exact h

theorem getCommitment_honest (E : EccGroup F G) (c t n : Nat) (rnd : Nat → Nat → F)
    (nonce : Nat → F) (ht : 1 ≤ t) (j : Nat) (h1 : 1 ≤ j) (hn : j ≤ n) :
    getCommitment (honestRound1Set E c t n rnd nonce) j
      = .ok (Commit E (honestPolynomial t rnd j)) :=
  getCommitment_honest_aux E c t rnd nonce ht (List.range n) j h1
    (List.mem_range.mpr (by omega))

theorem senderCommitmentZero_honest (E : EccGroup F G) (c t n : Nat) (rnd : Nat → Nat → F)
    (nonce : Nat → F) (ht : 1 ≤ t) (j : Nat) (h1 : 1 ≤ j) (hn : j ≤ n) :
    senderCommitmentZero (honestRound1Set E c t n rnd nonce) j = rnd j 0 • E.base := by
  unfold senderCommitmentZero
  rw [getCommitment_honest E c t n rnd nonce ht j h1 hn, honestCommitment_cons E t rnd j ht]

theorem verifyRound2Data_honest (E : EccGroup F G) (c t n : Nat) (rnd : Nat → Nat → F)
    (nonce : Nat → F) (ht : 1 ≤ t) (i j : Nat) (h1 : 1 ≤ j) (hn : j ≤ n) (hji : j ≠ i) :
    ∃ o, (honestParticipant E c t n rnd i).resetPolynomial.verifyRound2Data E
        (honestRound1Set E c t n rnd nonce)
        ((honestParticipant E c t n rnd j).round2For i) = .ok o := by
  have hh : (honestParticipant E c t n rnd i).resetPolynomial.checkRound2DataHeader
      ((honestParticipant E c t n rnd j).round2For i) = none := by
    have hij : ¬ i = j := fun hh => hji hh.symm
    simp [Participant.checkRound2DataHeader, Participant.round2For, honestParticipant,
      Participant.resetPolynomial, hij, hji]
  have hc : getCommitment (honestRound1Set E c t n rnd nonce)
      ((honestParticipant E c t n rnd j).round2For i).SenderIdentifier
      = .ok (Commit E (honestPolynomial t rnd j)) :=
    getCommitment_honest E c t n rnd nonce ht j h1 hn
  obtain ⟨c0, cs, -, hv⟩ := (verifyRound2Data_of_header E _ _ _ _ hh hc).1
    (PubKeyForCommitment_commit E i (honestPolynomial t rnd j))
  exact ⟨some c0, hv⟩

theorem sum_filter_ne {M : Type} [AddCommMonoid M] (f : Nat → M) (l : List Nat) (a : Nat)
    (hl : l.Nodup) (ha : a ∈ l) :
    f a + ((l.filter (fun b => decide (b ≠ a))).map f).sum = (l.map f).sum := by
  induction l with
  | nil => cases ha
  | cons b l ih =>
    rw [List.nodup_cons] at hl
    by_cases hb : b = a
    · subst hb
      have hfil : l.filter (fun x => decide (x ≠ b)) = l := by
        apply List.filter_eq_self.mpr
        intro x hx
        have : x ≠ b := fun hh => hl.1 (hh ▸ hx)
        simpa using this
      rw [List.filter_cons_of_neg (by simp), hfil, List.map_cons, List.sum_cons]
    · have hal : a ∈ l := by
        rcases List.mem_cons.mp ha with h | h
        · exact absurd h.symm hb
        · exact h
      rw [List.filter_cons_of_pos (by simpa using hb), List.map_cons, List.sum_cons,
        List.map_cons, List.sum_cons, ← ih hl.2 hal]
      abel

theorem length_filter_ne (n a : Nat) (ha : a < n) :
    ((List.range n).filter (fun b => decide (b ≠ a))).length = n - 1 := by
  have h := sum_filter_ne (fun _ => (1 : Nat)) (List.range n) a (List.nodup_range n)
    (List.mem_range.mpr ha)
  simp only [List.map_const', List.sum_replicate, smul_eq_mul, mul_one, List.length_range] at h
  omega

theorem Finalize_honest (E : EccGroup F G) (c t n : Nat) (rnd : Nat → Nat → F)
    (nonce : Nat → F) (ht : 1 ≤ t) (hn16 : n < 65536) (i : Nat) (h1 : 1 ≤ i) (hn : i ≤ n) :
    (honestParticipant E c t n rnd i).resetPolynomial.Finalize E
        (honestRound1Set E c t n rnd nonce)
        (triage ((List.range n).map (fun idx => honestMap E c t n rnd nonce (idx + 1))) i)
      = (.ok (honestKeyShare E c t n rnd i),
         { (honestParticipant E c t n rnd i).resetPolynomial with secretShare := 0 }) := by
  rw [triage_honest E c t n rnd nonce ht i h1 hn]
  have hpre : ∀ msg ∈ ((List.range n).filter (fun idx => decide (idx ≠ i - 1))).map
      (fun idx => (honestParticipant E c t n rnd (idx + 1)).round2For i),
      ∃ o, (honestParticipant E c t n rnd i).resetPolynomial.verifyRound2Data E
        (honestRound1Set E c t n rnd nonce) msg = .ok o := by
    intro msg hmsg
    obtain ⟨idx, hidx, rfl⟩ := List.mem_map.mp hmsg
    rw [List.mem_filter, List.mem_range] at hidx
    have hne : idx ≠ i - 1 := by simpa using hidx.2
    exact verifyRound2Data_honest E c t n rnd nonce ht i (idx + 1) (by omega) (by omega)
      (by omega)
  obtain ⟨sk1, vk1, hloop⟩ := finalizeLoop_passing E _ _ _ [] 0 0 hpre
  rw [List.append_nil] at hloop
  simp only [finalizeLoop] at hloop
  obtain ⟨-, hsk, hvk⟩ := finalizeLoop_ok E _ _ _ _ _ _ _ hloop
  have hlen := length_filter_ne n (i - 1) (by omega)
  unfold Participant.Finalize
  rw [if_neg (by
      simp only [honestRound1Set_length, Participant.resetPolynomial, honestParticipant]
      omega),
    if_neg (by
      simp only [List.length_map, hlen, Participant.maxSignersMinusOne,
        Participant.resetPolynomial, honestParticipant]
      omega), hloop]
  have hcom : (honestParticipant E c t n rnd i).resetPolynomial.commitment
      = some (rnd i 0 • E.base)
          :: ((List.range (t - 1)).map (fun k => rnd i (k + 1))).map
              (fun a => some (a • E.base)) := honestCommitment_cons E t rnd i ht
  simp only [hcom]
  have hi : i - 1 + 1 = i := by omega
  have hsecret : sk1 + (honestParticipant E c t n rnd i).resetPolynomial.secretShare
      = honestSecret t n rnd i := by
    rw [hsk, zero_add, List.map_map, add_comm]
    have := sum_filter_ne (fun idx => Evaluate (honestPolynomial t rnd (idx + 1)) (i : F))
      (List.range n) (i - 1) (List.nodup_range n) (List.mem_range.mpr (by omega))
    simp only [hi] at this
    exact this
  have hkey : Element.Add vk1 (some (rnd i 0 • E.base)) = honestGroupKey E n rnd := by
    rw [hvk, zero_add, List.map_map]
    have := sum_filter_ne (fun idx => rnd (idx + 1) 0 • E.base)
      (List.range n) (i - 1) (List.nodup_range n) (List.mem_range.mpr (by omega))
    simp only [hi] at this
    unfold honestGroupKey
    rw [← this]
    simp only [Element.Add]
    rw [add_comm]
    congr 2
    apply List.map_congr_left
    intro idx hidx
    rw [List.mem_filter, List.mem_range] at hidx
    exact senderCommitmentZero_honest E c t n rnd nonce ht (idx + 1) (by omega) (by omega)
  rw [hsecret, hkey]
  unfold honestKeyShare
  rw [honestCommitment_cons E t rnd i ht]
  rfl

theorem finalize_honest (E : EccGroup F G) (c t n : Nat) (rnd : Nat → Nat → F)
    (nonce : Nat → F) (ht : 1 ≤ t) (hn16 : n < 65536) :
    finalize E
        ((List.range n).map (fun idx => (honestParticipant E c t n rnd (idx + 1)).resetPolynomial))
        (honestRound1Set E c t n rnd nonce)
        ((List.range n).map (fun idx => honestMap E c t n rnd nonce (idx + 1)))
      = .ok ((List.range n).map (fun idx => honestKeyShare E c t n rnd (idx + 1))) := by
  unfold finalize
  rw [Result.mapM_ok _ (fun p => honestKeyShare E c t n rnd p.Identifier)]
  · simp [List.map_map, Function.comp_def, honestParticipant, Participant.resetPolynomial]
  · intro p hp
    obtain ⟨idx, hidx, rfl⟩ := List.mem_map.mp hp
    have := List.mem_range.mp hidx
    have hid : (honestParticipant E c t n rnd (idx + 1)).resetPolynomial.Identifier = idx + 1 :=
      rfl
    rw [hid, Finalize_honest E c t n rnd nonce ht hn16 (idx + 1) (by omega) (by omega)]
    rfl

theorem completeDKG_honest (E : EccGroup F G) (c t n : Nat) (rnd : Nat → Nat → F)
    (nonce : Nat → F) (hc : Ciphersuite.Available c = true) (ht : 1 ≤ t) (hn16 : n < 65536) :
    completeDKG E c t n rnd nonce
      = .ok (honestRound1Set E c t n rnd nonce,
             (List.range n).map (fun idx => honestKeyShare E c t n rnd (idx + 1))) := by
  unfold completeDKG
  rw [makeParticipants_honest E c t n rnd hc]
  simp only [Result.bind]
  rw [runRound1_honest E c t n rnd nonce ht]
  simp only
  rw [runContinue_honest E c t n rnd nonce ht]
  simp only [List.map_map, Function.comp_def]
  rw [finalize_honest E c t n rnd nonce ht hn16]

theorem verificationKeyFromRound1Loop_honest (E : EccGroup F G) (c t : Nat)
    (rnd : Nat → Nat → F) (nonce : Nat → F) (ht : 1 ≤ t) (l : List Nat) (acc : G) :
    verificationKeyFromRound1Loop
        (l.map (fun idx => some (honestRound1 E c t rnd nonce (idx + 1)))) acc
      = .ok (acc + (l.map (fun idx => rnd (idx + 1) 0 • E.base)).sum) := by
  induction l generalizing acc with
  | nil => simp [verificationKeyFromRound1Loop]
  | cons a l ih =>
    have hcom : (honestRound1 E c t rnd nonce (a + 1)).Commitment
        = some (rnd (a + 1) 0 • E.base)
            :: ((List.range (t - 1)).map (fun k => rnd (a + 1) (k + 1))).map
                (fun a => some (a • E.base)) := honestCommitment_cons E t rnd (a + 1) ht
    simp only [List.map_cons, verificationKeyFromRound1Loop, hcom, ih, Element.Add,
      List.sum_cons, add_assoc]

theorem commitmentZero_honest (E : EccGroup F G) (c t n : Nat) (rnd : Nat → Nat → F)
    (nonce : Nat → F) (ht : 1 ≤ t) :
    ((honestRound1Set E c t n rnd nonce).map commitmentZero).sum = honestGroupKey E n rnd := by
  unfold honestRound1Set honestGroupKey
  rw [List.map_map]
  congr 1
  apply List.map_congr_left
  intro idx _
  have hcom : (honestRound1 E c t rnd nonce (idx + 1)).Commitment
      = some (rnd (idx + 1) 0 • E.base)
          :: ((List.range (t - 1)).map (fun k => rnd (idx + 1) (k + 1))).map
              (fun a => some (a • E.base)) := honestCommitment_cons E t rnd (idx + 1) ht
  simp only [Function.comp_def, commitmentZero, hcom]

/-- C1: honest full run. For an available ciphersuite, a threshold `t ≥ 1` and
`n` participants (a `uint16`), with participants 1..n made by `NewParticipant`,
the Round-1 set made of their `Start` outputs, and every participant given the
n-1 messages addressed to it by the `Continue` of the others, every `Finalize`
succeeds (the run returns n key shares), and every returned VerificationKey is the
sum of `commitment[0]` over the n Round-1 messages, which is the value of
`VerificationKeyFromRound1`; so all participants obtain the same key. -/
theorem honest_run_verification_key (E : EccGroup F G) (c t n : Nat) (rnd : Nat → Nat → F)
    (nonce : Nat → F) (hc : Ciphersuite.Available c = true) (ht : 1 ≤ t) (hn16 : n < 65536) :
    ∃ r1 keyShares, completeDKG E c t n rnd nonce = .ok (r1, keyShares) ∧
      r1.length = n ∧ keyShares.length = n ∧
      VerificationKeyFromRound1 c r1 = .ok ((r1.map commitmentZero).sum) ∧
      ∀ ks ∈ keyShares, ks.VerificationKey = (r1.map commitmentZero).sum := by
  refine ⟨_, _, completeDKG_honest E c t n rnd nonce hc ht hn16,
    honestRound1Set_length E c t n rnd nonce, by simp, ?_, ?_⟩
  · rw [commitmentZero_honest E c t n rnd nonce ht]
    unfold VerificationKeyFromRound1 honestRound1Set
    simp only [hc, Bool.not_true, Bool.false_eq_true, if_false]
    rw [verificationKeyFromRound1Loop_honest E c t rnd nonce ht, zero_add]
    rfl
  · intro ks hks
    obtain ⟨idx, -, rfl⟩ := List.mem_map.mp hks
    rw [commitmentZero_honest E c t n rnd nonce ht]
    rfl

theorem honest_run_verification_key_witness :
    completeDKG toyGroup Secp256k1 2 3 toyRandom toyNonce
      = .ok (toyRound1Set, [toyKeyShare 1 6, toyKeyShare 2 8, toyKeyShare 3 10]) ∧
    ∃ r1 keyShares, completeDKG toyGroup Secp256k1 2 3 toyRandom toyNonce = .ok (r1, keyShares) ∧
      r1.length = 3 ∧ keyShares.length = 3 ∧
      VerificationKeyFromRound1 Secp256k1 r1 = .ok ((r1.map commitmentZero).sum) ∧
      ∀ ks ∈ keyShares, ks.VerificationKey = (r1.map commitmentZero).sum :=
  ⟨by decide,
    honest_run_verification_key toyGroup Secp256k1 2 3 toyRandom toyNonce (by decide)
      (by decide) (by decide)⟩

/-! ### Verification shares -/

theorem computeParticipantPublicKeyLoop_ok (id : Nat) (cs : List (List (Option G))) (acc : G)
    (h : ∀ com ∈ cs, com ≠ [] ∧ ∃ v, PubKeyForCommitment (F := F) id com = .ok v) :
    computeParticipantPublicKeyLoop (F := F) id cs acc
      = .ok (acc + (cs.map (pubKeyValue (F := F) id)).sum) := by
  induction cs generalizing acc with
  | nil => simp [computeParticipantPublicKeyLoop]
  | cons com cs ih =>
    obtain ⟨hne, v, hv⟩ := h com (List.mem_cons_self _ _)
    have hlen : ¬ com.length = 0 := by
      intro hh
      exact hne (List.length_eq_zero.mp hh)
    simp only [computeParticipantPublicKeyLoop, if_neg hlen, hv,
      ih _ (fun c hc => h c (List.mem_cons_of_mem _ hc)), List.map_cons, List.sum_cons,
      pubKeyValue, add_assoc]

/-- C3: after an honest full run, for every participant `i` and for
`commitments` the list, in any order, of the VSS commitments of all n
participants, `ComputeParticipantPublicKey` returns the sum over `j` of
`PubKeyForCommitment(g, i, C_j)`, which equals `Base^(sum over j of f_j(i))`, the
PublicKey of the key share of `i`, and `VerifyPublicKey` returns nil for it. -/
theorem honest_run_public_keys (E : EccGroup F G) (c t n : Nat) (rnd : Nat → Nat → F)
    (nonce : Nat → F) (hc : Ciphersuite.Available c = true) (ht : 1 ≤ t) (hn16 : n < 65536) :
    ∃ r1 keyShares, completeDKG E c t n rnd nonce = .ok (r1, keyShares) ∧
      ∀ commitments : List (List (Option G)),
        commitments.Perm (keyShares.map (fun ks => ks.PublicKeyShare.VssCommitment)) →
        ∀ ks ∈ keyShares,
          ks.PublicKeyShare.PublicKey
              = ((List.range n).map (fun j =>
                  Evaluate (honestPolynomial t rnd (j + 1)) (ks.PublicKeyShare.ID : F))).sum
                • E.base ∧
          ComputeParticipantPublicKey (F := F) c ks.PublicKeyShare.ID commitments
              = .ok ((commitments.map (pubKeyValue (F := F) ks.PublicKeyShare.ID)).sum) ∧
          (commitments.map (pubKeyValue (F := F) ks.PublicKeyShare.ID)).sum
              = ks.PublicKeyShare.PublicKey ∧
          VerifyPublicKey (F := F) E c ks.PublicKeyShare.ID (some ks.PublicKeyShare.PublicKey)
              commitments = .ok () := by
  refine ⟨_, _, completeDKG_honest E c t n rnd nonce hc ht hn16, ?_⟩
  intro commitments hperm ks hks
  obtain ⟨idx, hidx, rfl⟩ := List.mem_map.mp hks
  have hidx' := List.mem_range.mp hidx
  rw [List.map_map] at hperm
  have hcoms : ∀ com ∈ commitments,
      com ≠ [] ∧ ∃ v, PubKeyForCommitment (F := F) (idx + 1) com = .ok v := by
    intro com hcom
    obtain ⟨j, -, rfl⟩ := List.mem_map.mp ((hperm.mem_iff).mp hcom)
    constructor
    · show Commit E (honestPolynomial t rnd (j + 1)) ≠ []
      rw [honestCommitment_cons E t rnd (j + 1) ht]
      exact List.cons_ne_nil _ _
    · exact ⟨_, PubKeyForCommitment_commit E (idx + 1) (honestPolynomial t rnd (j + 1))⟩
  have hsum : (commitments.map (pubKeyValue (F := F) (idx + 1))).sum
      = honestSecret t n rnd (idx + 1) • E.base := by
    rw [(hperm.map _).sum_eq, List.map_map]
    unfold honestSecret
    rw [List.sum_smul, List.map_map]
    congr 1
    apply List.map_congr_left
    intro j _
    simp only [Function.comp_def, honestKeyShare, pubKeyValue, PubKeyForCommitment_commit]
  have hlen : ¬ commitments.length = 0 := by
    rw [hperm.length_eq, List.length_map, List.length_range]
    omega
  have hcompute : ComputeParticipantPublicKey (F := F) c (idx + 1) commitments
      = .ok ((commitments.map (pubKeyValue (F := F) (idx + 1))).sum) := by
    unfold ComputeParticipantPublicKey
    simp only [hc, Bool.not_true, Bool.false_eq_true, if_false, if_neg hlen]
    rw [computeParticipantPublicKeyLoop_ok (idx + 1) commitments 0 hcoms, zero_add]
  refine ⟨rfl, hcompute, hsum, ?_⟩
  show VerifyPublicKey (F := F) E c (idx + 1)
    (some (honestSecret t n rnd (idx + 1) • E.base)) commitments = .ok ()
  unfold VerifyPublicKey
  simp only [hc, Bool.not_true, Bool.false_eq_true, if_false, hcompute, hsum, ne_eq,
    not_true_eq_false]

theorem honest_run_public_keys_witness :
    ∃ r1 keyShares, completeDKG toyGroup Secp256k1 2 3 toyRandom toyNonce = .ok (r1, keyShares) ∧
      ∀ commitments : List (List (Option (ZMod 11))),
        commitments.Perm (keyShares.map (fun ks => ks.PublicKeyShare.VssCommitment)) →
        ∀ ks ∈ keyShares,
          ks.PublicKeyShare.PublicKey
              = ((List.range 3).map (fun j =>
                  Evaluate (honestPolynomial 2 toyRandom (j + 1))
                    (ks.PublicKeyShare.ID : ZMod 11))).sum
                • toyGroup.base ∧
          ComputeParticipantPublicKey (F := ZMod 11) Secp256k1 ks.PublicKeyShare.ID commitments
              = .ok ((commitments.map (pubKeyValue (F := ZMod 11) ks.PublicKeyShare.ID)).sum) ∧
          (commitments.map (pubKeyValue (F := ZMod 11) ks.PublicKeyShare.ID)).sum
              = ks.PublicKeyShare.PublicKey ∧
          VerifyPublicKey (F := ZMod 11) toyGroup Secp256k1 ks.PublicKeyShare.ID
              (some ks.PublicKeyShare.PublicKey) commitments = .ok () :=
  honest_run_public_keys toyGroup Secp256k1 2 3 toyRandom toyNonce (by decide) (by decide)
    (by decide)

/-! ### Lagrange interpolation and threshold recovery -/

theorem lagrange_list (xs : List F) (hxs : xs.Nodup) (P : Polynomial F)
    (hP : P.degree < xs.length) :
    (xs.map (fun x => lagrangeAtZero xs x * P.eval x)).sum = P.eval 0 := by
  have hinj : Set.InjOn (id : F → F) (xs.toFinset : Set F) := fun _ _ _ _ h => h
  have hcard : xs.toFinset.card = xs.length := List.toFinset_card_of_nodup hxs
  have hdeg : P.degree < xs.toFinset.card := by rw [hcard]; exact hP
  have hint := Lagrange.eq_interpolate hinj hdeg
  have h0 : P.eval 0
      = (Lagrange.interpolate xs.toFinset id (fun i => P.eval (id i))).eval 0 := by
    rw [← hint]
  rw [h0, Lagrange.interpolate_apply, Polynomial.eval_finset_sum, ← List.sum_toFinset _ hxs]
  apply Finset.sum_congr rfl
  intro x _
  rw [Polynomial.eval_mul, Polynomial.eval_C, mul_comm]
  congr 1
  unfold Lagrange.basis lagrangeAtZero
  rw [Polynomial.eval_prod]
  have hfil : (xs.filter (fun xj => decide (xj ≠ x))).toFinset = xs.toFinset.erase x := by
    ext y
    simp [List.mem_filter, Finset.mem_erase, and_comm]
  rw [← hfil, List.prod_toFinset _ (hxs.filter _)]
  congr 1
  apply List.map_congr_left
  intro y _
  simp only [Lagrange.basisDivisor, Polynomial.eval_mul, Polynomial.eval_C, Polynomial.eval_sub,
    Polynomial.eval_X, id, zero_sub]
  rw [div_eq_mul_inv, mul_comm, ← neg_sub y x, inv_neg]
  ring

theorem exists_polynomial (l : List F) :
    ∃ P : Polynomial F, P ∈ Polynomial.degreeLT F l.length ∧ ∀ x, P.eval x = Evaluate l x := by
  refine ⟨∑ k in Finset.range l.length, Polynomial.C (l.getD k 0) * Polynomial.X ^ k, ?_, ?_⟩
  · apply Submodule.sum_mem
    intro k hk
    rw [Polynomial.mem_degreeLT]
    refine lt_of_le_of_lt (Polynomial.degree_C_mul_X_pow_le k _) ?_
    exact_mod_cast Finset.mem_range.mp hk
  · intro x
    rw [Evaluate_eq_sum, Polynomial.eval_finset_sum]
    apply Finset.sum_congr rfl
    intro k _
    simp

theorem exists_polynomial_sum (t : Nat) (ls : List (List F)) (h : ∀ l ∈ ls, l.length = t) :
    ∃ Q : Polynomial F, Q ∈ Polynomial.degreeLT F t ∧
      ∀ x, Q.eval x = (ls.map (fun l => Evaluate l x)).sum := by
  induction ls with
  | nil => exact ⟨0, Submodule.zero_mem _, by simp⟩
  | cons l ls ih =>
    obtain ⟨Q, hQ, hQe⟩ := ih (fun l' hl' => h l' (List.mem_cons_of_mem _ hl'))
    obtain ⟨P, hP, hPe⟩ := exists_polynomial l
    rw [h l (List.mem_cons_self _ _)] at hP
    exact ⟨P + Q, Submodule.add_mem _ hP hQ, by simp [hPe, hQe]⟩

theorem distinctByID_of_nodup (l : List (Nat × F)) (h : (l.map (fun s => s.1)).Nodup) :
    distinctByID l = l := by
  induction l with
  | nil => rfl
  | cons s rest ih =>
    rw [List.map_cons, List.nodup_cons] at h
    rw [distinctByID, ih h.2]
    congr 1
    apply List.filter_eq_self.mpr
    intro r hr
    have : r.1 ≠ s.1 := by
      intro hh
      apply h.1
      rw [← hh]
      exact List.mem_map.mpr ⟨r, hr, rfl⟩
    simpa using this

theorem Evaluate_honest_zero (t : Nat) (rnd : Nat → Nat → F) (i : Nat) (ht : 1 ≤ t) :
    Evaluate (honestPolynomial t rnd i) 0 = rnd i 0 := by
  rw [honestPolynomial_cons t rnd i ht, Evaluate_cons, zero_mul, add_zero]

/-- C2: threshold recovery. After an honest full run with threshold `t` and `n`
participants, `n` being smaller than the characteristic `q` of the scalar field
(so that distinct identifiers are distinct scalars), for every list of at least
`t` of the key shares with pairwise distinct identifiers, Lagrange interpolation
at `x = 0` of the pairs (ID, Secret) by `CombineShares` yields a scalar `s` with
`Base^s` equal to the VerificationKey of every key share. -/
theorem honest_run_threshold_recovery (E : EccGroup F G) (c t n : Nat) (rnd : Nat → Nat → F)
    (nonce : Nat → F) (q : Nat) [CharP F q] (hc : Ciphersuite.Available c = true) (ht : 1 ≤ t)
    (hn16 : n < 65536) (hq : n < q) :
    ∃ r1 keyShares, completeDKG E c t n rnd nonce = .ok (r1, keyShares) ∧
      ∀ sel : List (KeyShare F G), (∀ ks ∈ sel, ks ∈ keyShares) →
        (sel.map (fun ks => ks.PublicKeyShare.ID)).Nodup → t ≤ sel.length →
        ∃ s, CombineShares t (sel.map (fun ks => (ks.PublicKeyShare.ID, ks.Secret))) = some s ∧
          ∀ ks ∈ keyShares, s • E.base = ks.VerificationKey := by
  refine ⟨_, _, completeDKG_honest E c t n rnd nonce hc ht hn16, ?_⟩
  intro sel hsel hnd hlen
  have hmem : ∀ ks ∈ sel, ∃ i, 1 ≤ i ∧ i ≤ n ∧ ks = honestKeyShare E c t n rnd i := by
    intro ks hks
    obtain ⟨idx, hidx, rfl⟩ := List.mem_map.mp (hsel ks hks)
    have := List.mem_range.mp hidx
    exact ⟨idx + 1, by omega, by omega, rfl⟩
  obtain ⟨Q, hQ, hQe⟩ := exists_polynomial_sum t
    ((List.range n).map (fun idx => honestPolynomial t rnd (idx + 1)))
    (by
      intro l hl
      obtain ⟨idx, -, rfl⟩ := List.mem_map.mp hl
      simp [honestPolynomial])
  rw [Polynomial.mem_degreeLT] at hQ
  have hsecret : ∀ ks ∈ sel, ks.Secret = Q.eval (ks.PublicKeyShare.ID : F) := by
    intro ks hks
    obtain ⟨i, -, -, rfl⟩ := hmem ks hks
    rw [hQe, List.map_map]
    rfl
  have hxs : (sel.map (fun ks => (ks.PublicKeyShare.ID : F))).Nodup := by
    have h2 := List.Nodup.map_on (f := fun k : Nat => (k : F))
      (l := sel.map (fun ks => ks.PublicKeyShare.ID))
      (by
        intro a ha b hb hab
        obtain ⟨ka, hka, rfl⟩ := List.mem_map.mp ha
        obtain ⟨kb, hkb, rfl⟩ := List.mem_map.mp hb
        obtain ⟨ia, -, hia, rfl⟩ := hmem ka hka
        obtain ⟨ib, -, hib, rfl⟩ := hmem kb hkb
        exact CharP.natCast_injOn_Iio F q (show ia < q by omega) (show ib < q by omega) hab)
      hnd
    rw [List.map_map] at h2
    exact h2
  have hds : distinctByID (sel.map (fun ks => (ks.PublicKeyShare.ID, ks.Secret)))
      = sel.map (fun ks => (ks.PublicKeyShare.ID, ks.Secret)) := by
    apply distinctByID_of_nodup
    rw [List.map_map]
    exact hnd
  have hdeg : Q.degree
      < ((sel.map (fun ks => (ks.PublicKeyShare.ID : F))).length : WithBot Nat) := by
    refine lt_of_lt_of_le hQ ?_
    rw [List.length_map]
    exact_mod_cast hlen
  have hlag := lagrange_list _ hxs Q hdeg
  refine ⟨Q.eval 0, ?_, ?_⟩
  · unfold CombineShares
    simp only [hds, List.length_map, if_neg (not_lt.mpr hlen), List.map_map, Function.comp_def,
      Option.some.injEq]
    rw [← hlag, List.map_map]
    congr 1
    apply List.map_congr_left
    intro ks hks
    simp only [Function.comp_def, hsecret ks hks]
  · intro ks hks
    obtain ⟨idx, -, rfl⟩ := List.mem_map.mp hks
    show Q.eval 0 • E.base = honestGroupKey E n rnd
    rw [hQe, List.map_map, List.sum_smul, List.map_map]
    unfold honestGroupKey
    congr 1
    apply List.map_congr_left
    intro j _
    simp only [Function.comp_def, Evaluate_honest_zero t rnd (j + 1) ht]

theorem honest_run_threshold_recovery_witness :
    ∃ r1 keyShares, completeDKG toyGroup Secp256k1 2 3 toyRandom toyNonce = .ok (r1, keyShares) ∧
      ∀ sel : List (KeyShare (ZMod 11) (ZMod 11)), (∀ ks ∈ sel, ks ∈ keyShares) →
        (sel.map (fun ks => ks.PublicKeyShare.ID)).Nodup → 2 ≤ sel.length →
        ∃ s, CombineShares 2 (sel.map (fun ks => (ks.PublicKeyShare.ID, ks.Secret))) = some s ∧
          ∀ ks ∈ keyShares, s • toyGroup.base = ks.VerificationKey :=
  honest_run_threshold_recovery toyGroup Secp256k1 2 3 toyRandom toyNonce 11 (by decide)
    (by decide) (by decide) (by decide)

/-! ### Erasure, atomicity and the message counts -/

theorem Finalize_ok (E : EccGroup F G) (p p' : Participant F G)
    (r1 : List (Option (Round1Data F G))) (r2 : List (Round2Data F)) (ks : KeyShare F G)
    (h : p.Finalize E r1 r2 = (.ok ks, p')) :
    (r1.length = p.maxSigners ∨ r1.length = p.maxSignersMinusOne)
      ∧ r2.length = p.maxSignersMinusOne ∧ p' = { p with secretShare := 0 } := by
  unfold Participant.Finalize at h
  split at h
  · cases h
  · rename_i h1
    split at h
    · cases h
    · rename_i h2
      split at h
      · cases h
      · cases h
      · split at h
        · cases h
        · simp only [Prod.mk.injEq] at h
          exact ⟨by omega, by omega, h.2.symm⟩

theorem Continue_err (E : EccGroup F G) (p p' : Participant F G)
    (r1 : List (Option (Round1Data F G))) (e : Error)
    (h : p.Continue E r1 = (.err e, p')) :
    p' = p ∧
      ((r1.length ≠ p.maxSigners ∧ r1.length ≠ p.maxSignersMinusOne ∧ e = .round1DataElements)
        ∨ ((r1.length = p.maxSigners ∨ r1.length = p.maxSignersMinusOne)
            ∧ continueLoop E p r1 [] = .err e)) := by
  unfold Participant.Continue at h
  split at h
  · rename_i hlen
    simp only [Prod.mk.injEq, Result.err.injEq] at h
    exact ⟨h.2.symm, Or.inl ⟨hlen.1, hlen.2, h.1.symm⟩⟩
  · rename_i hlen
    split at h
    · cases h
    · rename_i e' hloop
      simp only [Prod.mk.injEq, Result.err.injEq] at h
      refine ⟨h.2.symm, Or.inr ⟨by omega, ?_⟩⟩
      rw [hloop, h.1]
    · cases h

theorem Finalize_err (E : EccGroup F G) (p p' : Participant F G)
    (r1 : List (Option (Round1Data F G))) (r2 : List (Round2Data F)) (e : Error)
    (h : p.Finalize E r1 r2 = (.err e, p')) :
    p' = p ∧
      ((r1.length ≠ p.maxSigners ∧ r1.length ≠ p.maxSignersMinusOne ∧ e = .round1DataElements)
        ∨ ((r1.length = p.maxSigners ∨ r1.length = p.maxSignersMinusOne)
            ∧ r2.length ≠ p.maxSignersMinusOne ∧ e = .round2DataElements)
        ∨ ((r1.length = p.maxSigners ∨ r1.length = p.maxSignersMinusOne)
            ∧ r2.length = p.maxSignersMinusOne ∧ finalizeLoop E p r1 r2 0 0 = .err e)) := by
  unfold Participant.Finalize at h
  split at h
  · rename_i hlen
    simp only [Prod.mk.injEq, Result.err.injEq] at h
    exact ⟨h.2.symm, Or.inl ⟨hlen.1, hlen.2, h.1.symm⟩⟩
  · rename_i hlen
    split at h
    · rename_i hlen2
      simp only [Prod.mk.injEq, Result.err.injEq] at h
      exact ⟨h.2.symm, Or.inr (Or.inl ⟨by omega, hlen2, h.1.symm⟩)⟩
    · rename_i hlen2
      split at h
      · rename_i e' hloop
        simp only [Prod.mk.injEq, Result.err.injEq] at h
        refine ⟨h.2.symm, Or.inr (Or.inr ⟨by omega, by omega, ?_⟩)⟩
        rw [hloop, h.1]
      · cases h
      · split at h
        · cases h
        · cases h

/-- C11: secret erasure at the two defined points. After every successful
`Continue` the polynomial of the participant has as many coefficients as before,
each of them the zero scalar (the other fields being unchanged); after every
successful `Finalize` the standalone secret share of the participant is the zero
scalar (the other fields being unchanged). -/
theorem secret_erasure (E : EccGroup F G) (p : Participant F G)
    (r1 : List (Option (Round1Data F G))) :
    (∀ m p', p.Continue E r1 = (.ok m, p') →
      p'.polynomial.length = p.polynomial.length ∧ (∀ a ∈ p'.polynomial, a = 0) ∧
        p' = { p with polynomial := p'.polynomial }) ∧
    (∀ r2 ks p', p.Finalize E r1 r2 = (.ok ks, p') →
      p'.secretShare = 0 ∧ p' = { p with secretShare := 0 }) := by
  constructor
  · intro m p' h
    obtain ⟨-, -, hp'⟩ := Continue_ok E p p' r1 m h
    subst hp'
    refine ⟨by simp [Participant.resetPolynomial], ?_, rfl⟩
    intro a ha
    simp only [Participant.resetPolynomial, List.mem_map] at ha
    obtain ⟨_, _, rfl⟩ := ha
    rfl
  · intro r2 ks p' h
    obtain ⟨-, -, hp'⟩ := Finalize_ok E p p' r1 r2 ks h
    subst hp'
    exact ⟨rfl, rfl⟩

theorem secret_erasure_witness :
    (toyParticipant 1).Continue toyGroup toyRound1Set
      = (.ok [(3, toyRound2 1 3 10), (2, toyRound2 1 2 4)],
         { toyParticipant 1 with polynomial := [0, 0] }) ∧
    (toyParticipant 1).resetPolynomial.Finalize toyGroup toyRound1Set
        [toyRound2 2 1 2, toyRound2 3 1 6]
      = (.ok (toyKeyShare 1 6),
         { toyParticipant 1 with polynomial := [0, 0], secretShare := 0 }) ∧
    (∀ a ∈ ({ toyParticipant 1 with polynomial := [0, 0] } :
        Participant (ZMod 11) (ZMod 11)).polynomial, a = 0) ∧
    ({ toyParticipant 1 with polynomial := [0, 0], secretShare := 0 } :
        Participant (ZMod 11) (ZMod 11)).secretShare = 0 :=
  have h1 : (toyParticipant 1).Continue toyGroup toyRound1Set
      = (.ok [(3, toyRound2 1 3 10), (2, toyRound2 1 2 4)],
         { toyParticipant 1 with polynomial := [0, 0] }) := by decide
  have h2 : (toyParticipant 1).resetPolynomial.Finalize toyGroup toyRound1Set
        [toyRound2 2 1 2, toyRound2 3 1 6]
      = (.ok (toyKeyShare 1 6),
         { toyParticipant 1 with polynomial := [0, 0], secretShare := 0 }) := by decide
  ⟨h1, h2, ((secret_erasure toyGroup (toyParticipant 1) toyRound1Set).1 _ _ h1).2.1,
    ((secret_erasure toyGroup (toyParticipant 1).resetPolynomial toyRound1Set).2 _ _ _ h2).1⟩

/-- C12: atomicity on abort. Whenever `Continue` or `Finalize` returns an error,
the participant after the call (polynomial, secret share, commitment,
identifier and configuration) is the participant before the call. -/
theorem abort_atomicity (E : EccGroup F G) (p : Participant F G)
    (r1 : List (Option (Round1Data F G))) :
    (∀ e p', p.Continue E r1 = (.err e, p') → p' = p) ∧
    (∀ r2 e p', p.Finalize E r1 r2 = (.err e, p') → p' = p) :=
  ⟨fun e p' h => (Continue_err E p p' r1 e h).1,
    fun r2 e p' h => (Finalize_err E p p' r1 r2 e h).1⟩

theorem abort_atomicity_witness :
    ((toyParticipant 2).Continue toyGroup
        [some (toyRound1 1), some (toyRound1 2), some toyBadRound1]).1
      = .err (.abortInvalidSignature 3) ∧
    ((toyParticipant 2).Continue toyGroup
        [some (toyRound1 1), some (toyRound1 2), some toyBadRound1]).2 = toyParticipant 2 ∧
    ((toyParticipant 1).resetPolynomial.Finalize toyGroup toyRound1Set
        [toyRound2 2 1 2, toyRound2 3 1 7]).1 = .err (.abortInvalidSecretShare 3) ∧
    ((toyParticipant 1).resetPolynomial.Finalize toyGroup toyRound1Set
        [toyRound2 2 1 2, toyRound2 3 1 7]).2 = (toyParticipant 1).resetPolynomial :=
  have h1 : ((toyParticipant 2).Continue toyGroup
        [some (toyRound1 1), some (toyRound1 2), some toyBadRound1]).1
      = .err (.abortInvalidSignature 3) := by decide
  have h2 : ((toyParticipant 1).resetPolynomial.Finalize toyGroup toyRound1Set
        [toyRound2 2 1 2, toyRound2 3 1 7]).1 = .err (.abortInvalidSecretShare 3) := by decide
  ⟨h1,
    (abort_atomicity toyGroup (toyParticipant 2)
      [some (toyRound1 1), some (toyRound1 2), some toyBadRound1]).1 _ _ (Prod.ext h1 rfl),
    h2,
    (abort_atomicity toyGroup (toyParticipant 1).resetPolynomial toyRound1Set).2 _ _ _
      (Prod.ext h2 rfl)⟩

theorem continueLoop_err_kind (E : EccGroup F G) (p : Participant F G)
    (l : List (Option (Round1Data F G))) (m : Round2Map F) (e : Error)
    (h : continueLoop E p l m = .err e) :
    e = .commitmentNilElement ∨ ∃ peer, e = .abortInvalidSignature peer := by
  induction l generalizing m with
  | nil => simp [continueLoop] at h
  | cons o rest ih =>
    cases o with
    | none =>
      simp only [continueLoop] at h
      exact ih m h
    | some d =>
      simp only [continueLoop] at h
      split at h
      · exact ih m h
      · split at h
        · simp only [Result.err.injEq] at h
          exact Or.inl h.symm
        · simp only [Result.err.injEq] at h
          exact Or.inl h.symm
        · split at h
          · simp only [Result.err.injEq] at h
            exact Or.inr ⟨_, h.symm⟩
          · exact ih _ h

theorem checkRound2DataHeader_kind (p : Participant F G) (d : Round2Data F) (e : Error)
    (h : p.checkRound2DataHeader d = some e) :
    e = .round2FaultyPackage ∨ e = .round2OwnPackage ∨ e = .round2InvalidReceiver := by
  unfold Participant.checkRound2DataHeader at h
  split at h
  · simp only [Option.some.injEq] at h
    exact Or.inl h.symm
  · split at h
    · simp only [Option.some.injEq] at h
      exact Or.inr (Or.inl h.symm)
    · split at h
      · simp only [Option.some.injEq] at h
        exact Or.inr (Or.inr h.symm)
      · cases h

theorem getCommitment_err_kind (r1 : List (Option (Round1Data F G))) (id : Nat) (e : Error)
    (h : getCommitment r1 id = .err e) :
    e = .commitmentNotFound id ∨ e = .commitmentEmpty id := by
  induction r1 with
  | nil =>
    simp only [getCommitment, Result.err.injEq] at h
    exact Or.inl h.symm
  | cons o rest ih =>
    cases o with
    | none => simp [getCommitment] at h
    | some d =>
      simp only [getCommitment] at h
      split at h
      · split at h
        · simp only [Result.err.injEq] at h
          exact Or.inr h.symm
        · cases h
      · exact ih h

theorem verifyRound2Data_err_kind (E : EccGroup F G) (p : Participant F G)
    (r1 : List (Option (Round1Data F G))) (msg : Round2Data F) (e : Error)
    (h : p.verifyRound2Data E r1 msg = .err e) :
    p.checkRound2DataHeader msg = some e ∨
      (p.checkRound2DataHeader msg = none ∧
        (e = .commitmentNotFound msg.SenderIdentifier ∨ e = .commitmentEmpty msg.SenderIdentifier
          ∨ e = .abortInvalidSecretShare msg.SenderIdentifier)) := by
  unfold Participant.verifyRound2Data at h
  split at h
  · rename_i e' he'
    simp only [Result.err.injEq] at h
    exact Or.inl (h ▸ he')
  · rename_i hh
    refine Or.inr ⟨hh, ?_⟩
    split at h
    · rename_i e' he'
      simp only [Result.err.injEq] at h
      subst h
      rcases getCommitment_err_kind r1 _ _ he' with h1 | h1
      · exact Or.inl h1
      · exact Or.inr (Or.inl h1)
    · cases h
    · split at h
      · rename_i e' he'
        simp only [Result.err.injEq] at h
        subst h
        simp only [Participant.verifyCommitmentPublicKey] at he'
        split at he'
        · simp only [Option.some.injEq] at he'
          exact Or.inr (Or.inr he'.symm)
        · cases he'
      · split at h
        · cases h
        · cases h

theorem finalizeLoop_err_split (E : EccGroup F G) (p : Participant F G)
    (r1 : List (Option (Round1Data F G))) (l : List (Round2Data F)) (sk : F) (vk : G)
    (e : Error) (h : finalizeLoop E p r1 l sk vk = .err e) :
    ∃ pre msg post, l = pre ++ msg :: post ∧
      (∀ m ∈ pre, ∃ o, p.verifyRound2Data E r1 m = .ok o) ∧
      p.verifyRound2Data E r1 msg = .err e := by
  induction l generalizing sk vk with
  | nil => simp [finalizeLoop] at h
  | cons a rest ih =>
    simp only [finalizeLoop] at h
    split at h
    · rename_i e' he'
      simp only [Result.err.injEq] at h
      subst h
      exact ⟨[], a, rest, rfl, by simp, he'⟩
    · cases h
    · rename_i o ho
      obtain ⟨pre, msg, post, hl, hpre, hmsg⟩ := ih _ _ h
      refine ⟨a :: pre, msg, post, by simp [hl], ?_, hmsg⟩
      intro m hm
      rcases List.mem_cons.mp hm with rfl | hm
      · exact ⟨o, ho⟩
      · exact hpre m hm

/-- C13: message-count checks, for a participant with `maxSigners = n`
(`1 ≤ n`, as for every participant that `NewParticipant` returns, and `n` a
`uint16`). `Continue(r1)` returns the round-1 count error iff `len(r1)` is
neither `n` nor `n-1`; `Finalize(r1, r2)` returns the round-1 count error iff
`len(r1)` is neither `n` nor `n-1`, and the round-2 count error iff `len(r1)` is
`n` or `n-1` and `len(r2) ≠ n-1`; in each of these cases the call returns nothing
but the error and leaves the participant as it was. -/
theorem message_count_checks (E : EccGroup F G) (p : Participant F G)
    (r1 : List (Option (Round1Data F G))) (r2 : List (Round2Data F))
    (h1 : 1 ≤ p.maxSigners) (h16 : p.maxSigners < 65536) :
    ((p.Continue E r1).1 = .err .round1DataElements ↔
      (r1.length ≠ p.maxSigners ∧ r1.length ≠ p.maxSigners - 1)) ∧
    ((p.Continue E r1).1 = .err .round1DataElements →
      p.Continue E r1 = (.err .round1DataElements, p)) ∧
    ((p.Finalize E r1 r2).1 = .err .round1DataElements ↔
      (r1.length ≠ p.maxSigners ∧ r1.length ≠ p.maxSigners - 1)) ∧
    ((p.Finalize E r1 r2).1 = .err .round1DataElements →
      p.Finalize E r1 r2 = (.err .round1DataElements, p)) ∧
    ((p.Finalize E r1 r2).1 = .err .round2DataElements ↔
      ((r1.length = p.maxSigners ∨ r1.length = p.maxSigners - 1) ∧
        r2.length ≠ p.maxSigners - 1)) ∧
    ((p.Finalize E r1 r2).1 = .err .round2DataElements →
      p.Finalize E r1 r2 = (.err .round2DataElements, p)) := by
  have hm : p.maxSignersMinusOne = p.maxSigners - 1 := by
    unfold Participant.maxSignersMinusOne
    omega
  have hC : ∀ e, (p.Continue E r1).1 = .err e → p.Continue E r1 = (.err e, p) := by
    intro e he
    have hpair : p.Continue E r1 = (.err e, (p.Continue E r1).2) := Prod.ext he rfl
    rw [(Continue_err E p _ r1 e hpair).1] at hpair
    exact hpair
  have hF : ∀ e, (p.Finalize E r1 r2).1 = .err e → p.Finalize E r1 r2 = (.err e, p) := by
    intro e he
    have hpair : p.Finalize E r1 r2 = (.err e, (p.Finalize E r1 r2).2) := Prod.ext he rfl
    rw [(Finalize_err E p _ r1 r2 e hpair).1] at hpair
    exact hpair
  have hloopF : ∀ e, finalizeLoop E p r1 r2 0 0 = .err e →
      e ≠ .round1DataElements ∧ e ≠ .round2DataElements := by
    intro e he
    obtain ⟨pre, msg, post, -, -, hmsg⟩ := finalizeLoop_err_split E p r1 r2 0 0 e he
    rcases verifyRound2Data_err_kind E p r1 msg e hmsg with hk | ⟨-, hk⟩
    · rcases checkRound2DataHeader_kind p msg e hk with rfl | rfl | rfl <;>
        exact ⟨by simp, by simp⟩
    · rcases hk with rfl | rfl | rfl <;> exact ⟨by simp, by simp⟩
  refine ⟨⟨?_, ?_⟩, hC _, ⟨?_, ?_⟩, hF _, ⟨?_, ?_⟩, hF _⟩
  · intro he
    rcases (Continue_err E p _ r1 _ (hC _ he)).2 with ⟨ha, hb, -⟩ | ⟨-, hloop⟩
    · exact ⟨ha, by omega⟩
    · rcases continueLoop_err_kind E p r1 [] _ hloop with hk | ⟨_, hk⟩ <;> cases hk
  · intro hlen
    unfold Participant.Continue
    rw [if_pos ⟨hlen.1, by omega⟩]
  · intro he
    rcases (Finalize_err E p _ r1 r2 _ (hF _ he)).2 with ⟨ha, hb, -⟩ | ⟨-, -, hk⟩ | ⟨-, -, hloop⟩
    · exact ⟨ha, by omega⟩
    · cases hk
    · exact absurd rfl (hloopF _ hloop).1
  · intro hlen
    unfold Participant.Finalize
    rw [if_pos ⟨hlen.1, by omega⟩]
  · intro he
    rcases (Finalize_err E p _ r1 r2 _ (hF _ he)).2 with ⟨-, -, hk⟩ | ⟨ha, hb, -⟩ | ⟨-, -, hloop⟩
    · cases hk
    · exact ⟨by omega, by omega⟩
    · exact absurd rfl (hloopF _ hloop).2
  · intro hlen
    unfold Participant.Finalize
    rw [if_neg (by omega), if_pos (by omega)]

theorem message_count_checks_witness :
    (toyParticipant 1).Continue toyGroup [some (toyRound1 2)]
      = (.err .round1DataElements, toyParticipant 1) ∧
    (toyParticipant 1).Finalize toyGroup toyRound1Set [toyRound2 2 1 2]
      = (.err .round2DataElements, toyParticipant 1) :=
  have h := message_count_checks toyGroup (toyParticipant 1) [some (toyRound1 2)]
    [toyRound2 2 1 2] (by decide) (by decide)
  have h' := message_count_checks toyGroup (toyParticipant 1) toyRound1Set
    [toyRound2 2 1 2] (by decide) (by decide)
  ⟨h.2.1 (h.1.mpr (by decide)), h'.2.2.2.2.2 (h'.2.2.2.2.1.mpr (by decide))⟩

/-! ### Header validation of Round-2 messages -/

theorem checkRound2DataHeader_table (p : Participant F G) (d : Round2Data F) :
    (p.checkRound2DataHeader d = some .round2FaultyPackage ↔
      d.SenderIdentifier = d.RecipientIdentifier) ∧
    (p.checkRound2DataHeader d = some .round2OwnPackage ↔
      (d.SenderIdentifier ≠ d.RecipientIdentifier ∧ d.SenderIdentifier = p.Identifier)) ∧
    (p.checkRound2DataHeader d = some .round2InvalidReceiver ↔
      (d.SenderIdentifier ≠ d.RecipientIdentifier ∧ d.SenderIdentifier ≠ p.Identifier ∧
        d.RecipientIdentifier ≠ p.Identifier)) ∧
    (p.checkRound2DataHeader d = none ↔
      (d.SenderIdentifier ≠ p.Identifier ∧ d.RecipientIdentifier = p.Identifier)) := by
  unfold Participant.checkRound2DataHeader
  by_cases h1 : d.RecipientIdentifier = d.SenderIdentifier
  · rw [if_pos h1]
    exact ⟨⟨fun _ => h1.symm, fun _ => rfl⟩,
      ⟨(fun h => by cases h), fun h => absurd h1.symm h.1⟩,
      ⟨(fun h => by cases h), fun h => absurd h1.symm h.1⟩,
      ⟨(fun h => by cases h), fun h => absurd (h1.symm.trans h.2) h.1⟩⟩
  · have h1' : d.SenderIdentifier ≠ d.RecipientIdentifier := fun hh => h1 hh.symm
    rw [if_neg h1]
    by_cases h2 : d.SenderIdentifier = p.Identifier
    · rw [if_pos h2]
      exact ⟨⟨(fun h => by cases h), fun h => absurd h h1'⟩,
        ⟨fun _ => ⟨h1', h2⟩, fun _ => rfl⟩,
        ⟨(fun h => by cases h), fun h => absurd h2 h.2.1⟩,
        ⟨(fun h => by cases h), fun h => absurd h2 h.1⟩⟩
    · rw [if_neg h2]
      by_cases h3 : d.RecipientIdentifier = p.Identifier
      · rw [if_neg (not_not.mpr h3)]
        exact ⟨⟨(fun h => by cases h), fun h => absurd h h1'⟩,
          ⟨(fun h => by cases h), fun h => absurd h.2 h2⟩,
          ⟨(fun h => by cases h), fun h => absurd h3 h.2.2⟩,
          ⟨fun _ => ⟨h2, h3⟩, fun _ => rfl⟩⟩
      · rw [if_pos h3]
        exact ⟨⟨(fun h => by cases h), fun h => absurd h h1'⟩,
          ⟨(fun h => by cases h), fun h => absurd h.2 h2⟩,
          ⟨fun _ => ⟨h1', h2, h3⟩, fun _ => rfl⟩,
          ⟨(fun h => by cases h), fun h => absurd h.2 h3⟩⟩

/-- C14: header validation of a Round-2 message with sender `s` and recipient `r`
by a participant with identifier `i`: the result is the malformed-package error
iff `s = r`; the own-package error iff `s ≠ r` and `s = i`; the invalid-receiver
error iff `s ≠ r`, `s ≠ i` and `r ≠ i`; and no error iff `s ≠ i` and `r = i`.
`Finalize` returns the first such error over its Round-2 messages in slice
order: on an input of accepted sizes whose messages before `msg` are accepted,
it returns the header error of `msg`; and whenever it returns a header error,
that error is the one of the first message of the slice whose header check
fails. -/
theorem round2_header_validation (E : EccGroup F G) (p : Participant F G) :
    (∀ d : Round2Data F,
      (p.checkRound2DataHeader d = some .round2FaultyPackage ↔
        d.SenderIdentifier = d.RecipientIdentifier) ∧
      (p.checkRound2DataHeader d = some .round2OwnPackage ↔
        (d.SenderIdentifier ≠ d.RecipientIdentifier ∧ d.SenderIdentifier = p.Identifier)) ∧
      (p.checkRound2DataHeader d = some .round2InvalidReceiver ↔
        (d.SenderIdentifier ≠ d.RecipientIdentifier ∧ d.SenderIdentifier ≠ p.Identifier ∧
          d.RecipientIdentifier ≠ p.Identifier)) ∧
      (p.checkRound2DataHeader d = none ↔
        (d.SenderIdentifier ≠ p.Identifier ∧ d.RecipientIdentifier = p.Identifier))) ∧
    (∀ (r1 : List (Option (Round1Data F G))) (pre post : List (Round2Data F))
        (msg : Round2Data F) (e : Error),
      (r1.length = p.maxSigners ∨ r1.length = p.maxSignersMinusOne) →
      (pre ++ msg :: post).length = p.maxSignersMinusOne →
      (∀ m ∈ pre, ∃ o, p.verifyRound2Data E r1 m = .ok o) →
      p.checkRound2DataHeader msg = some e →
      p.Finalize E r1 (pre ++ msg :: post) = (.err e, p)) ∧
    (∀ (r1 : List (Option (Round1Data F G))) (r2 : List (Round2Data F)) (e : Error),
      (p.Finalize E r1 r2).1 = .err e →
      (e = .round2FaultyPackage ∨ e = .round2OwnPackage ∨ e = .round2InvalidReceiver) →
      ∃ pre msg post, r2 = pre ++ msg :: post ∧
        (∀ m ∈ pre, p.checkRound2DataHeader m = none) ∧
        p.checkRound2DataHeader msg = some e) := by
  refine ⟨checkRound2DataHeader_table p, ?_, ?_⟩
  · intro r1 pre post msg e hr1 hr2 hpre hh
    obtain ⟨sk1, vk1, hloop⟩ := finalizeLoop_passing E p r1 pre (msg :: post) 0 0 hpre
    have hl : finalizeLoop E p r1 (pre ++ msg :: post) 0 0 = .err e := by
      rw [hloop]
      simp only [finalizeLoop, Participant.verifyRound2Data, hh]
    unfold Participant.Finalize
    rw [if_neg (by omega), if_neg (by omega), hl]
  · intro r1 r2 e he hkind
    have hpair : p.Finalize E r1 r2 = (.err e, (p.Finalize E r1 r2).2) := Prod.ext he rfl
    rcases (Finalize_err E p _ r1 r2 e hpair).2 with ⟨-, -, hk⟩ | ⟨-, -, hk⟩ | ⟨-, -, hloop⟩
    · subst hk
      rcases hkind with h | h | h <;> cases h
    · subst hk
      rcases hkind with h | h | h <;> cases h
    · obtain ⟨pre, msg, post, hl, hpre, hmsg⟩ := finalizeLoop_err_split E p r1 r2 0 0 e hloop
      refine ⟨pre, msg, post, hl, ?_, ?_⟩
      · intro m hm
        obtain ⟨o, ho⟩ := hpre m hm
        exact (verifyRound2Data_ok E p r1 m o ho).1
      · rcases verifyRound2Data_err_kind E p r1 msg e hmsg with hk | ⟨-, hk⟩
        · exact hk
        · rcases hk with rfl | rfl | rfl <;> rcases hkind with h | h | h <;> cases h

theorem round2_header_validation_witness :
    (toyParticipant 1).resetPolynomial.Finalize toyGroup toyRound1Set
        ([toyRound2 2 1 2] ++ toyRound2 3 2 6 :: [])
      = (.err .round2InvalidReceiver, (toyParticipant 1).resetPolynomial) :=
  (round2_header_validation toyGroup (toyParticipant 1).resetPolynomial).2.1
    toyRound1Set [toyRound2 2 1 2] [] (toyRound2 3 2 6) .round2InvalidReceiver
    (by decide) (by decide)
    (by
      intro m hm
      simp only [List.mem_singleton] at hm
      subst hm
      exact ⟨some (toyRandom 2 0), by decide⟩)
    (by decide)

/-! ### Commitments without a first element -/

/-- C15 (counterexample): in a 2-of-3 setup, the Round-1 message of participant 2
with `commitment[0]` replaced by the group identity (a non-nil element) does not
make `Continue` of participant 1 fail with "commitment has nil element": with the
proof kept, `Continue` fails with the invalid-signature abort naming 2, and with
a proof of knowledge of the scalar zero it succeeds. -/
theorem continue_identity_commitment_counterexample :
    toyIdentityRound1.Commitment = [some 0, some 8] ∧
    (toyParticipant 1).Continue toyGroup
        [some (toyRound1 1), some toyIdentityRound1, some (toyRound1 3)]
      = (.err (.abortInvalidSignature 2), toyParticipant 1) ∧
    (toyParticipant 1).Continue toyGroup
        [some (toyRound1 1), some toyIdentityRound1, some (toyRound1 3)]
      ≠ (.err .commitmentNilElement, toyParticipant 1) ∧
    toyZeroRound1.Commitment = [some 0, some 8] ∧
    (toyParticipant 1).Continue toyGroup
        [some (toyRound1 1), some toyZeroRound1, some (toyRound1 3)]
      = (.ok [(3, toyRound2 1 3 10), (2, toyRound2 1 2 4)],
         (toyParticipant 1).resetPolynomial) := by
  refine ⟨by decide, by decide, by decide, by decide, by decide⟩

/-- C15 (amended): for a Round-1 set of accepted size, if the peer entry `d` has
an empty commitment or a nil first commitment element, and every earlier peer
entry is valid (non-nil `commitment[0]` and accepted proof), `Continue` fails
with the "commitment has nil element" error and leaves the participant as it
was. -/
theorem continue_bad_commitment (E : EccGroup F G) (p : Participant F G)
    (pre post : List (Option (Round1Data F G))) (d : Round1Data F G)
    (hsize : (pre ++ some d :: post).length = p.maxSigners ∨
      (pre ++ some d :: post).length = p.maxSignersMinusOne)
    (hpre : ∀ d', some d' ∈ pre → d'.SenderIdentifier ≠ p.Identifier →
      ∃ c0' cs', d'.Commitment = some c0' :: cs' ∧
        verifyZKProof E p.group d'.SenderIdentifier c0' d'.ProofOfKnowledge = true)
    (hpeer : d.SenderIdentifier ≠ p.Identifier)
    (hcom : d.Commitment = [] ∨ ∃ cs, d.Commitment = none :: cs) :
    p.Continue E (pre ++ some d :: post) = (.err .commitmentNilElement, p) ∧
      Error.commitmentNilElement.text = "commitment has nil element" := by
  refine ⟨?_, rfl⟩
  obtain ⟨m1, hm1⟩ := continueLoop_passing E p pre (some d :: post) [] hpre
  have hloop : continueLoop E p (pre ++ some d :: post) [] = .err .commitmentNilElement := by
    rw [hm1]
    rcases hcom with hc | ⟨cs, hc⟩
    · simp only [continueLoop, if_neg hpeer, hc]
    · simp only [continueLoop, if_neg hpeer, hc]
  unfold Participant.Continue
  rw [if_neg (by omega), hloop]

theorem continue_bad_commitment_witness :
    (toyParticipant 1).Continue toyGroup
        ([some (toyRound1 1), some (toyRound1 2)] ++ some toyNilRound1 :: [])
        = (.err .commitmentNilElement, toyParticipant 1) ∧
      Error.commitmentNilElement.text = "commitment has nil element" :=
  continue_bad_commitment toyGroup (toyParticipant 1) [some (toyRound1 1), some (toyRound1 2)]
    [] toyNilRound1 (by decide)
    (by
      intro d hd hne
      simp only [List.mem_cons, Option.some.injEq, List.mem_singleton, List.not_mem_nil,
        or_false] at hd
      rcases hd with rfl | rfl
      · exact absurd rfl hne
      · exact ⟨toyRandom 2 0, [some (toyRandom 2 1)], rfl, by decide⟩)
    (by decide) (Or.inr ⟨[some (toyRandom 3 1)], rfl⟩)

/-! ### Construction of participants and the set of ciphersuites -/

theorem NewParticipant_without_polynomial_ok (E : EccGroup F G) (c id threshold maxSigners : Nat)
    (random : Nat → F) (hc : Ciphersuite.Available c = true) (h1 : 1 ≤ id)
    (hn : id ≤ maxSigners) :
    NewParticipant E c id threshold maxSigners [] random
      = .ok { Identifier := id, maxSigners := maxSigners, threshold := threshold, group := c,
              polynomial := (List.range threshold).map random,
              secretShare := Evaluate ((List.range threshold).map random) (id : F),
              commitment := Commit E ((List.range threshold).map random) } := by
  have h0 : id ≠ 0 := by omega
  have hgt : ¬ id > maxSigners := by omega
  simp [NewParticipant, hc, h0, hgt, Participant.initPoly]

/-- C16: `NewParticipant(id, threshold, maxSigners)` with no polynomial supplied
returns, in this order of precedence: the invalid-ciphersuite error if the
ciphersuite is not available; the identifier-is-0 error if `id = 0`; the
identifier-above-range error, reporting the range `[1:maxSigners]` and `id`, if
`id > maxSigners`; and otherwise a participant whose Identifier is `id`. Hence
it succeeds iff the ciphersuite is available and `1 ≤ id ≤ maxSigners`. -/
theorem newParticipant_without_polynomial (E : EccGroup F G) (c id threshold maxSigners : Nat)
    (random : Nat → F) :
    (Ciphersuite.Available c = false →
      NewParticipant E c id threshold maxSigners [] random = .err .invalidCiphersuite) ∧
    (Ciphersuite.Available c = true → id = 0 →
      NewParticipant E c id threshold maxSigners [] random = .err .participantIDZero) ∧
    (Ciphersuite.Available c = true → id ≠ 0 → id > maxSigners →
      NewParticipant E c id threshold maxSigners [] random
          = .err (.idOutOfRange maxSigners id) ∧
        (Error.idOutOfRange maxSigners id).text
          = "identifier is above authorized range [1:" ++ toString maxSigners ++ "]: "
              ++ toString id) ∧
    (Ciphersuite.Available c = true → id ≠ 0 → id ≤ maxSigners →
      ∃ p, NewParticipant E c id threshold maxSigners [] random = .ok p ∧
        p.Identifier = id ∧ p.maxSigners = maxSigners ∧ p.threshold = threshold ∧
        p.group = c) ∧
    ((∃ p, NewParticipant E c id threshold maxSigners [] random = .ok p) ↔
      (Ciphersuite.Available c = true ∧ 1 ≤ id ∧ id ≤ maxSigners)) := by
  refine ⟨?_, ?_, ?_, ?_, ?_⟩
  · intro hc
    simp [NewParticipant, hc]
  · intro hc h0
    simp [NewParticipant, hc, h0]
  · intro hc h0 hgt
    refine ⟨?_, rfl⟩
    simp [NewParticipant, hc, h0, hgt]
  · intro hc h0 hn
    exact ⟨_, NewParticipant_without_polynomial_ok E c id threshold maxSigners random hc
      (by omega) hn, rfl, rfl, rfl, rfl⟩
  · constructor
    · rintro ⟨p, hp⟩
      obtain ⟨hc, h0, hn, -⟩ := NewParticipant_ok E c id threshold maxSigners [] random p hp
      exact ⟨hc, by omega, hn⟩
    · rintro ⟨hc, h1, hn⟩
      exact ⟨_, NewParticipant_without_polynomial_ok E c id threshold maxSigners random hc h1 hn⟩

theorem newParticipant_without_polynomial_witness :
    NewParticipant toyGroup 2 1 2 3 [] (toyRandom 1) = .err .invalidCiphersuite ∧
    NewParticipant toyGroup Secp256k1 0 2 3 [] (toyRandom 1) = .err .participantIDZero ∧
    NewParticipant toyGroup Secp256k1 4 2 3 [] (toyRandom 1) = .err (.idOutOfRange 3 4) ∧
    (Error.idOutOfRange 3 4).text = "identifier is above authorized range [1:3]: 4" ∧
    (∃ p, NewParticipant toyGroup Secp256k1 1 2 3 [] (toyRandom 1) = .ok p) :=
  ⟨(newParticipant_without_polynomial toyGroup 2 1 2 3 (toyRandom 1)).1 (by decide),
    (newParticipant_without_polynomial toyGroup Secp256k1 0 2 3 (toyRandom 1)).2.1 (by decide)
      rfl,
    ((newParticipant_without_polynomial toyGroup Secp256k1 4 2 3 (toyRandom 1)).2.2.1
      (by decide) (by decide) (by decide)).1,
    by decide,
    (newParticipant_without_polynomial toyGroup Secp256k1 1 2 3 (toyRandom 1)).2.2.2.2.mpr
      ⟨by decide, by decide, by decide⟩⟩

theorem allElements_of_not_mem (l : List (Option F)) (h : none ∉ l) :
    ∃ coeffs : List F, l = coeffs.map some ∧ allElements l = some coeffs := by
  induction l with
  | nil => exact ⟨[], rfl, rfl⟩
  | cons a as ih =>
    cases a with
    | none => exact absurd (List.mem_cons_self _ _) h
    | some a =>
      obtain ⟨cs, hcs, hall⟩ := ih (fun hh => h (List.mem_cons_of_mem _ hh))
      exact ⟨a :: cs, by simp [hcs], by simp [allElements, hall]⟩

theorem NewParticipant_with_polynomial_eq (E : EccGroup F G) (c id threshold maxSigners : Nat)
    (polynomial : List (Option F)) (random : Nat → F) (hc : Ciphersuite.Available c = true)
    (h1 : 1 ≤ id) (hn : id ≤ maxSigners) (hsup : polynomial ≠ []) :
    NewParticipant E c id threshold maxSigners polynomial random =
      match checkPolynomial threshold polynomial with
      | some e => .err e
      | none =>
        match allElements polynomial with
        | none => .panic
        | some poly =>
          .ok { Identifier := id, maxSigners := maxSigners, threshold := threshold, group := c,
                polynomial := poly, secretShare := Evaluate poly (id : F),
                commitment := Commit E poly } := by
  have h0 : id ≠ 0 := by omega
  have hgt : ¬ id > maxSigners := by omega
  have hlen : polynomial.length ≠ 0 := fun hh => hsup (List.length_eq_zero.mp hh)
  simp only [NewParticipant, hc, Bool.not_true, Bool.false_eq_true, if_false, if_neg h0,
    if_neg hgt, Participant.initPoly, if_pos hlen]
  cases checkPolynomial threshold polynomial with
  | some e => rfl
  | none =>
    simp only
    cases allElements polynomial with
    | none => rfl
    | some poly => rfl

/-- C17: for an available ciphersuite and an identifier in `1..maxSigners`,
`NewParticipant` given a supplied polynomial (at least one coefficient, which is
how the code tells a supplied polynomial from none) rejects it with the
polynomial-length error when its length differs from threshold, whatever its
coefficients are; rejects it when a coefficient is nil, when a coefficient is
zero, and when two coefficients are equal; and when none of these holds it
succeeds, the polynomial of the participant being the coefficient-wise copy of
the supplied one and its secret share that polynomial evaluated at the
identifier. -/
theorem newParticipant_with_polynomial (E : EccGroup F G) (c id threshold maxSigners : Nat)
    (polynomial : List (Option F)) (random : Nat → F) (hc : Ciphersuite.Available c = true)
    (h1 : 1 ≤ id) (hn : id ≤ maxSigners) (hsup : polynomial ≠ []) :
    (polynomial.length ≠ threshold →
      NewParticipant E c id threshold maxSigners polynomial random = .err .polynomialLength) ∧
    (polynomial.length = threshold → none ∈ polynomial →
      NewParticipant E c id threshold maxSigners polynomial random
        = .err (.invalidPolynomial .polyHasNilCoeff)) ∧
    (polynomial.length = threshold → some 0 ∈ polynomial →
      ∃ e, NewParticipant E c id threshold maxSigners polynomial random
        = .err (.invalidPolynomial e)) ∧
    (polynomial.length = threshold → ¬ polynomial.Nodup →
      ∃ e, NewParticipant E c id threshold maxSigners polynomial random
        = .err (.invalidPolynomial e)) ∧
    (polynomial.length = threshold → none ∉ polynomial → some 0 ∉ polynomial →
      polynomial.Nodup →
      ∃ p, NewParticipant E c id threshold maxSigners polynomial random = .ok p ∧
        polynomial = p.polynomial.map some ∧
        p.secretShare = Evaluate p.polynomial (id : F) ∧
        p.Identifier = id ∧ p.commitment = Commit E p.polynomial) := by
  have heq := NewParticipant_with_polynomial_eq E c id threshold maxSigners polynomial random
    hc h1 hn hsup
  refine ⟨?_, ?_, ?_, ?_, ?_⟩
  · intro hlen
    rw [heq]
    simp [checkPolynomial, hlen]
  · intro hlen hnil
    rw [heq]
    have hany : polynomial.any Option.isNone = true := by
      rw [List.any_eq_true]
      exact ⟨none, hnil, rfl⟩
    simp [checkPolynomial, hlen, polynomialVerify, hany]
  · intro hlen hzero
    rw [heq]
    have hany : polynomial.any (fun a => decide (a = some 0)) = true := by
      rw [List.any_eq_true]
      exact ⟨some 0, hzero, by simp⟩
    by_cases hnil : polynomial.any Option.isNone = true
    · exact ⟨.polyHasNilCoeff, by simp [checkPolynomial, hlen, polynomialVerify, hnil]⟩
    · exact ⟨.polyHasZeroCoeff, by simp [checkPolynomial, hlen, polynomialVerify, hnil, hany]⟩
  · intro hlen hdup
    rw [heq]
    by_cases hnil : polynomial.any Option.isNone = true
    · exact ⟨.polyHasNilCoeff, by simp [checkPolynomial, hlen, polynomialVerify, hnil]⟩
    · by_cases hany : polynomial.any (fun a => decide (a = some 0)) = true
      · exact ⟨.polyHasZeroCoeff,
          by simp [checkPolynomial, hlen, polynomialVerify, hnil, hany]⟩
      · exact ⟨.polyHasDuplicates,
          by simp [checkPolynomial, hlen, polynomialVerify, hnil, hany, hdup]⟩
  · intro hlen hnil hzero hnd
    obtain ⟨coeffs, hcoeffs, hall⟩ := allElements_of_not_mem polynomial hnil
    have h1 : ¬ polynomial.any Option.isNone = true := by
      rw [List.any_eq_true]
      rintro ⟨a, ha, hnone⟩
      cases a with
      | none => exact hnil ha
      | some a => cases hnone
    have h2 : ¬ polynomial.any (fun a => decide (a = some 0)) = true := by
      rw [List.any_eq_true]
      rintro ⟨a, ha, hz⟩
      simp only [decide_eq_true_eq] at hz
      exact hzero (hz ▸ ha)
    refine ⟨{ Identifier := id, maxSigners := maxSigners, threshold := threshold, group := c,
              polynomial := coeffs, secretShare := Evaluate coeffs (id : F),
              commitment := Commit E coeffs }, ?_, hcoeffs, rfl, rfl, rfl⟩
    rw [heq]
    simp [checkPolynomial, hlen, polynomialVerify, h1, h2, hnd, hall]

theorem newParticipant_with_polynomial_witness :
    (∃ p, NewParticipant toyGroup Secp256k1 1 2 3 [some 3, some 6] (toyRandom 1) = .ok p ∧
      [some (3 : ZMod 11), some 6] = p.polynomial.map some ∧
      p.secretShare = Evaluate p.polynomial ((1 : Nat) : ZMod 11) ∧
      p.Identifier = 1 ∧ p.commitment = Commit toyGroup p.polynomial) ∧
    NewParticipant toyGroup Secp256k1 1 2 3 [some 3] (toyRandom 1) = .err .polynomialLength ∧
    NewParticipant toyGroup Secp256k1 1 2 3 [some 3, none] (toyRandom 1)
      = .err (.invalidPolynomial .polyHasNilCoeff) ∧
    NewParticipant toyGroup Secp256k1 1 2 3 [some 3, some 0] (toyRandom 1)
      = .err (.invalidPolynomial .polyHasZeroCoeff) ∧
    NewParticipant toyGroup Secp256k1 1 2 3 [some 3, some 3] (toyRandom 1)
      = .err (.invalidPolynomial .polyHasDuplicates) ∧
    (Error.invalidPolynomial .polyHasDuplicates).text
      = "invalid polynomial: the polynomial has duplicate coefficients" :=
  ⟨(newParticipant_with_polynomial toyGroup Secp256k1 1 2 3 [some 3, some 6] (toyRandom 1)
      (by decide) (by decide) (by decide) (by decide)).2.2.2.2 (by decide) (by decide)
      (by decide) (by decide),
    (newParticipant_with_polynomial toyGroup Secp256k1 1 2 3 [some 3] (toyRandom 1)
      (by decide) (by decide) (by decide) (by decide)).1 (by decide),
    by decide, by decide, by decide, by decide⟩

/-- C18: closed ciphersuite set. `Available` is true for exactly the six defined
identifiers and false for every other value, among them 0, 2 and 8; `Group`
returns 0 for a ciphersuite that is not available (and the ciphersuite itself
otherwise); and for a ciphersuite that is not available `NewParticipant`,
`FrostGenerateZeroKnowledgeProof`, `FrostVerifyZeroKnowledgeProof`,
`VerificationKeyFromRound1`, `VerificationKeyFromCommitments`,
`ComputeParticipantPublicKey` and `VerifyPublicKey` each return the
invalid-ciphersuite error whatever their other arguments are, nil polynomial
coefficients, nil Round-1 entries, nil commitment elements and a nil public key
included. -/
theorem closed_ciphersuite_set (E : EccGroup F G) :
    (∀ c, Ciphersuite.Available c = true ↔
      (c = Ristretto255Sha512 ∨ c = P256Sha256 ∨ c = P384Sha384 ∨ c = P521Sha512 ∨
        c = Edwards25519Sha512 ∨ c = Secp256k1)) ∧
    Ciphersuite.Available 0 = false ∧ Ciphersuite.Available 2 = false ∧
    Ciphersuite.Available 8 = false ∧
    (∀ c, Ciphersuite.Available c = true → Ciphersuite.Group c = c) ∧
    (∀ c, Ciphersuite.Available c = false →
      Ciphersuite.Group c = 0 ∧
      (∀ (id threshold maxSigners : Nat) (polynomial : List (Option F)) (random : Nat → F),
        NewParticipant E c id threshold maxSigners polynomial random
          = .err .invalidCiphersuite) ∧
      (∀ (id : Nat) (secret : F) (pubkey : G) (rand : List (Option F)) (draw : F),
        FrostGenerateZeroKnowledgeProof E c id secret pubkey rand draw
          = .err .invalidCiphersuite) ∧
      (∀ (id : Nat) (pubkey : G) (proof : Signature F G),
        FrostVerifyZeroKnowledgeProof E c id pubkey proof = .err .invalidCiphersuite) ∧
      (∀ r1 : List (Option (Round1Data F G)),
        VerificationKeyFromRound1 c r1 = .err .invalidCiphersuite) ∧
      (∀ commitments : List (List (Option G)),
        VerificationKeyFromCommitments c commitments = .err .invalidCiphersuite) ∧
      (∀ (id : Nat) (commitments : List (List (Option G))),
        ComputeParticipantPublicKey (F := F) c id commitments = .err .invalidCiphersuite) ∧
      (∀ (id : Nat) (pubKey : Option G) (commitments : List (List (Option G))),
        VerifyPublicKey (F := F) E c id pubKey commitments = .err .invalidCiphersuite) ∧
      Error.invalidCiphersuite.text = "invalid ciphersuite") := by
  refine ⟨?_, by decide, by decide, by decide, ?_, ?_⟩
  · intro c
    simp only [Ciphersuite.Available, Bool.or_eq_true, decide_eq_true_eq]
    tauto
  · intro c hc
    simp [Ciphersuite.Group, hc]
  · intro c hc
    refine ⟨by simp [Ciphersuite.Group, hc], ?_, ?_, ?_, ?_, ?_, ?_, ?_, rfl⟩
    · intro id threshold maxSigners polynomial random
      simp [NewParticipant, hc]
    · intro id secret pubkey rand draw
      simp [FrostGenerateZeroKnowledgeProof, hc]
    · intro id pubkey proof
      simp [FrostVerifyZeroKnowledgeProof, hc]
    · intro r1
      simp [VerificationKeyFromRound1, hc]
    · intro commitments
      simp [VerificationKeyFromCommitments, hc]
    · intro id commitments
      simp [ComputeParticipantPublicKey, hc]
    · intro id pubKey commitments
      simp [VerifyPublicKey, hc]

theorem closed_ciphersuite_set_witness :
    Ciphersuite.Group 2 = 0 ∧
    NewParticipant toyGroup 2 1 2 3 [none] (toyRandom 1) = .err .invalidCiphersuite ∧
    VerificationKeyFromRound1 (F := ZMod 11) (G := ZMod 11) 2 [none]
      = .err .invalidCiphersuite ∧
    VerifyPublicKey (F := ZMod 11) toyGroup 0 1 none [] = .err .invalidCiphersuite ∧
    ComputeParticipantPublicKey (F := ZMod 11) (G := ZMod 11) 0 0 [] = .err .invalidCiphersuite :=
  have h2 := (closed_ciphersuite_set toyGroup).2.2.2.2.2 2 (by decide)
  have h0 := (closed_ciphersuite_set toyGroup).2.2.2.2.2 0 (by decide)
  ⟨h2.1, h2.2.1 1 2 3 [none] (toyRandom 1), h2.2.2.2.2.1 [none],
    h0.2.2.2.2.2.2.2.1 1 none [], h0.2.2.2.2.2.2.1 0 []⟩

/-! ### Encodings -/

theorem uint16LE_putUint16 (v : Nat) : uint16LE (putUint16 v) = v % 65536 := by
  simp only [uint16LE, putUint16, List.getD_cons_zero, List.getD_cons_succ]
  omega

theorem putUint16_length (v : Nat) : (putUint16 v).length = 2 := rfl

theorem putUint16_lt (v : Nat) : ∀ b ∈ putUint16 v, b < 256 := by
  intro b hb
  simp only [putUint16, List.mem_cons, List.mem_singleton, List.not_mem_nil, or_false] at hb
  rcases hb with rfl | rfl <;> omega

theorem fromHexChar_hexDigit (d : Nat) (h : d < 16) :
    fromHexChar (Char.ofNat (hexDigit d).toNat) = some d := by
  interval_cases d <;> decide

theorem utf8EncodeChar_hexDigit (d : Nat) (h : d < 16) :
    (String.utf8EncodeChar (hexDigit d)).map UInt8.toNat = [(hexDigit d).toNat] := by
  interval_cases d <;> decide

theorem hexDecodeLoop_hexString (b : List Nat) (hb : ∀ x ∈ b, x < 256) :
    hexDecodeLoop (stringBytes (hexString b)) = .ok b := by
  induction b with
  | nil => rfl
  | cons x b ih =>
    have hx : x < 256 := hb x (List.mem_cons_self _ _)
    have ih' := ih (fun y hy => hb y (List.mem_cons_of_mem _ hy))
    have h1 := fromHexChar_hexDigit (x / 16 % 16) (Nat.mod_lt _ (by decide))
    have h2 := fromHexChar_hexDigit (x % 16) (Nat.mod_lt _ (by decide))
    have hs : (hexString (x :: b)).toList
        = hexDigit (x / 16 % 16) :: hexDigit (x % 16) :: (hexString b).toList := rfl
    have hbytes : stringBytes (hexString (x :: b))
        = (hexDigit (x / 16 % 16)).toNat :: (hexDigit (x % 16)).toNat
            :: stringBytes (hexString b) := by
      rw [stringBytes, hs, List.flatMap_cons, List.flatMap_cons,
        utf8EncodeChar_hexDigit _ (Nat.mod_lt _ (by decide)),
        utf8EncodeChar_hexDigit _ (Nat.mod_lt _ (by decide))]
      rfl
    rw [hbytes, hexDecodeLoop, h1, h2, ih']
    have : x / 16 % 16 * 16 + x % 16 = x := by omega
    simp only [this]

theorem slice_append_middle (pre mid post : List Nat) (n : Nat) (hn : n = mid.length) :
    slice (pre ++ mid ++ post) pre.length (pre.length + n) = mid := by
  subst hn
  simp [slice, List.append_assoc, List.drop_append_eq_append_drop]
theorem encodeCommitment_some (E : EccGroup F G) (xs : List G) :
    encodeCommitment E (xs.map some) = .ok (xs.flatMap E.encodeElement) := by
  induction xs with
  | nil => rfl
  | cons x xs ih => simp only [List.map_cons, encodeCommitment, ih, List.flatMap_cons]

theorem flatMap_encodeElement_length (E : EccGroup F G) (D : EccDecoder F G) (xs : List G)
    (hx : ∀ x ∈ xs, EncodableElement E D x) :
    (xs.flatMap E.encodeElement).length = xs.length * E.elementLength := by
  induction xs with
  | nil => simp
  | cons x xs ih =>
    rw [List.flatMap_cons, List.length_append, ih (fun y hy => hx y (List.mem_cons_of_mem _ hy)),
      (hx x (List.mem_cons_self _ _)).1, List.length_cons, Nat.succ_mul, Nat.add_comm]

theorem flatMap_encodeElement_lt (E : EccGroup F G) (D : EccDecoder F G) (xs : List G)
    (hx : ∀ x ∈ xs, EncodableElement E D x) :
    ∀ b ∈ xs.flatMap E.encodeElement, b < 256 := by
  intro b hb
  rw [List.mem_flatMap] at hb
  obtain ⟨x, hxm, hbx⟩ := hb
  exact (hx x hxm).2.1 b hbx

theorem readCommitment_flatMap (E : EccGroup F G) (D : EccDecoder F G) (xs : List G)
    (hx : ∀ x ∈ xs, EncodableElement E D x) (pre : List Nat) :
    readCommitment E D (pre ++ xs.flatMap E.encodeElement) xs.length pre.length = .ok xs := by
  induction xs generalizing pre with
  | nil => rfl
  | cons x xs ih =>
    have hxe := hx x (List.mem_cons_self _ _)
    have hd : pre ++ (x :: xs).flatMap E.encodeElement
        = pre ++ E.encodeElement x ++ xs.flatMap E.encodeElement := by
      rw [List.flatMap_cons, List.append_assoc]
    have hr : readElementFromBytes E D (pre ++ (x :: xs).flatMap E.encodeElement) pre.length
        = .ok (x, (pre ++ E.encodeElement x).length) := by
      rw [readElementFromBytes, hd, slice_append_middle _ _ _ _ hxe.1.symm, hxe.2.2,
        List.length_append, hxe.1]
    rw [List.length_cons, readCommitment, hr]
    have := ih (fun y hy => hx y (List.mem_cons_of_mem _ hy)) (pre ++ E.encodeElement x)
    rw [← hd] at this
    simp only [this]

theorem exists_map_some {α : Type} (P : α → Prop) (l : List (Option α))
    (h : ∀ c ∈ l, ∃ x, c = some x ∧ P x) : ∃ xs : List α, l = xs.map some ∧ ∀ x ∈ xs, P x := by
  induction l with
  | nil => exact ⟨[], rfl, fun _ hx => by cases hx⟩
  | cons c l ih =>
    obtain ⟨x, rfl, hx⟩ := h c (List.mem_cons_self _ _)
    obtain ⟨xs, rfl, hxs⟩ := ih (fun y hy => h y (List.mem_cons_of_mem _ hy))
    refine ⟨x :: xs, rfl, ?_⟩
    intro y hy
    rcases List.mem_cons.1 hy with rfl | hy
    · exact hx
    · exact hxs y hy

theorem available_lt (c : Nat) (h : Ciphersuite.Available c = true) : c < 256 := by
  simp only [Ciphersuite.Available, Bool.or_eq_true, decide_eq_true_eq, Ristretto255Sha512,
    P256Sha256, P384Sha384, P521Sha512, Edwards25519Sha512, Secp256k1] at h
  omega

/-- The outcome of `Round1Data.Decode` on a header followed by a body: with an
available group byte, the error of the length check when the length is not the
expected one. -/
theorem Round1Data_Decode_length (E : EccGroup F G) (D : EccDecoder F G) (d0 : Round1Data F G)
    (g id k : Nat) (body : List Nat) (hg : Ciphersuite.Available g = true) (hb : body ≠ [])
    (hl : 5 + body.length
      ≠ 1 + 2 + 2 + E.elementLength + E.scalarLength + k % 65536 * E.elementLength) :
    d0.Decode E D ([g] ++ putUint16 id ++ putUint16 k ++ body)
      = (some ⟨.round1, .decodeInvalidLength
          (1 + 2 + 2 + E.elementLength + E.scalarLength + k % 65536 * E.elementLength)
          (5 + body.length)⟩, d0) := by
  have hlen : ([g] ++ putUint16 id ++ putUint16 k ++ body).length = 5 + body.length := by
    simp only [List.length_append, putUint16_length, List.length_singleton]
  have hpos : 0 < body.length := List.length_pos.2 hb
  have h35 : slice ([g] ++ putUint16 id ++ putUint16 k ++ body) 3 5 = putUint16 k :=
    slice_append_middle ([g] ++ putUint16 id) (putUint16 k) body 2 rfl
  have h0 : ([g] ++ putUint16 id ++ putUint16 k ++ body).getD 0 0 = g := rfl
  rw [Round1Data.Decode, if_neg (by rw [hlen]; omega)]
  simp only [h0, hg, Bool.not_true, Bool.false_eq_true, if_false, h35, uint16LE_putUint16, hlen]
  rw [if_pos hl]
/-- The outcome of `Round1Data.Decode` on the bytes that `Round1Data.Encode`
lays out, for encodable parts and a count that fits two bytes. -/
theorem Round1Data_Decode_layout (E : EccGroup F G) (D : EccDecoder F G) (d0 : Round1Data F G)
    (g id : Nat) (r : G) (z : F) (xs : List G) (hg : Ciphersuite.Available g = true)
    (hid : id < 65536) (hn : xs.length < 65536) (hS : 0 < E.scalarLength)
    (hr : EncodableElement E D r) (hz : EncodableScalar E D z)
    (hx : ∀ x ∈ xs, EncodableElement E D x) :
    d0.Decode E D ([g] ++ putUint16 id ++ putUint16 xs.length ++ E.encodeElement r
        ++ E.encodeScalar z ++ xs.flatMap E.encodeElement)
      = (none, { Group := g, SenderIdentifier := id,
                 ProofOfKnowledge := { Group := g, R := r, Z := z },
                 Commitment := xs.map some }) := by
  set hdr := [g] ++ putUint16 id ++ putUint16 xs.length with hhdr
  set data := hdr ++ E.encodeElement r ++ E.encodeScalar z ++ xs.flatMap E.encodeElement
    with hdata
  have hhl : hdr.length = 5 := rfl
  have hlen : data.length
      = 1 + 2 + 2 + E.elementLength + E.scalarLength + xs.length * E.elementLength := by
    rw [hdata, List.length_append, List.length_append, List.length_append, hhl, hr.1, hz.1,
      flatMap_encodeElement_length E D xs hx]
  have h0 : data.getD 0 0 = g := rfl
  have h13 : slice data 1 3 = putUint16 id := by
    have := slice_append_middle [g] (putUint16 id)
      (putUint16 xs.length ++ E.encodeElement r ++ E.encodeScalar z
        ++ xs.flatMap E.encodeElement) 2 rfl
    simpa [hdata, hhdr, List.append_assoc] using this
  have h35 : slice data 3 5 = putUint16 xs.length := by
    have := slice_append_middle ([g] ++ putUint16 id) (putUint16 xs.length)
      (E.encodeElement r ++ E.encodeScalar z ++ xs.flatMap E.encodeElement) 2 rfl
    simpa [hdata, hhdr, List.append_assoc] using this
  have hR : readElementFromBytes E D data 5 = .ok (r, 5 + E.elementLength) := by
    have := slice_append_middle hdr (E.encodeElement r)
      (E.encodeScalar z ++ xs.flatMap E.encodeElement) E.elementLength hr.1.symm
    rw [hhl, ← List.append_assoc] at this
    rw [readElementFromBytes, this, hr.2.2]
  have hZ : readScalarFromBytes E D data (5 + E.elementLength)
      = .ok (z, 5 + E.elementLength + E.scalarLength) := by
    have := slice_append_middle (hdr ++ E.encodeElement r) (E.encodeScalar z)
      (xs.flatMap E.encodeElement) E.scalarLength hz.1.symm
    rw [List.length_append, hhl, hr.1] at this
    rw [readScalarFromBytes, this, hz.2.2]
  have hC : readCommitment E D data xs.length (5 + E.elementLength + E.scalarLength)
      = .ok xs := by
    have := readCommitment_flatMap E D xs hx (hdr ++ E.encodeElement r ++ E.encodeScalar z)
    rw [List.length_append, List.length_append, hhl, hr.1, hz.1] at this
    exact this
  rw [Round1Data.Decode, if_neg (by rw [hlen]; omega)]
  simp only [h0, hg, Bool.not_true, Bool.false_eq_true, if_false, h13, h35, uint16LE_putUint16,
    Nat.mod_eq_of_lt hn, Nat.mod_eq_of_lt hid, hlen, ne_eq, not_true_eq_false, hR, hZ, hC]

theorem Round1Data_Encode_some (E : EccGroup F G) (d : Round1Data F G) (xs : List G)
    (hxs : d.Commitment = xs.map some) :
    d.Encode E = .ok ([d.Group % 256] ++ putUint16 d.SenderIdentifier
      ++ putUint16 (xs.length % 65536) ++ (E.encodeElement d.ProofOfKnowledge.R
      ++ E.encodeScalar d.ProofOfKnowledge.Z ++ xs.flatMap E.encodeElement)) := by
  simp only [Round1Data.Encode, hxs, encodeCommitment_some, List.length_map, List.append_assoc]

theorem toyGroup_encodable (x : ZMod 11) :
    EncodableElement toyGroup toyDecoder x ∧ EncodableScalar toyGroup toyDecoder x := by
  have hv : x.val < 11 := ZMod.val_lt x
  have hb : ∀ b ∈ [x.val], b < 256 := by
    intro b hb
    rw [List.mem_singleton] at hb
    omega
  have hd : (if x.val < 11 then (Except.ok (x.val : ZMod 11) : Except String (ZMod 11))
      else .error "invalid element") = .ok x := by
    rw [if_pos hv, ZMod.natCast_zmod_val]
  have hs : (if x.val < 11 then (Except.ok (x.val : ZMod 11) : Except String (ZMod 11))
      else .error "scalar too big") = .ok x := by
    rw [if_pos hv, ZMod.natCast_zmod_val]
  exact ⟨⟨rfl, hb, hd⟩, rfl, hb, hs⟩

/-- C19 (counterexample): in the group of order 11, whose elements and scalars
all are validly encodable in one byte, the Round-1 message with a commitment of
65536 elements is encoded with the count 0 in its header, on 65543 bytes, and
`Decode` rejects this encoding with the length error, expecting 7 bytes. -/
theorem round1_round_trip_counterexample :
    Ciphersuite.Available toyWideRound1.Group = true ∧
    toyWideRound1.Commitment.length = 65536 ∧
    (∀ c ∈ toyWideRound1.Commitment, ∃ x, c = some x ∧ EncodableElement toyGroup toyDecoder x) ∧
    EncodableElement toyGroup toyDecoder toyWideRound1.ProofOfKnowledge.R ∧
    EncodableScalar toyGroup toyDecoder toyWideRound1.ProofOfKnowledge.Z ∧
    ∃ data, toyWideRound1.Encode toyGroup = .ok data ∧ data.take 5 = [7, 2, 0, 0, 0] ∧
      data.length = 65543 ∧
      (toyRound1 1).Decode toyGroup toyDecoder data
        = (some ⟨.round1, .decodeInvalidLength 7 65543⟩, toyRound1 1) ∧
      DecodeError.text ⟨.round1, .decodeInvalidLength 7 65543⟩
        = "failed to decode Round 1 data: invalid encoding length: expected 7 got 65543" := by
  have hxs : toyWideRound1.Commitment = (List.replicate 65536 (1 : ZMod 11)).map some := by
    rw [List.map_replicate]; rfl
  have hx : ∀ x ∈ List.replicate 65536 (1 : ZMod 11), EncodableElement toyGroup toyDecoder x :=
    fun x _ => (toyGroup_encodable x).1
  have hfl := flatMap_encodeElement_length toyGroup toyDecoder _ hx
  rw [List.length_replicate] at hfl
  have henc := Round1Data_Encode_some toyGroup toyWideRound1 _ hxs
  rw [List.length_replicate] at henc
  have hbl : (toyGroup.encodeElement toyWideRound1.ProofOfKnowledge.R
      ++ toyGroup.encodeScalar toyWideRound1.ProofOfKnowledge.Z
      ++ (List.replicate 65536 (1 : ZMod 11)).flatMap toyGroup.encodeElement).length
      = 65538 := by
    rw [List.length_append, hfl]; rfl
  refine ⟨by decide, by rw [hxs, List.length_map, List.length_replicate], ?_,
    (toyGroup_encodable _).1, (toyGroup_encodable _).2, _, henc, rfl, ?_, ?_, by decide⟩
  · intro c hc
    rw [hxs, List.mem_map] at hc
    obtain ⟨x, _, rfl⟩ := hc
    exact ⟨x, rfl, (toyGroup_encodable x).1⟩
  · simp only [List.length_append, hbl, putUint16_length, List.length_singleton]
  · have := Round1Data_Decode_length toyGroup toyDecoder (toyRound1 1)
      (toyWideRound1.Group % 256) toyWideRound1.SenderIdentifier (65536 % 65536)
      (toyGroup.encodeElement toyWideRound1.ProofOfKnowledge.R
        ++ toyGroup.encodeScalar toyWideRound1.ProofOfKnowledge.Z
        ++ (List.replicate 65536 (1 : ZMod 11)).flatMap toyGroup.encodeElement)
      (by decide) (fun h => by rw [h] at hbl; cases hbl)
      (by rw [hbl]; decide)
    rw [hbl] at this
    exact this

/-- C19 (as amended): for every Round-1 message with an available group, an
identifier of two bytes, a validly encodable proof and a commitment of at most
65535 validly encodable elements, `Encode` and `Hex` return, and `Decode` of the
encoding and `DecodeHex` of the hexadecimal form succeed on any receiver and
leave in it the same group, sender identifier, proof `R`, proof `Z` and
commitment. -/
theorem round1_round_trip (E : EccGroup F G) (D : EccDecoder F G) (d d0 : Round1Data F G)
    (hg : Ciphersuite.Available d.Group = true) (hid : d.SenderIdentifier < 65536)
    (hS : 0 < E.scalarLength)
    (hr : EncodableElement E D d.ProofOfKnowledge.R)
    (hz : EncodableScalar E D d.ProofOfKnowledge.Z)
    (hc : ∀ c ∈ d.Commitment, ∃ x, c = some x ∧ EncodableElement E D x)
    (hn : d.Commitment.length ≤ 65535) :
    ∃ data h d1, d.Encode E = .ok data ∧ d.Hex E = .ok h ∧
      d0.Decode E D data = (none, d1) ∧ d0.DecodeHex E D h = (none, d1) ∧
      d1.Group = d.Group ∧ d1.SenderIdentifier = d.SenderIdentifier ∧
      d1.ProofOfKnowledge.R = d.ProofOfKnowledge.R ∧
      d1.ProofOfKnowledge.Z = d.ProofOfKnowledge.Z ∧
      d1.Commitment = d.Commitment := by
  obtain ⟨xs, hxs, hx⟩ := exists_map_some (EncodableElement E D) d.Commitment hc
  have hlx : d.Commitment.length = xs.length := by rw [hxs, List.length_map]
  have hn' : xs.length < 65536 := by omega
  have hgl := available_lt d.Group hg
  have henc : d.Encode E = .ok ([d.Group] ++ putUint16 d.SenderIdentifier
      ++ putUint16 xs.length ++ E.encodeElement d.ProofOfKnowledge.R
      ++ E.encodeScalar d.ProofOfKnowledge.Z ++ xs.flatMap E.encodeElement) := by
    simp only [Round1Data.Encode, hxs, encodeCommitment_some, List.length_map,
      Nat.mod_eq_of_lt hgl, Nat.mod_eq_of_lt hn']
  have hdec := Round1Data_Decode_layout E D d0 d.Group d.SenderIdentifier d.ProofOfKnowledge.R
    d.ProofOfKnowledge.Z xs hg hid hn' hS hr hz hx
  have hbytes : ∀ b ∈ [d.Group] ++ putUint16 d.SenderIdentifier
      ++ putUint16 xs.length ++ E.encodeElement d.ProofOfKnowledge.R
      ++ E.encodeScalar d.ProofOfKnowledge.Z ++ xs.flatMap E.encodeElement, b < 256 := by
    intro b hb
    simp only [List.mem_append, List.mem_singleton] at hb
    rcases hb with ((((rfl | hb) | hb) | hb) | hb) | hb
    · exact hgl
    · exact putUint16_lt _ b hb
    · exact putUint16_lt _ b hb
    · exact hr.2.1 b hb
    · exact hz.2.1 b hb
    · exact flatMap_encodeElement_lt E D xs hx b hb
  have hhex : d0.DecodeHex E D (hexString ([d.Group] ++ putUint16 d.SenderIdentifier
      ++ putUint16 xs.length ++ E.encodeElement d.ProofOfKnowledge.R
      ++ E.encodeScalar d.ProofOfKnowledge.Z ++ xs.flatMap E.encodeElement))
      = d0.Decode E D ([d.Group] ++ putUint16 d.SenderIdentifier
      ++ putUint16 xs.length ++ E.encodeElement d.ProofOfKnowledge.R
      ++ E.encodeScalar d.ProofOfKnowledge.Z ++ xs.flatMap E.encodeElement) := by
    rw [Round1Data.DecodeHex, hexDecodeString, hexDecodeLoop_hexString _ hbytes]
  exact ⟨_, _, _, henc, by rw [Round1Data.Hex, henc], hdec, by rw [hhex, hdec], rfl, rfl, rfl,
    rfl, hxs.symm⟩

theorem round1_round_trip_witness :
    ∃ data h d1, (toyRound1 2).Encode toyGroup = .ok data ∧ (toyRound1 2).Hex toyGroup = .ok h ∧
      (toyRound1 1).Decode toyGroup toyDecoder data = (none, d1) ∧
      (toyRound1 1).DecodeHex toyGroup toyDecoder h = (none, d1) ∧
      d1.Group = (toyRound1 2).Group ∧ d1.SenderIdentifier = (toyRound1 2).SenderIdentifier ∧
      d1.ProofOfKnowledge.R = (toyRound1 2).ProofOfKnowledge.R ∧
      d1.ProofOfKnowledge.Z = (toyRound1 2).ProofOfKnowledge.Z ∧
      d1.Commitment = (toyRound1 2).Commitment :=
  round1_round_trip toyGroup toyDecoder (toyRound1 2) (toyRound1 1) (by decide) (by decide)
    (by decide) (toyGroup_encodable _).1 (toyGroup_encodable _).2
    (by
      intro c hc
      simp only [toyRound1, List.mem_cons, List.mem_singleton, List.not_mem_nil, or_false] at hc
      rcases hc with rfl | rfl
      · exact ⟨_, rfl, (toyGroup_encodable _).1⟩
      · exact ⟨_, rfl, (toyGroup_encodable _).1⟩)
    (by decide)

/-- The outcome of `Round2Data.Decode` on the bytes that `Round2Data.Encode` lays
out, for an encodable share. -/
theorem Round2Data_Decode_layout (E : EccGroup F G) (D : EccDecoder F G) (d0 : Round2Data F)
    (g s r : Nat) (share : F) (hg : Ciphersuite.Available g = true) (hs : s < 65536)
    (hr : r < 65536) (hS : 0 < E.scalarLength) (hz : EncodableScalar E D share) :
    d0.Decode E D ([g] ++ putUint16 s ++ putUint16 r ++ E.encodeScalar share)
      = (none, { Group := g, SecretShare := share, SenderIdentifier := s,
                 RecipientIdentifier := r }) := by
  set data := [g] ++ putUint16 s ++ putUint16 r ++ E.encodeScalar share with hdata
  have hlen : data.length = 1 + 2 + 2 + E.scalarLength := by
    rw [hdata, List.length_append, hz.1]
    rfl
  have h0 : data.getD 0 0 = g := rfl
  have h13 : slice data 1 3 = putUint16 s := by
    have := slice_append_middle [g] (putUint16 s) (putUint16 r ++ E.encodeScalar share) 2 rfl
    simpa [hdata, List.append_assoc] using this
  have h35 : slice data 3 5 = putUint16 r :=
    slice_append_middle ([g] ++ putUint16 s) (putUint16 r) (E.encodeScalar share) 2 rfl
  have hZ : readScalarFromBytes E D data 5 = .ok (share, 5 + E.scalarLength) := by
    have := slice_append_middle ([g] ++ putUint16 s ++ putUint16 r) (E.encodeScalar share) []
      E.scalarLength hz.1.symm
    rw [List.append_nil] at this
    rw [readScalarFromBytes, hdata]
    simp only [List.length_append, putUint16_length, List.length_singleton] at this
    rw [this, hz.2.2]
  rw [Round2Data.Decode, if_neg (by rw [hlen]; omega)]
  simp only [h0, hg, Bool.not_true, Bool.false_eq_true, if_false, h13, h35, uint16LE_putUint16,
    Nat.mod_eq_of_lt hs, Nat.mod_eq_of_lt hr, hlen, ne_eq, not_true_eq_false, hZ]

/-- The outcome of `Signature.Decode` on the bytes that `Signature.Encode` lays
out, for encodable parts. -/
theorem Signature_Decode_layout (E : EccGroup F G) (D : EccDecoder F G) (s0 : Signature F G)
    (g : Nat) (r : G) (z : F) (hg : Ciphersuite.Available g = true) (hS : 0 < E.scalarLength)
    (hr : EncodableElement E D r) (hz : EncodableScalar E D z) :
    s0.Decode E D ([g] ++ E.encodeElement r ++ E.encodeScalar z)
      = (none, { Group := g, R := r, Z := z }) := by
  set data := [g] ++ E.encodeElement r ++ E.encodeScalar z with hdata
  have hlen : data.length = 1 + E.elementLength + E.scalarLength := by
    rw [hdata, List.length_append, List.length_append, hr.1, hz.1]
    rfl
  have h0 : data.getD 0 0 = g := rfl
  have hR : slice data 1 (1 + E.elementLength) = E.encodeElement r :=
    slice_append_middle [g] (E.encodeElement r) (E.encodeScalar z) E.elementLength hr.1.symm
  have hZ : data.drop (1 + E.elementLength) = E.encodeScalar z := by
    have : 1 + E.elementLength = ([g] ++ E.encodeElement r).length := by
      rw [List.length_append, hr.1]
      rfl
    rw [this, hdata, List.drop_left]
  rw [Signature.Decode, if_neg (by rw [hlen]; omega)]
  simp only [h0, hg, Bool.not_true, Bool.false_eq_true, if_false, hlen, ne_eq,
    not_true_eq_false, hR, hZ, hr.2.2, hz.2.2]

/-- C20: for every Round-2 message with an available group, identifiers of two
bytes and a validly encodable secret share, the encoding has 5 + ScalarLength
bytes and `Decode` of it succeeds on any receiver and leaves in it the same
group, sender identifier, recipient identifier and secret share; and for every
signature with an available group and validly encodable `R` and `Z`, the
encoding has 1 + ElementLength + ScalarLength bytes and `Decode` of it succeeds
on any receiver and leaves in it the same group, `R` and `Z`. -/
theorem round2_signature_round_trip (E : EccGroup F G) (D : EccDecoder F G)
    (Es : EccGroup F G) (Ds : EccDecoder F G) (d d0 : Round2Data F) (s s0 : Signature F G)
    (hS : 0 < E.scalarLength) (hg : Ciphersuite.Available d.Group = true)
    (hsi : d.SenderIdentifier < 65536) (hri : d.RecipientIdentifier < 65536)
    (hsh : EncodableScalar E D d.SecretShare)
    (hSs : 0 < Es.scalarLength) (hgs : Ciphersuite.Available s.Group = true)
    (hr : EncodableElement Es Ds s.R) (hz : EncodableScalar Es Ds s.Z) :
    ((d.Encode E).length = 5 + E.scalarLength ∧
      ∃ d1, d0.Decode E D (d.Encode E) = (none, d1) ∧ d1.Group = d.Group ∧
        d1.SenderIdentifier = d.SenderIdentifier ∧
        d1.RecipientIdentifier = d.RecipientIdentifier ∧ d1.SecretShare = d.SecretShare) ∧
    ((s.Encode Es).length = 1 + Es.elementLength + Es.scalarLength ∧
      ∃ s1, s0.Decode Es Ds (s.Encode Es) = (none, s1) ∧ s1.Group = s.Group ∧ s1.R = s.R ∧
        s1.Z = s.Z) := by
  have he : d.Encode E = [d.Group] ++ putUint16 d.SenderIdentifier
      ++ putUint16 d.RecipientIdentifier ++ E.encodeScalar d.SecretShare := by
    rw [Round2Data.Encode, Nat.mod_eq_of_lt (available_lt _ hg)]
  have hes : s.Encode Es = [s.Group] ++ Es.encodeElement s.R ++ Es.encodeScalar s.Z := by
    rw [Signature.Encode, Nat.mod_eq_of_lt (available_lt _ hgs)]
  refine ⟨⟨?_, _, ?_, rfl, rfl, rfl, rfl⟩, ?_, _, ?_, rfl, rfl, rfl⟩
  · rw [he, List.length_append, hsh.1]
    simp only [List.length_append, putUint16_length, List.length_singleton]
  · rw [he]
    exact Round2Data_Decode_layout E D d0 _ _ _ _ hg hsi hri hS hsh
  · rw [hes, List.length_append, List.length_append, hr.1, hz.1]
    rfl
  · rw [hes]
    exact Signature_Decode_layout Es Ds s0 _ _ _ hgs hSs hr hz

theorem round2_signature_round_trip_witness :
    ((Round2Data.Encode toyGroup (toyRound2 1 3 10)).length = 5 + toyGroup.scalarLength ∧
      ∃ d1, (toyRound2 2 1 0).Decode toyGroup toyDecoder
          (Round2Data.Encode toyGroup (toyRound2 1 3 10)) = (none, d1) ∧
        d1.Group = (toyRound2 1 3 10).Group ∧
        d1.SenderIdentifier = (toyRound2 1 3 10).SenderIdentifier ∧
        d1.RecipientIdentifier = (toyRound2 1 3 10).RecipientIdentifier ∧
        d1.SecretShare = (toyRound2 1 3 10).SecretShare) ∧
    ((Signature.Encode toyGroup (toyRound1 2).ProofOfKnowledge).length
        = 1 + toyGroup.elementLength + toyGroup.scalarLength ∧
      ∃ s1, (toyRound1 1).ProofOfKnowledge.Decode toyGroup toyDecoder
          (Signature.Encode toyGroup (toyRound1 2).ProofOfKnowledge) = (none, s1) ∧
        s1.Group = (toyRound1 2).ProofOfKnowledge.Group ∧
        s1.R = (toyRound1 2).ProofOfKnowledge.R ∧ s1.Z = (toyRound1 2).ProofOfKnowledge.Z) :=
  round2_signature_round_trip toyGroup toyDecoder toyGroup toyDecoder (toyRound2 1 3 10)
    (toyRound2 2 1 0) (toyRound1 2).ProofOfKnowledge (toyRound1 1).ProofOfKnowledge
    (by decide) (by decide) (by decide) (by decide) (toyGroup_encodable _).2
    (by decide) (by decide) (toyGroup_encodable _).1 (toyGroup_encodable _).2

/-! ### Errors of the decoders -/

theorem Round1Data_Decode_err (E : EccGroup F G) (D : EccDecoder F G) (d : Round1Data F G)
    (data : List Nat) (h : (d.Decode E D data).1 ≠ none) : (d.Decode E D data).2 = d := by
  revert h
  simp only [Round1Data.Decode]
  repeat' split
  all_goals first | (intro _; rfl) | (intro h; exact absurd rfl h)

theorem Round2Data_Decode_err (E : EccGroup F G) (D : EccDecoder F G) (d : Round2Data F)
    (data : List Nat) (h : (d.Decode E D data).1 ≠ none) : (d.Decode E D data).2 = d := by
  revert h
  simp only [Round2Data.Decode]
  repeat' split
  all_goals first | (intro _; rfl) | (intro h; exact absurd rfl h)

theorem Signature_Decode_err (E : EccGroup F G) (D : EccDecoder F G) (s : Signature F G)
    (data : List Nat) (h : (s.Decode E D data).1 ≠ none) : (s.Decode E D data).2 = s := by
  revert h
  simp only [Signature.Decode]
  repeat' split
  all_goals first | (intro _; rfl) | (intro h; exact absurd rfl h)

/-- C22: decoder atomicity. Whenever `Decode`, `DecodeHex` or `UnmarshalJSON` of
`Round1Data`, `Round2Data` or `Signature` returns an error, the receiver after
the call is the receiver before the call, field by field; the regular
expressions, `strconv.Atoi` and `json.Unmarshal` may be any functions. -/
theorem decoder_atomicity (E : EccGroup F G) (D : EccDecoder F G) (J : JsonLibrary)
    (u1 : String → Round1Data F G → Except String (Round1Data F G))
    (u2 : String → Round2Data F → Except String (Round2Data F))
    (u3 : String → Signature F G → Except String (Signature F G))
    (d1 : Round1Data F G) (d2 : Round2Data F) (s : Signature F G)
    (data : List Nat) (h json : String) :
    ((d1.Decode E D data).1 ≠ none → (d1.Decode E D data).2 = d1) ∧
    ((d1.DecodeHex E D h).1 ≠ none → (d1.DecodeHex E D h).2 = d1) ∧
    ((d1.UnmarshalJSON J u1 json).1 ≠ none → (d1.UnmarshalJSON J u1 json).2 = d1) ∧
    ((d2.Decode E D data).1 ≠ none → (d2.Decode E D data).2 = d2) ∧
    ((d2.DecodeHex E D h).1 ≠ none → (d2.DecodeHex E D h).2 = d2) ∧
    ((d2.UnmarshalJSON J u2 json).1 ≠ none → (d2.UnmarshalJSON J u2 json).2 = d2) ∧
    ((s.Decode E D data).1 ≠ none → (s.Decode E D data).2 = s) ∧
    ((s.DecodeHex E D h).1 ≠ none → (s.DecodeHex E D h).2 = s) ∧
    ((s.UnmarshalJSON J u3 json).1 ≠ none → (s.UnmarshalJSON J u3 json).2 = s) := by
  refine ⟨Round1Data_Decode_err E D d1 data, ?_, ?_, Round2Data_Decode_err E D d2 data, ?_, ?_,
    Signature_Decode_err E D s data, ?_, ?_⟩
  · unfold Round1Data.DecodeHex
    split
    · intro _; rfl
    · exact Round1Data_Decode_err E D d1 _
  · unfold Round1Data.UnmarshalJSON
    repeat' split
    all_goals first | (intro _; rfl) | (intro h; exact absurd rfl h)
  · unfold Round2Data.DecodeHex
    split
    · intro _; rfl
    · exact Round2Data_Decode_err E D d2 _
  · unfold Round2Data.UnmarshalJSON
    repeat' split
    all_goals first | (intro _; rfl) | (intro h; exact absurd rfl h)
  · unfold Signature.DecodeHex
    split
    · intro _; rfl
    · exact Signature_Decode_err E D s _
  · unfold Signature.UnmarshalJSON
    repeat' split
    all_goals first | (intro _; rfl) | (intro h; exact absurd rfl h)

theorem readElementFromBytes_eq (E : EccGroup F G) (D : EccDecoder F G) (data : List Nat)
    (off : Nat) :
    readElementFromBytes E D data off
      = match D.decodeElement (slice data off (off + E.elementLength)) with
        | .error err => .error err
        | .ok e => .ok (e, off + E.elementLength) := rfl

/-- The loop over the commitment bytes fails with the error of the first element
that does not decode, and succeeds when every element decodes. -/
theorem readCommitment_spec (E : EccGroup F G) (D : EccDecoder F G) (data : List Nat)
    (n off : Nat) :
    (∀ k, k < n → (∃ e, D.decodeElement (slice data (off + k * E.elementLength)
        (off + (k + 1) * E.elementLength)) = .error e) →
      (∀ j, j < k → ∃ x, D.decodeElement (slice data (off + j * E.elementLength)
        (off + (j + 1) * E.elementLength)) = .ok x) →
      ∃ e, D.decodeElement (slice data (off + k * E.elementLength)
        (off + (k + 1) * E.elementLength)) = .error e ∧
        readCommitment E D data n off = .error e) ∧
    ((∀ k, k < n → ∃ x, D.decodeElement (slice data (off + k * E.elementLength)
        (off + (k + 1) * E.elementLength)) = .ok x) →
      ∃ xs, readCommitment E D data n off = .ok xs ∧ xs.length = n) := by
  induction n generalizing off with
  | zero =>
    refine ⟨fun k hk => absurd hk (Nat.not_lt_zero k), fun _ => ⟨[], rfl, rfl⟩⟩
  | succ n ih =>
    have hshift : ∀ k, off + (k + 1) * E.elementLength
        = off + E.elementLength + k * E.elementLength := by
      intro k
      rw [Nat.succ_mul]
      omega
    have h0 : off + 0 * E.elementLength = off := by rw [Nat.zero_mul, Nat.add_zero]
    have h1 : off + (0 + 1) * E.elementLength = off + E.elementLength := by
      rw [Nat.zero_add, Nat.one_mul]
    constructor
    · intro k hk hfail hbefore
      rw [readCommitment, readElementFromBytes_eq]
      cases k with
      | zero =>
        obtain ⟨e, he⟩ := hfail
        refine ⟨e, he, ?_⟩
        rw [h0, h1] at he
        rw [he]
      | succ k =>
        obtain ⟨x, hx⟩ := hbefore 0 (Nat.succ_pos k)
        rw [h0, h1] at hx
        rw [hx]
        have hfail' : ∃ e, D.decodeElement (slice data (off + E.elementLength
            + k * E.elementLength) (off + E.elementLength + (k + 1) * E.elementLength))
            = .error e := by
          rw [← hshift k, ← hshift (k + 1)]
          exact hfail
        have hbefore' : ∀ j, j < k → ∃ x, D.decodeElement (slice data
            (off + E.elementLength + j * E.elementLength)
            (off + E.elementLength + (j + 1) * E.elementLength)) = .ok x := by
          intro j hj
          rw [← hshift j, ← hshift (j + 1)]
          exact hbefore (j + 1) (Nat.succ_lt_succ hj)
        obtain ⟨e, he, hr⟩ := (ih (off + E.elementLength)).1 k (Nat.lt_of_succ_lt_succ hk)
          hfail' hbefore'
        refine ⟨e, ?_, ?_⟩
        · rw [hshift k, hshift (k + 1)]
          exact he
        · simp only [hr]
    · intro hall
      rw [readCommitment, readElementFromBytes_eq]
      obtain ⟨x, hx⟩ := hall 0 (Nat.succ_pos n)
      rw [h0, h1] at hx
      rw [hx]
      have hall' : ∀ j, j < n → ∃ x, D.decodeElement (slice data
          (off + E.elementLength + j * E.elementLength)
          (off + E.elementLength + (j + 1) * E.elementLength)) = .ok x := by
        intro j hj
        rw [← hshift j, ← hshift (j + 1)]
        exact hall (j + 1) (Nat.succ_lt_succ hj)
      obtain ⟨xs, hxs, hl⟩ := (ih (off + E.elementLength)).2 hall'
      refine ⟨x :: xs, ?_, by rw [List.length_cons, hl]⟩
      simp only [hxs]

theorem uint16LE_slice (data : List Nat) (h : 5 ≤ data.length) :
    uint16LE (slice data 3 5) = data.getD 3 0 + 256 * data.getD 4 0 := by
  rcases data with _ | ⟨a, _ | ⟨b, _ | ⟨c, _ | ⟨d, _ | ⟨e, rest⟩⟩⟩⟩⟩
  all_goals first
    | (simp only [List.length_nil, List.length_cons] at h; omega)
    | rfl

/-- The outcome of `Round1Data.Decode` past the checks of the length and of the
ciphersuite. -/
theorem Round1Data_Decode_body (E : EccGroup F G) (D : EccDecoder F G) (d0 : Round1Data F G)
    (data : List Nat) (count expected : Nat)
    (hcount : count = data.getD 3 0 + 256 * data.getD 4 0)
    (hexp : expected = 5 + E.elementLength + E.scalarLength + count * E.elementLength)
    (h5 : 5 < data.length) (ha : Ciphersuite.Available (data.getD 0 0) = true) :
    d0.Decode E D data =
      if data.length ≠ expected then
        (some ⟨.round1, .decodeInvalidLength expected data.length⟩, d0)
      else
        match D.decodeElement (slice data 5 (5 + E.elementLength)) with
        | .error err => (some ⟨.round1, .decodeProofR err⟩, d0)
        | .ok r =>
          match D.decodeScalar (slice data (5 + E.elementLength)
              (5 + E.elementLength + E.scalarLength)) with
          | .error err => (some ⟨.round1, .decodeProofZ err⟩, d0)
          | .ok z =>
            match readCommitment E D data count (5 + E.elementLength + E.scalarLength) with
            | .error err => (some ⟨.round1, .decodeCommitment err⟩, d0)
            | .ok com =>
              (none, { Group := data.getD 0 0, SenderIdentifier := uint16LE (slice data 1 3),
                       ProofOfKnowledge := { Group := data.getD 0 0, R := r, Z := z },
                       Commitment := com.map some }) := by
  have hu : uint16LE (slice data 3 5) = count := by
    rw [hcount]
    exact uint16LE_slice data (by omega)
  have he : 1 + 2 + 2 + E.elementLength + E.scalarLength + count * E.elementLength
      = expected := by
    omega
  rw [Round1Data.Decode, if_neg (by omega)]
  simp only [ha, Bool.not_true, Bool.false_eq_true, if_false, hu, he, readElementFromBytes,
    readScalarFromBytes]
  split
  · rfl
  · cases hr : D.decodeElement (slice data 5 (5 + E.elementLength)) with
    | error err => rfl
    | ok r =>
      simp only []
      cases hz : D.decodeScalar (slice data (5 + E.elementLength)
          (5 + E.elementLength + E.scalarLength)) with
      | error err => rfl
      | ok z => rfl

/-- C21: the errors of `Round1Data.Decode(data)`, for every byte string `data`
and every receiver, with `count` the little-endian value of `data[3:5]` and
`expected = 5 + E + S + count*E`. It returns the invalid-length error if
`len(data) <= 5`; otherwise the invalid-ciphersuite error if `data[0]` is not
available; otherwise the invalid-length error, with the expected and the actual
size, iff `len(data) != expected`; otherwise the proof-R error if the R bytes do
not decode, else the proof-Z error if the Z bytes do not decode, else the
commitment error (of the first such element) if some commitment element does not
decode, and it succeeds otherwise. A sub-field error is returned only for a
length above 5 equal to `expected`, and a length error only for a length that is
at most 5 or differs from `expected`. -/
theorem round1_decode_taxonomy (E : EccGroup F G) (D : EccDecoder F G) (d0 : Round1Data F G)
    (data : List Nat) (count expected : Nat)
    (hcount : count = data.getD 3 0 + 256 * data.getD 4 0)
    (hexp : expected = 5 + E.elementLength + E.scalarLength + count * E.elementLength) :
    (data.length ≤ 5 → (d0.Decode E D data).1 = some ⟨.round1, .encodingInvalidLength⟩) ∧
    (5 < data.length → Ciphersuite.Available (data.getD 0 0) = false →
      (d0.Decode E D data).1 = some ⟨.round1, .invalidCiphersuite⟩) ∧
    (5 < data.length → Ciphersuite.Available (data.getD 0 0) = true →
      ((d0.Decode E D data).1 = some ⟨.round1, .decodeInvalidLength expected data.length⟩
        ↔ data.length ≠ expected) ∧
      (data.length = expected →
        (∀ e, D.decodeElement (slice data 5 (5 + E.elementLength)) = .error e →
          (d0.Decode E D data).1 = some ⟨.round1, .decodeProofR e⟩) ∧
        (∀ r e, D.decodeElement (slice data 5 (5 + E.elementLength)) = .ok r →
          D.decodeScalar (slice data (5 + E.elementLength)
            (5 + E.elementLength + E.scalarLength)) = .error e →
          (d0.Decode E D data).1 = some ⟨.round1, .decodeProofZ e⟩) ∧
        (∀ r z, D.decodeElement (slice data 5 (5 + E.elementLength)) = .ok r →
          D.decodeScalar (slice data (5 + E.elementLength)
            (5 + E.elementLength + E.scalarLength)) = .ok z →
          ((∃ k, k < count ∧ ∃ e, D.decodeElement (slice data
              (5 + E.elementLength + E.scalarLength + k * E.elementLength)
              (5 + E.elementLength + E.scalarLength + (k + 1) * E.elementLength))
                = .error e) →
            ∃ k, k < count ∧ ∃ e, D.decodeElement (slice data
              (5 + E.elementLength + E.scalarLength + k * E.elementLength)
              (5 + E.elementLength + E.scalarLength + (k + 1) * E.elementLength))
                = .error e ∧
              (d0.Decode E D data).1 = some ⟨.round1, .decodeCommitment e⟩) ∧
          ((∀ k, k < count → ∃ x, D.decodeElement (slice data
              (5 + E.elementLength + E.scalarLength + k * E.elementLength)
              (5 + E.elementLength + E.scalarLength + (k + 1) * E.elementLength))
                = .ok x) →
            (d0.Decode E D data).1 = none)))) ∧
    (∀ e, (d0.Decode E D data).1 = some ⟨.round1, .decodeProofR e⟩ ∨
        (d0.Decode E D data).1 = some ⟨.round1, .decodeProofZ e⟩ ∨
        (d0.Decode E D data).1 = some ⟨.round1, .decodeCommitment e⟩ →
      5 < data.length ∧ data.length = expected) ∧
    (∀ a b, (d0.Decode E D data).1 = some ⟨.round1, .encodingInvalidLength⟩ ∨
        (d0.Decode E D data).1 = some ⟨.round1, .decodeInvalidLength a b⟩ →
      data.length ≤ 5 ∨ data.length ≠ expected) := by
  have hshort : data.length ≤ 5 →
      d0.Decode E D data = (some ⟨.round1, .encodingInvalidLength⟩, d0) := by
    intro h
    rw [Round1Data.Decode, if_pos h]
  have hcs : 5 < data.length → Ciphersuite.Available (data.getD 0 0) = false →
      d0.Decode E D data = (some ⟨.round1, .invalidCiphersuite⟩, d0) := by
    intro h ha
    rw [Round1Data.Decode, if_neg (by omega)]
    simp only [ha, Bool.not_false, if_true]
  have hbody := Round1Data_Decode_body E D d0 data count expected hcount hexp
  refine ⟨fun h => by rw [hshort h], fun h ha => by rw [hcs h ha], ?_, ?_, ?_⟩
  · intro h5 ha
    rw [hbody h5 ha]
    refine ⟨?_, ?_⟩
    · constructor
      · intro h hlen
        rw [if_neg (not_not.2 hlen)] at h
        revert h
        repeat' split
        all_goals simp
      · intro hlen
        rw [if_pos hlen]
    · intro hlen
      rw [if_neg (not_not.2 hlen)]
      refine ⟨fun e he => by rw [he], fun r e hr he => by rw [hr]; simp only [he], ?_⟩
      intro r z hr hz
      rw [hr]
      simp only [hz]
      constructor
      · intro hsome
        classical
        have hmin := Nat.find_spec hsome
        have hlt := fun j (hj : j < Nat.find hsome) => Nat.find_min hsome hj
        obtain ⟨e, he, hrc⟩ := (readCommitment_spec E D data count
          (5 + E.elementLength + E.scalarLength)).1 (Nat.find hsome) hmin.1 hmin.2
          (by
            intro j hj
            have hnot := hlt j hj
            cases hd : D.decodeElement (slice data
              (5 + E.elementLength + E.scalarLength + j * E.elementLength)
              (5 + E.elementLength + E.scalarLength + (j + 1) * E.elementLength)) with
            | error e => exact absurd ⟨by omega, e, hd⟩ hnot
            | ok x => exact ⟨x, rfl⟩)
        exact ⟨Nat.find hsome, hmin.1, e, he, by rw [hrc]⟩
      · intro hall
        obtain ⟨xs, hxs, _⟩ := (readCommitment_spec E D data count
          (5 + E.elementLength + E.scalarLength)).2 hall
        rw [hxs]
  · intro e h
    by_cases h5 : data.length ≤ 5
    · rw [hshort h5] at h
      simp at h
    · have h5' : 5 < data.length := by omega
      cases ha : Ciphersuite.Available (data.getD 0 0) with
      | false =>
        rw [hcs h5' ha] at h
        simp at h
      | true =>
        refine ⟨h5', ?_⟩
        by_contra hlen
        rw [hbody h5' ha, if_pos hlen] at h
        simp at h
  · intro a b h
    by_cases h5 : data.length ≤ 5
    · exact Or.inl h5
    · right
      have h5' : 5 < data.length := by omega
      cases ha : Ciphersuite.Available (data.getD 0 0) with
      | false =>
        rw [hcs h5' ha] at h
        simp at h
      | true =>
        intro hlen
        rw [hbody h5' ha, if_neg (not_not.2 hlen)] at h
        revert h
        repeat' split
        all_goals simp

theorem round1_decode_taxonomy_witness :
    ((toyRound1 1).Decode toyGroup toyDecoder [7, 2, 0, 2, 0, 5, 3, 4, 6]).1 = none ∧
    (((toyRound1 1).Decode toyGroup toyDecoder [7, 2, 0, 2, 0, 5, 3, 4, 6]).1
        = some ⟨.round1, .decodeInvalidLength 9 9⟩ ↔ [7, 2, 0, 2, 0, 5, 3, 4, 6].length ≠ 9) :=
  have h := round1_decode_taxonomy toyGroup toyDecoder (toyRound1 1) [7, 2, 0, 2, 0, 5, 3, 4, 6]
    2 9 rfl rfl
  ⟨((h.2.2.1 (by decide) (by decide)).2 rfl).2.2 5 3 rfl rfl |>.2
      (by
        intro k hk
        interval_cases k
        · exact ⟨4, rfl⟩
        · exact ⟨6, rfl⟩),
    (h.2.2.1 (by decide) (by decide)).1⟩

theorem decoder_atomicity_witness :
    (((toyRound1 1).Decode toyGroup toyDecoder [7, 2, 0]).1 ≠ none →
      ((toyRound1 1).Decode toyGroup toyDecoder [7, 2, 0]).2 = toyRound1 1) ∧
    (((toyRound1 1).DecodeHex toyGroup toyDecoder "070").1 ≠ none →
      ((toyRound1 1).DecodeHex toyGroup toyDecoder "070").2 = toyRound1 1) ∧
    (((toyRound1 1).UnmarshalJSON toyJson (fun _ d => .ok d) "").1 ≠ none →
      ((toyRound1 1).UnmarshalJSON toyJson (fun _ d => .ok d) "").2 = toyRound1 1) ∧
    (((toyRound2 1 2 3).Decode toyGroup toyDecoder [7, 2, 0]).1 ≠ none →
      ((toyRound2 1 2 3).Decode toyGroup toyDecoder [7, 2, 0]).2 = toyRound2 1 2 3) ∧
    (((toyRound2 1 2 3).DecodeHex toyGroup toyDecoder "070").1 ≠ none →
      ((toyRound2 1 2 3).DecodeHex toyGroup toyDecoder "070").2 = toyRound2 1 2 3) ∧
    (((toyRound2 1 2 3).UnmarshalJSON toyJson (fun _ d => .ok d) "").1 ≠ none →
      ((toyRound2 1 2 3).UnmarshalJSON toyJson (fun _ d => .ok d) "").2 = toyRound2 1 2 3) ∧
    (((toyRound1 1).ProofOfKnowledge.Decode toyGroup toyDecoder [7, 2, 0]).1 ≠ none →
      ((toyRound1 1).ProofOfKnowledge.Decode toyGroup toyDecoder [7, 2, 0]).2
        = (toyRound1 1).ProofOfKnowledge) ∧
    (((toyRound1 1).ProofOfKnowledge.DecodeHex toyGroup toyDecoder "070").1 ≠ none →
      ((toyRound1 1).ProofOfKnowledge.DecodeHex toyGroup toyDecoder "070").2
        = (toyRound1 1).ProofOfKnowledge) ∧
    (((toyRound1 1).ProofOfKnowledge.UnmarshalJSON toyJson (fun _ d => .ok d) "").1 ≠ none →
      ((toyRound1 1).ProofOfKnowledge.UnmarshalJSON toyJson (fun _ d => .ok d) "").2
        = (toyRound1 1).ProofOfKnowledge) :=
  decoder_atomicity toyGroup toyDecoder toyJson (fun _ d => .ok d) (fun _ d => .ok d)
    (fun _ d => .ok d) (toyRound1 1) (toyRound2 1 2 3) (toyRound1 1).ProofOfKnowledge [7, 2, 0]
    "070" ""

/-! ### A second `Continue` -/

theorem Evaluate_map_zero (l : List F) (x : F) : Evaluate (l.map (fun _ => (0 : F))) x = 0 := by
  induction l with
  | nil => rfl
  | cons a l ih => rw [List.map_cons, Evaluate_cons, ih, mul_zero, add_zero]

theorem resetPolynomial_idem (p : Participant F G) :
    p.resetPolynomial.resetPolynomial = p.resetPolynomial := by
  simp [Participant.resetPolynomial, Function.comp_def]

theorem continueLoop_resetPolynomial (E : EccGroup F G) (p : Participant F G)
    (l : List (Option (Round1Data F G))) (m m1 : Round2Map F)
    (h : continueLoop E p l m = .ok m1) (m' : Round2Map F) :
    ∃ m1', continueLoop E p.resetPolynomial l m' = .ok m1' := by
  induction l generalizing m m' with
  | nil => exact ⟨m', rfl⟩
  | cons o rest ih =>
    cases o with
    | none => exact ih m h m'
    | some data =>
      have hid : p.resetPolynomial.Identifier = p.Identifier := rfl
      have hgr : p.resetPolynomial.group = p.group := rfl
      rw [continueLoop] at h ⊢
      rw [hid, hgr]
      by_cases hs : data.SenderIdentifier = p.Identifier
      · rw [if_pos hs] at h ⊢
        exact ih m h m'
      · rw [if_neg hs] at h ⊢
        rcases hc : data.Commitment with _ | ⟨_ | c0, cs⟩
        · rw [hc] at h
          cases h
        · rw [hc] at h
          cases h
        · rw [hc] at h
          simp only at h ⊢
          by_cases hv : verifyZKProof E p.group data.SenderIdentifier c0 data.ProofOfKnowledge
              = true
          · simp only [hv, Bool.not_true, Bool.false_eq_true, if_false] at h ⊢
            exact ih _ h _
          · simp only [hv, Bool.not_false, if_true] at h
            cases h

/-- C27: the round order is not enforced. After a successful `Continue` on a
participant, a second `Continue` on the participant it leaves, with the same
Round-1 set, succeeds as well and leaves the participant as it is; the map it
returns has the same keys as the first one, and every Round-2 message of it has
the zero scalar as `SecretShare`, the value of the zeroed polynomial. -/
theorem second_continue_zero_shares (E : EccGroup F G) (p p' : Participant F G)
    (r1 : List (Option (Round1Data F G))) (m : Round2Map F)
    (h : p.Continue E r1 = (.ok m, p')) :
    ∃ m', p'.Continue E r1 = (.ok m', p') ∧
      (∀ j, (Round2Map.get m' j).isSome = (Round2Map.get m j).isSome) ∧
      ∀ j d, (j, d) ∈ m' → d.SecretShare = 0 := by
  obtain ⟨hlen, hloop, hp'⟩ := Continue_ok E p p' r1 m h
  obtain ⟨m', hloop'⟩ := continueLoop_resetPolynomial E p r1 [] m hloop []
  subst hp'
  have hcont : p.resetPolynomial.Continue E r1 = (.ok m', p.resetPolynomial) := by
    have hms : p.resetPolynomial.maxSigners = p.maxSigners := rfl
    have hmm : p.resetPolynomial.maxSignersMinusOne = p.maxSignersMinusOne := rfl
    rw [Participant.Continue, hms, hmm, if_neg (by omega), hloop', resetPolynomial_idem]
  have hget := continueLoop_get E p r1 [] m hloop
  have hget' := continueLoop_get E p.resetPolynomial r1 [] m' hloop'
  have hid : p.resetPolynomial.Identifier = p.Identifier := rfl
  refine ⟨m', hcont, ?_, ?_⟩
  · intro j
    rw [hget j, hget' j, hid]
    split <;> rfl
  · intro j d hd
    have hnd := continueLoop_nodup E p.resetPolynomial r1 [] m' hloop' (by simp [Round2Map.keys])
    have hg := Round2Map.get_of_mem m' j d hnd hd
    rw [hget' j] at hg
    split at hg
    · simp only [Option.some.injEq] at hg
      subst hg
      exact Evaluate_map_zero _ _
    · simp [Round2Map.get] at hg

theorem second_continue_zero_shares_witness :
    ∃ m', (toyParticipant 1).resetPolynomial.Continue toyGroup toyRound1Set
        = (.ok m', (toyParticipant 1).resetPolynomial) ∧
      (∀ j, (Round2Map.get m' j).isSome
        = (Round2Map.get [(3, toyRound2 1 3 10), (2, toyRound2 1 2 4)] j).isSome) ∧
      ∀ j d, (j, d) ∈ m' → d.SecretShare = 0 :=
  second_continue_zero_shares toyGroup (toyParticipant 1) (toyParticipant 1).resetPolynomial
    toyRound1Set [(3, toyRound2 1 3 10), (2, toyRound2 1 2 4)] (by decide)

/-! ### Repeated senders in `Finalize` -/

theorem finalizeLoop_replicate (E : EccGroup F G) (p : Participant F G)
    (r1 : List (Option (Round1Data F G))) (msg : Round2Data F) (c : G)
    (hv : p.verifyRound2Data E r1 msg = .ok (some c)) (k : Nat) (sk : F) (vk : G) :
    finalizeLoop E p r1 (List.replicate k msg) sk vk
      = .ok (sk + k • msg.SecretShare, vk + k • c) := by
  induction k generalizing sk vk with
  | zero => simp [finalizeLoop]
  | succ k ih =>
    rw [List.replicate_succ, finalizeLoop, hv]
    simp only [Element.Add]
    rw [ih, succ_nsmul, succ_nsmul]
    congr 2
    · abel
    · abel

/-- C26 (counterexample): in a 2-of-3 setup, `Finalize` of participant 1 on two
copies of the valid Round-2 message of participant 2 (a list of n-1 messages
whose sender identifiers are not pairwise distinct) succeeds, with
Secret = own share + 2 * that share = 9 + 2 * 2 = 2 in the scalars modulo 11. -/
theorem finalize_repeated_sender_counterexample :
    (toyParticipant 1).maxSigners = 3 ∧
    ¬ ([toyRound2 2 1 2, toyRound2 2 1 2].map (fun msg => msg.SenderIdentifier)).Pairwise
        (fun a b => a ≠ b) ∧
    ((toyParticipant 1).Finalize toyGroup toyRound1Set [toyRound2 2 1 2, toyRound2 2 1 2]).1
      = .ok { toyKeyShare 1 2 with VerificationKey := 2 } ∧
    (2 : ZMod 11) = (toyParticipant 1).secretShare + 2 * (toyRound2 2 1 2).SecretShare := by
  refine ⟨rfl, by decide, by decide, by decide⟩

/-- C26 (amended): `Finalize` accumulates each message of `r2` exactly once.
Whenever `Finalize(r1, r2)` succeeds, every message of `r2` has passed the header
and share checks and Secret is the own share plus the sum of the `SecretShare` of
all messages of `r2`; the senders are not required to be distinct: for a Round-1
set of accepted size, the list made of n-1 copies of one valid Round-2 message is
accepted and yields Secret = own share + (n-1) * that share. -/
theorem finalize_accumulates_messages (E : EccGroup F G) (p : Participant F G)
    (r1 : List (Option (Round1Data F G))) :
    (∀ r2 ks p', p.Finalize E r1 r2 = (.ok ks, p') →
      (∀ msg ∈ r2, ∃ c, p.verifyRound2Data E r1 msg = .ok (some c)) ∧
      ks.Secret = p.secretShare + (r2.map (fun msg => msg.SecretShare)).sum) ∧
    (∀ msg c c0 rest, (r1.length = p.maxSigners ∨ r1.length = p.maxSignersMinusOne) →
      p.verifyRound2Data E r1 msg = .ok (some c) → p.commitment = c0 :: rest →
      ∃ ks, p.Finalize E r1 (List.replicate p.maxSignersMinusOne msg)
          = (.ok ks, { p with secretShare := 0 }) ∧
        ks.Secret = p.secretShare + p.maxSignersMinusOne • msg.SecretShare) := by
  constructor
  · intro r2 ks p' h
    unfold Participant.Finalize at h
    split at h
    · cases h
    · split at h
      · cases h
      · split at h
        · cases h
        · cases h
        · rename_i sk vk hloop
          obtain ⟨hall, hsk, -⟩ := finalizeLoop_ok E p r1 r2 0 sk 0 vk hloop
          split at h
          · cases h
          · simp only [Prod.mk.injEq, Result.ok.injEq] at h
            obtain ⟨hks, -⟩ := h
            subst hks
            refine ⟨hall, ?_⟩
            simp only [hsk, zero_add]
            exact add_comm _ _
  · intro msg c c0 rest hlen hv hc
    have hloop := finalizeLoop_replicate E p r1 msg c hv p.maxSignersMinusOne 0 0
    have hfin : p.Finalize E r1 (List.replicate p.maxSignersMinusOne msg)
        = (.ok { Secret := 0 + p.maxSignersMinusOne • msg.SecretShare + p.secretShare,
                 VerificationKey := Element.Add (0 + p.maxSignersMinusOne • c) c0,
                 PublicKeyShare :=
                   { PublicKey := (0 + p.maxSignersMinusOne • msg.SecretShare + p.secretShare)
                       • E.base,
                     VssCommitment := p.commitment, ID := p.Identifier, Group := p.group } },
           { p with secretShare := 0 }) := by
      unfold Participant.Finalize
      rw [if_neg (by omega), if_neg (by simp), hloop]
      simp only [hc]
    refine ⟨_, hfin, ?_⟩
    simp only [zero_add]
    exact add_comm _ _

theorem finalize_accumulates_messages_witness :
    ∃ ks, (toyParticipant 1).Finalize toyGroup toyRound1Set
        (List.replicate (toyParticipant 1).maxSignersMinusOne (toyRound2 2 1 2))
          = (.ok ks, { toyParticipant 1 with secretShare := 0 }) ∧
      ks.Secret = (toyParticipant 1).secretShare
        + (toyParticipant 1).maxSignersMinusOne • (toyRound2 2 1 2).SecretShare :=
  (finalize_accumulates_messages toyGroup (toyParticipant 1) toyRound1Set).2 (toyRound2 2 1 2)
    (toyRandom 2 0) (some (toyRandom 1 0)) [some (toyRandom 1 1)] (by decide) (by decide) rfl

/-! ### The objects of the caller of the proof generation -/

/-- C28 (the code at the failing input): with the supplied randomness `k = 5`,
secret 3 and public key 3 for identifier 1 in the group of order 11,
`FrostGenerateZeroKnowledgeProof` returns the proof with `R = 5` and `Z = 2`, as
the model of its result does, and leaves `secret` and `pubkey` as they were, but
the scalar `k` of the caller holds `Z = 2` after the call, not 5. -/
theorem frostGenerate_overwrites_randomness :
    FrostGenerateZeroKnowledgeProofInPlace toyGroup Secp256k1 1 ⟨3, 3, [some 5]⟩ 0
      = (.ok { R := 5, Z := 2, Group := Secp256k1 }, ⟨3, 3, [some 2]⟩) ∧
    FrostGenerateZeroKnowledgeProof toyGroup Secp256k1 1 3 3 [some 5] 0
      = .ok { R := 5, Z := 2, Group := Secp256k1 } ∧
    (FrostGenerateZeroKnowledgeProofInPlace toyGroup Secp256k1 1 ⟨3, 3, [some 5]⟩ 0).2.rand
      ≠ [some 5] := by
  refine ⟨by decide, by decide, by decide⟩

/-! ### The threshold of a new participant -/

/-- Every participant that `NewParticipant` returns without error for a threshold
has that threshold and a polynomial and a commitment of exactly that length; when
the threshold is at least 1, `polynomial[0]` and `commitment[0]` exist,
`commitment[0]` is not nil, `StartWithRandom` returns its message, and `Finalize`
returns a key share whenever its loop over the Round-2 messages has succeeded. -/
theorem newParticipant_lengths (E : EccGroup F G) (c id threshold maxSigners : Nat)
    (polynomial : List (Option F)) (random : Nat → F) (p : Participant F G)
    (h : NewParticipant E c id threshold maxSigners polynomial random = .ok p) :
    p.threshold = threshold ∧ p.polynomial.length = threshold ∧
    p.commitment.length = threshold ∧
    (1 ≤ threshold →
      (∃ a rest, p.polynomial = a :: rest) ∧ (∃ c0 rest, p.commitment = some c0 :: rest) ∧
      (∀ rand draw, ∃ d, p.StartWithRandom E rand draw = .ok d) ∧
      (∀ r1 r2 sk vk, (r1.length = p.maxSigners ∨ r1.length = p.maxSignersMinusOne) →
        r2.length = p.maxSignersMinusOne → finalizeLoop E p r1 r2 0 0 = .ok (sk, vk) →
        ∃ ks, (p.Finalize E r1 r2).1 = .ok ks)) := by
  obtain ⟨-, -, -, -, -, hth, -, hlen, hcom, -⟩ :=
    NewParticipant_ok E c id threshold maxSigners polynomial random p h
  have hclen : p.commitment.length = threshold := by
    rw [hcom, Commit, List.length_map, hlen]
  refine ⟨hth, hlen, hclen, ?_⟩
  intro h1
  rcases hp : p.polynomial with _ | ⟨a, rest⟩
  · rw [hp] at hlen
    simp only [List.length_nil] at hlen
    omega
  · have hc : p.commitment = some (a • E.base) :: Commit E rest := by
      rw [hcom, hp]
      rfl
    refine ⟨⟨a, rest, rfl⟩, ⟨_, _, hc⟩, ?_, ?_⟩
    · intro rand draw
      unfold Participant.StartWithRandom
      rw [hp, hc]
      exact ⟨_, rfl⟩
    · intro r1 r2 sk vk hl1 hl2 hloop
      unfold Participant.Finalize
      rw [if_neg (by omega), if_neg (by omega), hloop]
      simp only [hc]
      exact ⟨_, rfl⟩

theorem newParticipant_lengths_witness :
    (toyParticipant 1).threshold = 2 ∧ (toyParticipant 1).polynomial.length = 2 ∧
    (toyParticipant 1).commitment.length = 2 ∧
    (1 ≤ 2 →
      (∃ a rest, (toyParticipant 1).polynomial = a :: rest) ∧
      (∃ c0 rest, (toyParticipant 1).commitment = some c0 :: rest) ∧
      (∀ rand draw, ∃ d, (toyParticipant 1).StartWithRandom toyGroup rand draw = .ok d) ∧
      (∀ r1 r2 sk vk, (r1.length = (toyParticipant 1).maxSigners ∨
          r1.length = (toyParticipant 1).maxSignersMinusOne) →
        r2.length = (toyParticipant 1).maxSignersMinusOne →
        finalizeLoop toyGroup (toyParticipant 1) r1 r2 0 0 = .ok (sk, vk) →
        ∃ ks, ((toyParticipant 1).Finalize toyGroup r1 r2).1 = .ok ks)) :=
  newParticipant_lengths toyGroup Secp256k1 1 2 3 [] (toyRandom 1) (toyParticipant 1) (by decide)

end Proofs

end DKG

/-! # Theorems on the scalars of secp256k1 -/

namespace secp256k1

theorem setBytes_append (b : List Nat) (x : Nat) : setBytes (b ++ [x]) = setBytes b * 256 + x := by
  simp [setBytes, List.foldl_append]

theorem setBytes_lt (b : List Nat) (hb : ∀ x ∈ b, x < 256) : setBytes b < 256 ^ b.length := by
  induction b using List.reverseRecOn with
  | nil => simp [setBytes]
  | append_singleton b x ih =>
    have hx : x < 256 := hb x (by simp)
    have := ih (fun y hy => hb y (by simp [hy]))
    rw [setBytes_append, List.length_append, List.length_singleton, pow_succ]
    omega

theorem bigEndian_setBytes (b : List Nat) (hb : ∀ x ∈ b, x < 256) :
    bigEndian b.length (setBytes b) = b := by
  induction b using List.reverseRecOn with
  | nil => rfl
  | append_singleton b x ih =>
    have hx : x < 256 := hb x (by simp)
    have := ih (fun y hy => hb y (by simp [hy]))
    rw [setBytes_append, List.length_append, List.length_singleton, bigEndian]
    have h1 : (setBytes b * 256 + x) / 256 = setBytes b := by omega
    have h2 : (setBytes b * 256 + x) % 256 = x := by omega
    rw [h1, h2, this]

theorem order_lt : order < 256 ^ 32 := by decide

/-- C24: `Scalar.Decode(in)`, for every byte string `in` and every receiver,
returns the nil-or-empty-scalar error iff `len(in) == 0`, the
invalid-scalar-length error iff `len(in)` is neither 0 nor 32, the scalar-too-big
error iff `len(in) == 32` and the big-endian value of `in` is at least the group
order, and succeeds otherwise, the receiver then holding that value and its
`Encode()` being `in` again, on 32 bytes; on every error the receiver is left
unchanged. -/
theorem scalar_decode (s : Scalar) (input : List Nat) (hb : ∀ x ∈ input, x < 256) :
    ((s.Decode input).1 = some .paramNilScalar ↔ input.length = 0) ∧
    ((s.Decode input).1 = some .paramScalarLength ↔ input.length ≠ 0 ∧ input.length ≠ 32) ∧
    ((s.Decode input).1 = some .paramScalarTooBig ↔
      input.length = 32 ∧ order ≤ setBytes input) ∧
    ((s.Decode input).1 = none ↔ input.length = 32 ∧ setBytes input < order) ∧
    ((s.Decode input).1 = none →
      (s.Decode input).2.scalar = setBytes input ∧
      (s.Decode input).2.Encode = some input ∧ input.length = 32) ∧
    ((s.Decode input).1 ≠ none → (s.Decode input).2 = s) := by
  unfold Scalar.Decode
  by_cases h0 : input.length = 0
  · simp [h0]
  · by_cases h32 : input.length = 32
    · by_cases ho : order ≤ setBytes input
      · simp [h0, h32, ho, scalarLength]
      · have hlt : setBytes input < 256 ^ 32 := by
          have := order_lt
          omega
        have henc : fillBytes (setBytes input) 32 = some input := by
          rw [fillBytes, if_pos hlt]
          have := bigEndian_setBytes input hb
          rw [h32] at this
          rw [this]
        simp [h0, h32, ho, scalarLength, Scalar.Encode, henc]
        omega
    · simp [h0, h32, scalarLength]

theorem scalar_decode_witness :
    (((Scalar.mk 5).Decode (List.replicate 31 0 ++ [1])).1 = some .paramNilScalar ↔
      (List.replicate 31 0 ++ [1]).length = 0) ∧
    (((Scalar.mk 5).Decode (List.replicate 31 0 ++ [1])).1 = some .paramScalarLength ↔
      (List.replicate 31 0 ++ [1]).length ≠ 0 ∧ (List.replicate 31 0 ++ [1]).length ≠ 32) ∧
    (((Scalar.mk 5).Decode (List.replicate 31 0 ++ [1])).1 = some .paramScalarTooBig ↔
      (List.replicate 31 0 ++ [1]).length = 32 ∧ order ≤ setBytes (List.replicate 31 0 ++ [1])) ∧
    (((Scalar.mk 5).Decode (List.replicate 31 0 ++ [1])).1 = none ↔
      (List.replicate 31 0 ++ [1]).length = 32 ∧ setBytes (List.replicate 31 0 ++ [1]) < order) ∧
    (((Scalar.mk 5).Decode (List.replicate 31 0 ++ [1])).1 = none →
      ((Scalar.mk 5).Decode (List.replicate 31 0 ++ [1])).2.scalar
        = setBytes (List.replicate 31 0 ++ [1]) ∧
      ((Scalar.mk 5).Decode (List.replicate 31 0 ++ [1])).2.Encode
        = some (List.replicate 31 0 ++ [1]) ∧
      (List.replicate 31 0 ++ [1]).length = 32) ∧
    (((Scalar.mk 5).Decode (List.replicate 31 0 ++ [1])).1 ≠ none →
      ((Scalar.mk 5).Decode (List.replicate 31 0 ++ [1])).2 = Scalar.mk 5) :=
  scalar_decode (Scalar.mk 5) (List.replicate 31 0 ++ [1]) (by decide)

/-- C23 (the code at the failing input): the scalars 255 and 256 are below the
group order and 255 <= 256, yet `LessOrEqual` returns 0 on them, the last byte of
255 being greater than the last byte of 256; so `s.LessOrEqual(s + 1)` is 0 for
`s = 255`, which is not `order - 1`. It returns 1 on 256 and 511, and 0 on 256
and 255. -/
theorem lessOrEqual_bytewise :
    255 < order ∧ 256 < order ∧ 255 + 1 ≠ order ∧
    (Scalar.mk 255).Add (some (Scalar.mk 1)) = Scalar.mk 256 ∧
    (Scalar.mk 255).LessOrEqual (Scalar.mk 256) = some 0 ∧
    (Scalar.mk 256).LessOrEqual (Scalar.mk 511) = some 1 ∧
    (Scalar.mk 256).LessOrEqual (Scalar.mk 255) = some 0 := by
  refine ⟨by decide, by decide, by decide, by decide, by decide, by decide, by decide⟩

/-- C25: nil operands never raise, for every scalar `s`: `s.Add(nil)` and
`s.Subtract(nil)` leave `s` unchanged, `s.Multiply(nil)` and `s.Set(nil)` set `s`
to 0, `s.Pow(nil)` and `s.Pow(0)` set `s` to 1, and `s.Equal(nil)` returns 0. -/
theorem scalar_nil_operands (s : Scalar) :
    s.Add none = s ∧ s.Subtract none = s ∧
    s.Multiply none = Scalar.mk 0 ∧ s.Set none = Scalar.mk 0 ∧
    s.Pow none = Scalar.mk 1 ∧ s.Pow (some (Scalar.mk 0)) = Scalar.mk 1 ∧
    s.Equal none = 0 := by
  refine ⟨rfl, rfl, rfl, rfl, rfl, ?_, rfl⟩
  simp [Scalar.Pow, Scalar.IsZero, fnAreEqual, Scalar.One]

end secp256k1

/-! # Theorems on the reserved precompiles -/

namespace reserved

/-- C30 (the code at the failing inputs): the precompile of slot 47 has the zero
address, not the address of `ReservedSlot47PrecompileAddress`, and the precompile
of slot 48 has the address of `ReservedSlot47PrecompileAddress`, not that of
`ReservedSlot48PrecompileAddress`; so the keys of `WithReservedPrecompiles`
contain the zero address and do not contain the address of
`ReservedSlot48PrecompileAddress`. Every other slot from 15 to 50 (all but the entries 32 and 33 of the
list) has the address of its own constant. -/
theorem reserved_slot_addresses :
    (NewPrecompile 47).Address = List.replicate 20 0 ∧
    (NewPrecompile 47).Address ≠ HexToAddress evmtypes.ReservedSlot47PrecompileAddress ∧
    (NewPrecompile 48).Address = HexToAddress evmtypes.ReservedSlot47PrecompileAddress ∧
    (NewPrecompile 48).Address ≠ HexToAddress evmtypes.ReservedSlot48PrecompileAddress ∧
    HexToAddress evmtypes.ReservedSlot48PrecompileAddress
      = List.replicate 18 0 ++ [7, 72] ∧
    List.replicate 20 0 ∈ WithReservedPrecompilesKeys ∧
    HexToAddress evmtypes.ReservedSlot48PrecompileAddress ∉ WithReservedPrecompilesKeys ∧
    (WithReservedPrecompilesKeys.eraseIdx 33).eraseIdx 32
      = ((evmtypes.AvailableReservedPrecompiles.map HexToAddress).eraseIdx 33).eraseIdx 32 := by
  refine ⟨by decide, by decide, by decide, by decide, by decide, by decide, by decide, by decide⟩

end reserved
